import Mathlib

/-!
# rfind: expression engine and traversal

A shallow embedding of the expression engine of `rfind` (`src/expressions.{h,c}`,
`src/cmdline.c`, `src/action_print.c`, `src/test_name.c`, `src/test_empty.c`) and of its
traversal (`src/find.c`).

Conventions of the embedding

* `struct expr *` is an `Option Nat`: `none` is `NULL`, `some i` is the address of the
  `i`-th record ever allocated; the heap is the list of allocated records.  `calloc`
  and `realloc` are assumed to succeed, `free` is not modelled.
* The anonymous union of `struct expr` is the sum type `expr_union`; `test_arg` and
  `action_arg` share one slot of the union, as they do in C.
* A C string is a `String`; `s[i]` is `c_at s i` (the terminating NUL past the end) and
  `&s[i]` is `c_from s i`.
* Dereferencing `NULL`, a dangling address, or recursing without end has no result (`none`).
-/

namespace Rfind

/-! ## C strings -/

/-- The character `s[i]` of a C string, the terminating NUL when `i` is its length. -/
def c_at (s : String) (i : Nat) : Char := s.data.getD i (Char.ofNat 0)

/-- The C string `&s[i]`. -/
def c_from (s : String) (i : Nat) : String := String.mk (s.data.drop i)

/-! ## expressions.h -/

/-- Accepted operators in expressions (`enum expr_operator`). -/
inductive expr_operator
  | EXPR_OP_LBR
  | EXPR_OP_RBR
  | EXPR_OP_OR
  | EXPR_OP_AND
  | EXPR_OP_NOT
  deriving DecidableEq, Repr

open expr_operator

/-- The integer value of an enumerator of `enum expr_operator`. -/
def expr_operator.val : expr_operator → Nat
  | EXPR_OP_LBR => 0
  | EXPR_OP_RBR => 1
  | EXPR_OP_OR => 2
  | EXPR_OP_AND => 3
  | EXPR_OP_NOT => 4

/-- Types of expression records (`enum expr_type`). -/
inductive expr_type
  | EXPR_GROUP
  | EXPR_TEST
  | EXPR_ACT
  deriving DecidableEq, Repr

/-- Results of evaluating an expression (`enum expr_result`). -/
inductive expr_result
  | EXPR_FALSE
  | EXPR_TRUE
  deriving DecidableEq, Repr

open expr_result

/-- Expectation about the argument of a test or action (`enum expr_arg`). -/
inductive expr_arg
  | EXPR_ARG_MAND
  | EXPR_ARG_OPT
  | EXPR_ARG_NO
  deriving DecidableEq, Repr

open expr_arg

/-- The fields of `struct stat` the program reads. -/
structure stat where
  st_mode : Nat
  st_size : Int
  st_ino : Nat
  deriving DecidableEq, Repr

/-- The functions of type `expr_test_clb` defined in the repository. -/
inductive expr_test_clb
  | expr_test_empty_clb
  | expr_test_iname_clb
  | expr_test_name_clb
  deriving DecidableEq, Repr

/-- The functions of type `expr_action_clb` defined in the repository. -/
inductive expr_action_clb
  | expr_action_print0_clb
  | expr_action_print_clb
  deriving DecidableEq, Repr

/-- Information about a test module (`struct expr_test`, without the help text). -/
structure expr_test where
  id : String
  test : expr_test_clb
  arg : expr_arg
  deriving DecidableEq, Repr

/-- Information about an action module (`struct expr_action`, without the help text). -/
structure expr_action where
  id : String
  action : expr_action_clb
  arg : expr_arg
  deriving DecidableEq, Repr

/-- The anonymous union of `struct expr`, selected by `type`. -/
inductive expr_union
  | group (op : expr_operator) (expr1 expr2 : Option Nat)
  | test (test : expr_test_clb) (test_arg : Option String)
  | act (action : expr_action_clb) (action_arg : Option String)
  deriving DecidableEq, Repr

/-- Expression record (`struct expr`). -/
structure expr where
  u : expr_union
  next : Option Nat
  deriving DecidableEq, Repr

/-- The `type` field of an expression record. -/
def expr.type (e : expr) : expr_type :=
  match e.u with
  | .group _ _ _ => .EXPR_GROUP
  | .test _ _ => .EXPR_TEST
  | .act _ _ => .EXPR_ACT

/-- The slot shared by `expr1`, `test_arg` and `action_arg` is non-null. -/
def expr.has_arg (e : expr) : Bool :=
  match e.u with
  | .group _ e1 _ => e1.isSome
  | .test _ a => a.isSome
  | .act _ a => a.isSome

/-! ## expressions.c -/

/-- Filled list of information about test modules. -/
def expr_tests : List expr_test :=
  [ ⟨"empty", .expr_test_empty_clb, EXPR_ARG_NO⟩,
    ⟨"iname", .expr_test_iname_clb, EXPR_ARG_MAND⟩,
    ⟨"name", .expr_test_name_clb, EXPR_ARG_MAND⟩ ]

/-- Filled list of information about action modules. -/
def expr_actions : List expr_action :=
  [ ⟨"print0", .expr_action_print0_clb, EXPR_ARG_NO⟩,
    ⟨"print", .expr_action_print_clb, EXPR_ARG_NO⟩ ]

/-- The entry `expr_actions[EXPR_ACT_PRINT]`. -/
def expr_actions_PRINT : expr_action := ⟨"print", .expr_action_print_clb, EXPR_ARG_NO⟩

/-- The test `arg[0] == '-' || arg[0] == '!' || arg[0] == '(' || arg[0] == ')'`. -/
def starts_like_token (arg : String) : Bool :=
  c_at arg 0 = '-' || c_at arg 0 = '!' || c_at arg 0 = '(' || c_at arg 0 = ')'

/-- Allocation of one record: it is appended to the heap and its address returned. -/
def alloc (h : List expr) (e : expr) : List expr × Nat := (h ++ [e], h.length)

/-- The function `expr_new_group`. -/
def expr_new_group (h : List expr) (op : expr_operator) (e1 e2 : Option Nat) :
    List expr × Nat :=
  alloc h ⟨.group op e1 e2, none⟩

/-- The condition `arg && arg[0] != '-' && arg[0] != '!' && arg[0] != '(' && arg[0] != ')'`. -/
def plain_arg (arg : Option String) : Bool :=
  match arg with
  | none => false
  | some a => !starts_like_token a

/-- The argument check shared, line by line, by `expr_new_test` and `expr_new_action`:
the argument stored in the new record for the arity hint `hint` and the command line
argument `arg`, or `none` when the function fails. -/
def checked_arg (hint : expr_arg) (arg : Option String) : Option (Option String) :=
  if hint = EXPR_ARG_MAND then
    if plain_arg arg then some arg else none
  else if hint = EXPR_ARG_OPT ∧ plain_arg arg then some arg
  else if hint = EXPR_ARG_NO ∧ plain_arg arg then none
  else some none

/-- The function `expr_new_test`; `none` is the `NULL` result. -/
def expr_new_test (h : List expr) (info : expr_test) (arg : Option String) :
    Option (List expr × Nat) :=
  match checked_arg info.arg arg with
  | none => none
  | some a => some (alloc h ⟨.test info.test a, none⟩)

/-- The function `expr_new_action`; `none` is the `NULL` result. -/
def expr_new_action (h : List expr) (info : expr_action) (arg : Option String) :
    Option (List expr × Nat) :=
  match checked_arg info.arg arg with
  | none => none
  | some a => some (alloc h ⟨.act info.action a, none⟩)

/-- The test and action callbacks, as functions on an abstract state of the outside
world `σ` (standard output, the file system). -/
structure callbacks (σ : Type) where
  test : expr_test_clb → String → String → stat → Option String → σ → expr_result × σ
  action : expr_action_clb → String → Option String → σ → expr_result × σ

/-- The function `expr_eval` on the record at address `e`; the first argument bounds
the depth of the recursion. -/
def expr_eval {σ : Type} (cb : callbacks σ) (h : List expr) (filepath name : String)
    (st : stat) : Nat → Option Nat → σ → Option (expr_result × σ)
  | 0, _, _ => none
  | _ + 1, none, _ => none
  | fuel + 1, some p, w =>
    match h[p]? with
    | none => none
    | some e =>
      match e.u with
      | .group op expr1 expr2 =>
        match expr_eval cb h filepath name st fuel expr1 w with
        | none => none
        | some (r1, w1) =>
          if op = EXPR_OP_NOT then
            some (if r1 = EXPR_TRUE then EXPR_FALSE else EXPR_TRUE, w1)
          else if op = EXPR_OP_AND ∧ r1 = EXPR_FALSE then some (r1, w1)
          else if op = EXPR_OP_OR ∧ r1 = EXPR_TRUE then some (r1, w1)
          else
            match expr_eval cb h filepath name st fuel expr2 w1 with
            | none => none
            | some (r2, w2) =>
              if op = EXPR_OP_AND then
                some (if r1 = EXPR_TRUE ∧ r2 = EXPR_TRUE then EXPR_TRUE else EXPR_FALSE, w2)
              else if op = EXPR_OP_OR then
                some (if r1 = EXPR_TRUE ∨ r2 = EXPR_TRUE then EXPR_TRUE else EXPR_FALSE, w2)
              else some (EXPR_FALSE, w2)
      | .test t arg => some (cb.test t filepath name st arg w)
      | .act a arg => some (cb.action a filepath arg w)

/-! ## cmdline.c: the expression parser -/

/-- The local variables of `parse_expressions` together with the heap and `expr_last`,
the static variable of `expr_list_insert`.  The operator stack is a list whose head is
the top of the stack (`op_stack[count - 1]`). -/
structure parse_state where
  heap : List expr
  expressions : Option Nat
  expr_last : Option Nat
  op_stack : List expr_operator
  has_action : Bool
  deriving DecidableEq, Repr

/-- The state at the entry of `parse_expressions`. -/
def parse_state.init : parse_state := ⟨[], none, none, [], false⟩

/-- The assignment `p->next = q` on the heap. -/
def set_next (h : List expr) (p : Nat) (q : Option Nat) : List expr :=
  h.modify (fun e => { e with next := q }) p

/-- The function `expr_list_insert`: the record at `expr_new` becomes the last one of the
postfix list.  The branch with an empty `expr_last` is the failing `assert`; it is
never taken, because `expressions` and `expr_last` are set together. -/
def expr_list_insert (expr_new : Nat) (s : parse_state) : parse_state :=
  match s.expressions with
  | none => { s with expressions := some expr_new, expr_last := some expr_new }
  | some _ =>
    match s.expr_last with
    | none => s
    | some l => { s with heap := set_next s.heap l (some expr_new), expr_last := some expr_new }

/-- Make the expression record from a popped operator and insert it into the postfix
list: `expr_list_insert(expr_new_group(op_prev, NULL, NULL), expressions)`. -/
def emit_group (op_prev : expr_operator) (s : parse_state) : parse_state :=
  let r := expr_new_group s.heap op_prev none none
  expr_list_insert r.2 { s with heap := r.1 }

/-- The `while (*count)` loop of `op_stack_push`, on the stack `stk` (top first). -/
def op_stack_push_pops (op : expr_operator) : List expr_operator → parse_state → parse_state
  | [], s => { s with op_stack := [] }
  | op_prev :: stk, s =>
    if op = EXPR_OP_RBR then
      if op_prev = EXPR_OP_LBR then { s with op_stack := stk }
      else op_stack_push_pops op stk (emit_group op_prev s)
    else if op_prev.val ≥ op.val then op_stack_push_pops op stk (emit_group op_prev s)
    else { s with op_stack := op_prev :: stk }

/-- The function `op_stack_push`. -/
def op_stack_push (op : expr_operator) (s : parse_state) : parse_state :=
  let s1 := if op ≠ EXPR_OP_LBR then op_stack_push_pops op s.op_stack s else s
  if op = EXPR_OP_RBR then s1
  else { s1 with op_stack := op :: s1.op_stack }

/-- The loop of `op_stack_clean`, on the stack `stk` (top first). -/
def op_stack_clean_loop : List expr_operator → parse_state → parse_state
  | [], s => { s with op_stack := [] }
  | op :: stk, s => op_stack_clean_loop stk (emit_group op s)

/-- The function `op_stack_clean`. -/
def op_stack_clean (s : parse_state) : parse_state :=
  op_stack_clean_loop s.op_stack s

/-- The conditions `expr_new->test_arg` and `expr_new->action_arg` on the record at `p`. -/
def arg_slot (h : List expr) (p : Nat) : Bool :=
  match h[p]? with
  | some e => e.has_arg
  | none => false

/-- The body of the `for` loop of `parse_expressions` at the token `tok = argv[*argpos]`,
`nxt` being `argc > (*argpos) + 1 ? argv[(*argpos) + 1] : NULL`.  The result is the state
after the body and whether the body itself has advanced `*argpos` over the argument of
a terminal; `none` is the jump to `parsing_error`. -/
def parse_step (tok : String) (nxt : Option String) (s : parse_state) :
    Option (parse_state × Bool) :=
  if c_at tok 0 = '-' then
    if c_at tok 1 = '-' then none
    else if c_from tok 1 = "not" then some (op_stack_push EXPR_OP_NOT s, false)
    else if c_from tok 1 = "a" ∨ c_from tok 1 = "and" then
      some (op_stack_push EXPR_OP_AND s, false)
    else if c_from tok 1 = "o" ∨ c_from tok 1 = "or" then
      some (op_stack_push EXPR_OP_OR s, false)
    else
      match expr_tests.find? (fun i => c_from tok 1 = i.id) with
      | some info =>
        match expr_new_test s.heap info nxt with
        | none => none
        | some (h, expr_new) =>
          some (expr_list_insert expr_new { s with heap := h }, arg_slot h expr_new)
      | none =>
        match expr_actions.find? (fun i => c_from tok 1 = i.id) with
        | some info =>
          match expr_new_action s.heap info nxt with
          | none => none
          | some (h, expr_new) =>
            some (expr_list_insert expr_new { s with heap := h, has_action := true },
              arg_slot h expr_new)
        | none => none
  else if c_at tok 0 = '!' then
    if c_at tok 1 ≠ Char.ofNat 0 then none
    else some (op_stack_push EXPR_OP_NOT s, false)
  else if c_at tok 0 = '(' then
    if c_at tok 1 ≠ Char.ofNat 0 then none
    else some (op_stack_push EXPR_OP_LBR s, false)
  else if c_at tok 0 = ')' then
    if c_at tok 1 ≠ Char.ofNat 0 then none
    else some (op_stack_push EXPR_OP_RBR s, false)
  else none

/-- The `for` loop of `parse_expressions` over the tokens `argv[*argpos .. argc-1]`;
`none` is the jump to `parsing_error`. -/
def parse_loop : List String → parse_state → Option parse_state
  | [], s => some s
  | tok :: rest, s =>
    match parse_step tok rest.head? s with
    | none => none
    | some (s1, consumed) =>
      match rest with
      | [] => some s1
      | a :: rest1 => if consumed then parse_loop rest1 s1 else parse_loop (a :: rest1) s1

/-- The scan `for (e_grp = ...; e_grp && (e_grp->type != EXPR_GROUP || e_grp->expr1);
e_grp = e_grp->next)` started at `e_grp`; the first argument bounds the number of
steps, and the outer `none` is the scan that has not ended within the bound. -/
def find_grp (h : List expr) : Nat → Option Nat → Option (Option Nat)
  | 0, _ => none
  | _ + 1, none => some none
  | fuel + 1, some g =>
    match h[g]? with
    | none => none
    | some e =>
      if e.type ≠ .EXPR_GROUP ∨ e.has_arg then find_grp h fuel e.next
      else some (some g)

/-- The assignments `e_grp->expr1 = e_list; if (e_grp->op != EXPR_OP_NOT) e_grp->expr2 =
e_list->next;` on the heap, `nxt` being `e_list->next`. -/
def adopt (h : List expr) (e_grp e_list : Nat) (nxt : Option Nat) : List expr :=
  h.modify (fun e =>
    match e.u with
    | .group op _ expr2 =>
      { e with u := .group op (some e_list) (if op ≠ EXPR_OP_NOT then nxt else expr2) }
    | _ => e) e_grp

/-- The loop `while (e_list)` of `parse_expressions` that converts the postfix list into
the evaluation tree; it returns the heap and the variable `expressions`.  The first
argument bounds the number of iterations; `none` is a loop that has not ended within
the bound. -/
def link_loop : Nat → List expr → Option Nat → Option Nat → Option (List expr × Option Nat)
  | 0, _, _, _ => none
  | _ + 1, h, none, expressions => some (h, expressions)
  | fuel + 1, h, some e_list, _ =>
    match h[e_list]? with
    | none => none
    | some e =>
      match find_grp h (h.length + 1) e.next with
      | none => none
      | some none => link_loop fuel h none (some e_list)
      | some (some e_grp) =>
        link_loop fuel (adopt h e_grp e_list e.next) (some e_grp) (some e_grp)

/-- The outcome of `parse_expressions`: its return value and, for `EXIT_SUCCESS`, the
heap and the pointer stored to `*expressions_p`.  `unterminated` stands for a linking
loop that does not end. -/
inductive parse_outcome
  | EXIT_FAILURE
  | EXIT_SUCCESS (heap : List expr) (expressions : Option Nat)
  | unterminated
  deriving DecidableEq, Repr

/-- The first part of `parse_expressions`: the token loop and `op_stack_clean`, which
leave the postfix list. -/
def parse_tokens (argv : List String) (argpos : Nat) : Option parse_state :=
  match parse_loop (argv.drop argpos) parse_state.init with
  | none => none
  | some s => some (op_stack_clean s)

/-- The conversion of a non-empty postfix list starting at `e_list` into the
evaluation tree. -/
def link (h : List expr) (e_list : Nat) : Option (List expr × Option Nat) :=
  link_loop (h.length + 1) h (some e_list) none

/-- The default action appended to a linked tree:
`expr_new_group(EXPR_OP_AND, expressions, expr_new_action(&expr_actions[EXPR_ACT_PRINT], NULL))`. -/
def add_default_action (h : List expr) (expressions : Option Nat) : parse_outcome :=
  match expr_new_action h expr_actions_PRINT none with
  | none => .EXIT_SUCCESS (expr_new_group h EXPR_OP_AND expressions none).1
      (some (expr_new_group h EXPR_OP_AND expressions none).2)
  | some (h1, act) =>
    .EXIT_SUCCESS (expr_new_group h1 EXPR_OP_AND expressions (some act)).1
      (some (expr_new_group h1 EXPR_OP_AND expressions (some act)).2)

/-- The function `parse_expressions`. -/
def parse_expressions (argv : List String) (argpos : Nat) : parse_outcome :=
  match parse_tokens argv argpos with
  | none => .EXIT_FAILURE
  | some s =>
    match s.expressions with
    | none =>
      match expr_new_action s.heap expr_actions_PRINT none with
      | none => .EXIT_FAILURE
      | some (h, act) => .EXIT_SUCCESS h (some act)
    | some e_list =>
      match link s.heap e_list with
      | none => .unterminated
      | some (h, expressions) =>
        if s.has_action then .EXIT_SUCCESS h expressions
        else add_default_action h expressions

/-! ## The trees the parser is meant to build -/

/-- An evaluation tree, the value a well-formed pointer structure stands for; `null` is
an absent child. -/
inductive tree
  | null
  | group (op : expr_operator) (expr1 expr2 : tree)
  | test (test : expr_test_clb) (test_arg : Option String)
  | act (action : expr_action_clb) (action_arg : Option String)
  deriving DecidableEq, Repr

/-- The pointer `p` into the heap `h` is the root of a copy of the tree `t`. -/
def represents (h : List expr) : Option Nat → tree → Bool
  | none, .null => true
  | some _, .null => false
  | none, _ => false
  | some p, .group op t1 t2 =>
    match h[p]? with
    | some ⟨.group op1 p1 p2, _⟩ => op1 = op && represents h p1 t1 && represents h p2 t2
    | _ => false
  | some p, .test c a =>
    match h[p]? with
    | some ⟨.test c1 a1, _⟩ => c1 = c && a1 = a
    | _ => false
  | some p, .act c a =>
    match h[p]? with
    | some ⟨.act c1 a1, _⟩ => c1 = c && a1 = a
    | _ => false

/-- The parser succeeds on the tokens `argv` and returns the root of a copy of `t`. -/
def builds (argv : List String) (t : tree) : Prop :=
  ∃ h root, parse_expressions argv 0 = .EXIT_SUCCESS h root ∧ represents h root t = true

/-- Groups restricted to AND, OR and NOT with the required children: both children for
AND and OR, exactly the left child for NOT. -/
def tree.wf_groups : tree → Bool
  | .null => false
  | .test _ _ => true
  | .act _ _ => true
  | .group op t1 t2 =>
    match op with
    | EXPR_OP_NOT => t1.wf_groups && decide (t2 = .null)
    | EXPR_OP_AND => t1.wf_groups && t2.wf_groups
    | EXPR_OP_OR => t1.wf_groups && t2.wf_groups
    | _ => false

/-- The number of records on the longest path from the root. -/
def tree.depth : tree → Nat
  | .null => 0
  | .test _ _ => 1
  | .act _ _ => 1
  | .group _ t1 t2 => max t1.depth t2.depth + 1

/-- The Boolean formula read off a tree, for given truth values of the leaves. -/
def tree.formula (tv : expr_test_clb → Option String → Bool)
    (av : expr_action_clb → Option String → Bool) : tree → Bool
  | .null => false
  | .test c a => tv c a
  | .act c a => av c a
  | .group op t1 t2 =>
    match op with
    | EXPR_OP_NOT => !(t1.formula tv av)
    | EXPR_OP_AND => t1.formula tv av && t2.formula tv av
    | EXPR_OP_OR => t1.formula tv av || t2.formula tv av
    | _ => false

/-- The value of `enum expr_result` for a truth value. -/
def expr_result.ofBool : Bool → expr_result
  | true => EXPR_TRUE
  | false => EXPR_FALSE

/-! ## Observing the callbacks -/

/-- One invocation of a test or action callback, with its arguments. -/
inductive call
  | test (clb : expr_test_clb) (filepath name : String) (st : stat) (arg : Option String)
  | action (clb : expr_action_clb) (filepath : String) (arg : Option String)
  deriving DecidableEq, Repr

/-- The callbacks `cb`, each of which also appends its invocation to a log. -/
def logged {σ : Type} (cb : callbacks σ) : callbacks (σ × List call) where
  test c filepath name st arg w :=
    ((cb.test c filepath name st arg w.1).1,
      ((cb.test c filepath name st arg w.1).2, w.2 ++ [call.test c filepath name st arg]))
  action c filepath arg w :=
    ((cb.action c filepath arg w.1).1,
      ((cb.action c filepath arg w.1).2, w.2 ++ [call.action c filepath arg]))

/-! ## The callbacks of the repository -/

/-- The external collaborators of the callbacks: the glob matcher `fnmatch(pattern, string,
flags)` of the C library and the directory listing (`opendir` and the names `readdir`
yields; `none` when the directory cannot be opened). -/
structure sys where
  fnmatch : Option String → String → Int → Int
  opendir : String → Option (List String)

/-- The outside world the actions write to. -/
structure world where
  stdout : String
  deriving DecidableEq, Repr

/-- The constant `FNM_NOMATCH` of `fnmatch.h`. -/
def FNM_NOMATCH : Int := 1

/-- The constant `FNM_CASEFOLD` of `fnmatch.h`. -/
def FNM_CASEFOLD : Int := 16

/-- The constant `S_IFDIR` of `sys/stat.h`. -/
def S_IFDIR : Nat := 0o040000

/-- The function `expr_test_name_common` (test_name.c), without the log line. -/
def expr_test_name_common (os : sys) (name : String) (pattern : Option String)
    (flags : Int) : expr_result :=
  let rc := os.fnmatch pattern name flags
  if rc = 0 then EXPR_TRUE
  else if rc = FNM_NOMATCH then EXPR_FALSE
  else EXPR_FALSE

/-- The function `expr_test_name_clb`. -/
def expr_test_name_clb (os : sys) (_path name : String) (_st : stat) (arg : Option String) :
    expr_result :=
  expr_test_name_common os name arg 0

/-- The function `expr_test_iname_clb`. -/
def expr_test_iname_clb (os : sys) (_path name : String) (_st : stat) (arg : Option String) :
    expr_result :=
  expr_test_name_common os name arg FNM_CASEFOLD

/-- The `readdir` loop of `expr_test_empty_clb` over the names of the directory stream. -/
def empty_scan : List String → expr_result
  | [] => EXPR_TRUE
  | d_name :: more =>
    if d_name = "." ∨ d_name = ".." then empty_scan more
    else EXPR_FALSE

/-- The function `expr_test_empty_clb` (test_empty.c). -/
def expr_test_empty_clb (os : sys) (path _name : String) (st : stat) (_arg : Option String) :
    expr_result :=
  if st.st_mode &&& S_IFDIR ≠ 0 then
    match os.opendir path with
    | none => EXPR_FALSE
    | some names => empty_scan names
  else if st.st_size ≠ 0 then EXPR_FALSE
  else EXPR_TRUE

/-- The function `expr_action_print_clb` (action_print.c). -/
def expr_action_print_clb (filepath : String) (_arg : Option String) (w : world) :
    expr_result × world :=
  (EXPR_TRUE, ⟨w.stdout ++ filepath ++ "\n"⟩)

/-- The function `expr_action_print0_clb` (action_print.c). -/
def expr_action_print0_clb (filepath : String) (_arg : Option String) (w : world) :
    expr_result × world :=
  (EXPR_TRUE, ⟨w.stdout ++ filepath ++ String.singleton (Char.ofNat 0)⟩)

/-- The callbacks of the repository, by function pointer. -/
def rfind_callbacks (os : sys) : callbacks world where
  test c filepath name st arg w :=
    match c with
    | .expr_test_empty_clb => (expr_test_empty_clb os filepath name st arg, w)
    | .expr_test_iname_clb => (expr_test_iname_clb os filepath name st arg, w)
    | .expr_test_name_clb => (expr_test_name_clb os filepath name st arg, w)
  action c filepath arg w :=
    match c with
    | .expr_action_print0_clb => expr_action_print0_clb filepath arg w
    | .expr_action_print_clb => expr_action_print_clb filepath arg w

/-! ## Terminals of the command line -/

/-- A terminal of the expression grammar: a registered test or action with the argument
that follows it on the command line, if any. -/
inductive terminal
  | test (info : expr_test) (arg : Option String)
  | action (info : expr_action) (arg : Option String)
  deriving DecidableEq, Repr

/-- The command line tokens of a terminal. -/
def terminal.tokens : terminal → List String
  | .test info arg => ("-" ++ info.id) :: arg.toList
  | .action info arg => ("-" ++ info.id) :: arg.toList

/-- The leaf a terminal stands for. -/
def terminal.leaf : terminal → tree
  | .test info arg => .test info.test arg
  | .action info arg => .act info.action arg

/-- The terminal is an action. -/
def terminal.is_action : terminal → Bool
  | .test _ _ => false
  | .action _ _ => true

/-- The terminal is registered and carries the argument its arity asks for: a string
that does not start like an expression token for MANDATORY, none for NONE. -/
def terminal.valid : terminal → Prop
  | .test info arg => info ∈ expr_tests ∧ checked_arg info.arg arg = some arg
  | .action info arg => info ∈ expr_actions ∧ checked_arg info.arg arg = some arg

instance (T : terminal) : Decidable T.valid := by
  cases T <;> unfold terminal.valid <;> infer_instance

/-- The tree with the default action added, as `parse_expressions` adds it when the
command line has no action. -/
def with_default_print (t : tree) : tree :=
  .group EXPR_OP_AND t (.act .expr_action_print_clb none)

/-- The tree expected from the parser for the expression tree `t` of a command line with
the terminals `Ts`. -/
def expected_root (Ts : List terminal) (t : tree) : tree :=
  if Ts.any terminal.is_action then t else with_default_print t

/-! ## The heap of a postfix list -/

/-- The heap of a postfix list whose records carry `us`, allocated in this order: the
`next` of every record is the record allocated after it, and `NULL` for the last. -/
def seq_heap (us : List expr_union) : List expr :=
  us.enum.map (fun iu => ⟨iu.2, if iu.1 + 1 < us.length then some (iu.1 + 1) else none⟩)

/-- The state of `parse_expressions` whose postfix list carries `us`, with the operator
stack `stk` and the flag `ha`. -/
def list_state (us : List expr_union) (stk : List expr_operator) (ha : Bool) : parse_state :=
  ⟨seq_heap us, if us = [] then none else some 0,
    if us = [] then none else some (us.length - 1), stk, ha⟩

/-- The union part of the record of a terminal. -/
def terminal.u : terminal → expr_union
  | .test info arg => .test info.test arg
  | .action info arg => .act info.action arg

/-- The state after the record of the terminal `T` has been allocated and inserted into
the postfix list. -/
def insert_leaf (T : terminal) (s : parse_state) : parse_state :=
  expr_list_insert s.heap.length
    { s with heap := s.heap ++ [⟨T.u, none⟩], has_action := s.has_action || T.is_action }

/-- The operators the `while` loop of `op_stack_push` pops and turns into records, in
this order, from the stack `stk` (top first). -/
def popped (op : expr_operator) : List expr_operator → List expr_operator
  | [] => []
  | op_prev :: stk =>
    if op = EXPR_OP_RBR then
      if op_prev = EXPR_OP_LBR then [] else op_prev :: popped op stk
    else if op_prev.val ≥ op.val then op_prev :: popped op stk
    else []

/-- The stack the `while` loop of `op_stack_push` leaves. -/
def kept (op : expr_operator) : List expr_operator → List expr_operator
  | [] => []
  | op_prev :: stk =>
    if op = EXPR_OP_RBR then
      if op_prev = EXPR_OP_LBR then stk else kept op stk
    else if op_prev.val ≥ op.val then kept op stk
    else op_prev :: stk

/-- The record of an operator, as `expr_new_group(op, NULL, NULL)` makes it. -/
def open_group (op : expr_operator) : expr_union := .group op none none

/-- The token is one of the spellings of the operator `op` on the command line. -/
def spells (tok : String) (op : expr_operator) : Prop :=
  match op with
  | EXPR_OP_LBR => tok = "("
  | EXPR_OP_RBR => tok = ")"
  | EXPR_OP_OR => tok = "-o" ∨ tok = "-or"
  | EXPR_OP_AND => tok = "-a" ∨ tok = "-and"
  | EXPR_OP_NOT => tok = "!" ∨ tok = "-not"

/-- The argument of a terminal. -/
def terminal.arg : terminal → Option String
  | .test _ arg => arg
  | .action _ arg => arg

/-- The record is a group whose `expr1` is still empty: the negation of the condition
`e_grp->type != EXPR_GROUP || e_grp->expr1` of the linking scan. -/
def is_open (u : expr_union) : Bool :=
  match u with
  | .group _ none _ => true
  | _ => false

/-- The address of the first record of `us` that is a group with an empty `expr1`, the
head of `us` being at address `k`. -/
def first_open : List expr_union → Nat → Option Nat
  | [], _ => none
  | u :: us, k => if is_open u then some k else first_open us (k + 1)

/-- The change the linking pass makes to the group that adopts the record at `e_list`,
`nxt` being `e_list->next`. -/
def adopt_u (e_list : Nat) (nxt : Option Nat) (u : expr_union) : expr_union :=
  match u with
  | .group op _ expr2 => .group op (some e_list) (if op ≠ EXPR_OP_NOT then nxt else expr2)
  | _ => u

/-- The `next` pointer of the record at address `i` in a postfix list of `n` records. -/
def seq_next (n i : Nat) : Option Nat := if i + 1 < n then some (i + 1) else none

/-- The two records `parse_expressions` allocates for the default action, on top of a
heap of `n` records whose linked root is `T`. -/
def default_records (n : Nat) (T : Option Nat) : List expr :=
  [⟨.act .expr_action_print_clb none, none⟩, ⟨.group EXPR_OP_AND T (some n), none⟩]

/-- The pointer `p` into a heap whose records carry `us` is the root of a copy of `t`. -/
def tree_at (us : List expr_union) : Option Nat → tree → Bool
  | none, .null => true
  | some _, .null => false
  | none, _ => false
  | some p, .group op t1 t2 =>
    match us[p]? with
    | some (.group op1 p1 p2) => op1 = op && tree_at us p1 t1 && tree_at us p2 t2
    | _ => false
  | some p, .test c a =>
    match us[p]? with
    | some (.test c1 a1) => c1 = c && a1 = a
    | _ => false
  | some p, .act c a =>
    match us[p]? with
    | some (.act c1 a1) => c1 = c && a1 = a
    | _ => false

/-- The tokens `T1 tok T2 tok ... tok Tn` after `T1`. -/
def chain_tokens (tok : String) (Ts : List terminal) : List String :=
  Ts.flatMap (fun T => tok :: T.tokens)

/-- The left-nested tree `op(...op(op(t, T2), T3)..., Tn)`. -/
def left_nested (op : expr_operator) (t : tree) (Ts : List terminal) : tree :=
  Ts.foldl (fun acc T => .group op acc T.leaf) t

/-- The records of the postfix list of a chain after its first two terminals and first
operator: each further terminal followed by the record of an operator. -/
def chain_us (op : expr_operator) (Ts : List terminal) : List expr_union :=
  Ts.flatMap (fun T => [T.u, open_group op])

/-- The records `chain_us` after the linking pass, the record before them being at
address `e`. -/
def linked_us (op : expr_operator) : Nat → List terminal → List expr_union
  | _, [] => []
  | e, T :: Ts => T.u :: .group op (some e) (some (e + 1)) :: linked_us op (e + 2) Ts

/-! ## A sample of the external collaborators -/

/-- A sample C library and file system for examples: `fnmatch` accepts a name exactly
when it equals the pattern, the directory `d` holds only `.` and `..`, and no other
directory can be opened. -/
def literal_sys : sys where
  fnmatch pattern name _ := if pattern = some name then 0 else FNM_NOMATCH
  opendir path := if path = "d" then some [".", ".."] else none

/-- A regular file (`S_IFREG`, mode 0644) of the given size. -/
def regular_file (size : Int) : stat := ⟨0o100644, size, 7⟩

/-- The records of the tree `-name a -a -print`, linked by hand. -/
def sample_heap : List expr :=
  [ ⟨.test .expr_test_name_clb (some "a"), none⟩,
    ⟨.act .expr_action_print_clb none, none⟩,
    ⟨.group EXPR_OP_AND (some 0) (some 1), none⟩ ]

/-- The truth value of a test of the repository on a file, which does not depend on
the outside world. -/
def test_value (os : sys) (filepath name : String) (st : stat) (c : expr_test_clb)
    (arg : Option String) : Bool :=
  decide (((rfind_callbacks os).test c filepath name st arg ⟨""⟩).1 = EXPR_TRUE)

/-! ## A conventional operator-precedence parser

The parser of the specification: recursive descent over the grammar
`E ::= terminal | ! E | -not E | E -a E | E -o E | ( E )` with precedence
NOT > AND > OR, left-associative binary operators and parenthesised subexpressions,
producing the tree directly. -/

/-- The precedence levels of the conventional parser. -/
inductive ref_level
  | or_level
  | and_level
  | not_level
  deriving DecidableEq, Repr

/-- What the conventional parser is doing: parsing an expression of a level, or
continuing a left-associative chain of a level whose left operand is `acc`. -/
inductive ref_mode
  | expression (lvl : ref_level)
  | chain (lvl : ref_level) (acc : tree)

/-- The leaf of a terminal token `tok` followed by the tokens `rest`, and the tokens
left after its argument, by the arity of the descriptor. -/
def ref_terminal (tok : String) (rest : List String) : Option (tree × List String) :=
  if c_at tok 0 = '-' then
    match expr_tests.find? (fun i => c_from tok 1 = i.id) with
    | some info =>
      if info.arg = EXPR_ARG_MAND then
        match rest with
        | a :: rest1 => if starts_like_token a then none else some (.test info.test (some a), rest1)
        | [] => none
      else some (.test info.test none, rest)
    | none =>
      match expr_actions.find? (fun i => c_from tok 1 = i.id) with
      | some info =>
        if info.arg = EXPR_ARG_MAND then
          match rest with
          | a :: rest1 =>
            if starts_like_token a then none else some (.act info.action (some a), rest1)
          | [] => none
        else some (.act info.action none, rest)
      | none => none
  else none

/-- The conventional parser; the first argument bounds the depth of the descent.  The
result is the tree of the longest expression of the mode at the head of the tokens and
the tokens after it. -/
def ref_run : Nat → ref_mode → List String → Option (tree × List String)
  | 0, _, _ => none
  | n + 1, .expression .or_level, toks =>
    match ref_run n (.expression .and_level) toks with
    | none => none
    | some (l, rest) => ref_run n (.chain .or_level l) rest
  | n + 1, .expression .and_level, toks =>
    match ref_run n (.expression .not_level) toks with
    | none => none
    | some (l, rest) => ref_run n (.chain .and_level l) rest
  | _ + 1, .expression .not_level, [] => none
  | n + 1, .expression .not_level, tok :: rest =>
    if tok = "!" ∨ tok = "-not" then
      match ref_run n (.expression .not_level) rest with
      | none => none
      | some (t, rest1) => some (.group EXPR_OP_NOT t .null, rest1)
    else if tok = "(" then
      match ref_run n (.expression .or_level) rest with
      | some (t, tok1 :: rest1) => if tok1 = ")" then some (t, rest1) else none
      | _ => none
    else ref_terminal tok rest
  | _ + 1, .chain _ acc, [] => some (acc, [])
  | n + 1, .chain .or_level acc, tok :: rest =>
    if tok = "-o" ∨ tok = "-or" then
      match ref_run n (.expression .and_level) rest with
      | none => none
      | some (r, rest1) => ref_run n (.chain .or_level (.group EXPR_OP_OR acc r)) rest1
    else some (acc, tok :: rest)
  | n + 1, .chain .and_level acc, tok :: rest =>
    if tok = "-a" ∨ tok = "-and" then
      match ref_run n (.expression .not_level) rest with
      | none => none
      | some (r, rest1) => ref_run n (.chain .and_level (.group EXPR_OP_AND acc r)) rest1
    else some (acc, tok :: rest)
  | _ + 1, .chain .not_level acc, toks => some (acc, toks)

/-- The tree of a whole token sequence by the conventional parser. -/
def ref_parse (toks : List String) : Option tree :=
  match ref_run (4 * toks.length + 4) (.expression .or_level) toks with
  | some (t, []) => some t
  | _ => none

/-- The tree has an action leaf. -/
def tree.has_action : tree → Bool
  | .null => false
  | .test _ _ => false
  | .act _ _ => true
  | .group _ t1 t2 => t1.has_action || t2.has_action

/-- The tree with the default print added when it has no action leaf. -/
def tree.with_default (t : tree) : tree :=
  if t.has_action then t else with_default_print t

/-! ## Heaps of the examples -/

/-- The records `parse_expressions` leaves for `-name a -o -name b -a -name c`. -/
def or_and_heap : List expr :=
  [ ⟨.test .expr_test_name_clb (some "a"), some 1⟩,
    ⟨.test .expr_test_name_clb (some "b"), some 2⟩,
    ⟨.test .expr_test_name_clb (some "c"), some 3⟩,
    ⟨.group EXPR_OP_AND (some 0) (some 1), some 4⟩,
    ⟨.group EXPR_OP_OR (some 3) (some 4), none⟩,
    ⟨.act .expr_action_print_clb none, none⟩,
    ⟨.group EXPR_OP_AND (some 4) (some 5), none⟩ ]

/-- The records `parse_expressions` leaves for `-name a -a ! -name b`. -/
def and_not_heap : List expr :=
  [ ⟨.test .expr_test_name_clb (some "a"), some 1⟩,
    ⟨.test .expr_test_name_clb (some "b"), some 2⟩,
    ⟨.group EXPR_OP_NOT (some 0) none, some 3⟩,
    ⟨.group EXPR_OP_AND (some 2) (some 3), none⟩,
    ⟨.act .expr_action_print_clb none, none⟩,
    ⟨.group EXPR_OP_AND (some 3) (some 4), none⟩ ]

/-- The records `parse_expressions` leaves for `( -name a -o -name b ) -a -empty`. -/
def grouping_heap : List expr :=
  [ ⟨.test .expr_test_name_clb (some "a"), some 1⟩,
    ⟨.test .expr_test_name_clb (some "b"), some 2⟩,
    ⟨.group EXPR_OP_OR (some 0) (some 1), some 3⟩,
    ⟨.test .expr_test_empty_clb none, some 4⟩,
    ⟨.group EXPR_OP_AND (some 2) (some 3), none⟩,
    ⟨.act .expr_action_print_clb none, none⟩,
    ⟨.group EXPR_OP_AND (some 4) (some 5), none⟩ ]

/-! ## Actions in the postfix list and in the log -/

/-- The heap holds a record of type `EXPR_ACT`. -/
def has_act (h : List expr) : Bool :=
  decide (expr_type.EXPR_ACT ∈ h.map expr.type)

/-- The logged invocation is one of an action callback. -/
def call.is_action : call → Bool
  | .test _ _ _ _ _ => false
  | .action _ _ _ => true

/-- The number of invocations of action callbacks in a log. -/
def action_calls (log : List call) : Nat := log.countP call.is_action

/-- The token is the name of a registered action. -/
def is_action_token (tok : String) : Prop := tok = "-print0" ∨ tok = "-print"

instance (tok : String) : Decidable (is_action_token tok) := by
  unfold is_action_token
  infer_instance

/-- The `for` loop of `parse_expressions`, entered with the tokens `toks` left and the
state `s`, arrives after zero or more iterations at an iteration with the tokens `toks1`
left and the state `s1`. -/
inductive reaches : List String → parse_state → List String → parse_state → Prop
  | here (toks : List String) (s : parse_state) : reaches toks s toks s
  | next (tok : String) (rest : List String) (s s1 : parse_state) (consumed : Bool)
      (toks2 : List String) (s2 : parse_state)
      (hstep : parse_step tok rest.head? s = some (s1, consumed))
      (hrest : reaches (if consumed then rest.tail else rest) s1 toks2 s2) :
      reaches (tok :: rest) s toks2 s2

/-- The records `parse_expressions` leaves for `-name a -print`. -/
def adjacent_heap : List expr :=
  [ ⟨.test .expr_test_name_clb (some "a"), some 1⟩,
    ⟨.act .expr_action_print_clb none, none⟩ ]

/-! ## cmdline.c: options and paths -/

/-- The value `EXIT_SUCCESS` of `stdlib.h`. -/
def EXIT_SUCCESS : Int := 0

/-- The value `EXIT_FAILURE` of `stdlib.h`. -/
def EXIT_FAILURE : Int := 1

/-- Do not follow symlinks at all, default behavior. -/
def EXPR_FOLLOW_NO_SYMLINKS : Nat := 0x0

/-- Follow symlinks only in case of explicitly provided paths. -/
def EXPR_FOLLOW_EXPLICIT_SYMLINKS : Nat := 0x1

/-- Follow all symlinks, option -L. -/
def EXPR_FOLLOW_SYMLINKS : Nat := 0x3

/-- The `for` loop of `parse_options` over the tokens `argv[*argpos .. argc-1]`, with the
current values of `*argpos` and `*options_p`; the result is the return value and the
final `*argpos` and `*options_p`.  The call of `global_options` on a long option is
given apart, by `long_option_call`. -/
def parse_options_loop : List String → Nat → Nat → Int × Nat × Nat
  | [], argpos, options => (EXIT_SUCCESS, argpos, options)
  | tok :: rest, argpos, options =>
    if c_at tok 0 = '-' then
      if c_at tok 1 = '-' then (EXIT_FAILURE, argpos, options)
      else if c_from tok 1 = "L" then parse_options_loop rest (argpos + 1) EXPR_FOLLOW_SYMLINKS
      else if c_from tok 1 = "H" then
        parse_options_loop rest (argpos + 1) EXPR_FOLLOW_EXPLICIT_SYMLINKS
      else if c_from tok 1 = "P" then
        parse_options_loop rest (argpos + 1) EXPR_FOLLOW_NO_SYMLINKS
      else (EXIT_SUCCESS, argpos, options)
    else (EXIT_SUCCESS, argpos, options)

/-- The function `parse_options`: return value, `*argpos` and `*options_p` afterwards. -/
def parse_options (argv : List String) (argpos : Nat) : Int × Nat × Nat :=
  parse_options_loop (argv.drop argpos) argpos EXPR_FOLLOW_NO_SYMLINKS

/-- The first `for` loop of `parse_paths` over the tokens `argv[*argpos .. argc-1]`: the
final value of `paths_count`. -/
def parse_paths_count : List String → Nat
  | [] => 0
  | tok :: rest =>
    if c_at tok 0 ≠ '-' then
      if c_at tok 0 = '-' ∨ c_at tok 0 = '!' ∨ c_at tok 0 = '(' then 0
      else parse_paths_count rest + 1
    else 0

/-- The function `parse_paths`: return value, `*argpos` afterwards and the array stored
to `*paths_p`, without its terminating `NULL` item. -/
def parse_paths (argv : List String) (argpos : Nat) : Int × Nat × List String :=
  let paths_count := parse_paths_count (argv.drop argpos)
  if paths_count ≠ 0 then
    (EXIT_SUCCESS, argpos + paths_count,
      (List.range paths_count).map (fun i => argv.getD (argpos + paths_count - paths_count + i) ""))
  else (EXIT_SUCCESS, argpos, ["."])

/-! ## find.c: the traversal -/

/-- The metadata lookups of the C library: `stat`, which follows symbolic links, and
`lstat`, which does not; `none` is the result -1. -/
structure lookups where
  stat : String → Option Rfind.stat
  lstat : String → Option Rfind.stat

/-- A record of the stack of currently visited directories (`struct find_dir_stack`). -/
structure find_dir_stack where
  inode : Nat
  name : String
  deriving DecidableEq, Repr

/-- The lines the traversal logs to the error stream. -/
inductive find_log
  | no_information (filepath : String)
  | loop_detected (filepath : String) (name : String)
  deriving DecidableEq, Repr

/-- The state the traversal works on: the outside world the expression acts on, the
static stack `dir_stack` (top first, `dir_stack_count` is its length) and the lines
logged so far. -/
structure find_state (σ : Type) where
  world : σ
  dir_stack : List find_dir_stack
  stderr : List find_log
  deriving DecidableEq, Repr

/-- The function `find_stat`: the file information, `none` for `EXIT_FAILURE`, and the
state with the line logged on failure.  `explicit` is the flag of the same name. -/
def find_stat {σ : Type} (lk : lookups) (filepath : String) (options : Nat) (explicit : Bool)
    (s : find_state σ) : Option stat × find_state σ :=
  let rc :=
    if options = EXPR_FOLLOW_SYMLINKS
        ∨ (explicit = true ∧ options &&& EXPR_FOLLOW_EXPLICIT_SYMLINKS ≠ 0) then
      lk.stat filepath
    else lk.lstat filepath
  match rc with
  | none => (none, { s with stderr := s.stderr ++ [.no_information filepath] })
  | some st => (some st, s)

/-- The function `dir_stack_push`. -/
def dir_stack_push {σ : Type} (inode : Nat) (name : String) (s : find_state σ) :
    find_state σ :=
  { s with dir_stack := ⟨inode, name⟩ :: s.dir_stack }

/-- The function `dir_stack_pop`. -/
def dir_stack_pop {σ : Type} (s : find_state σ) : find_state σ :=
  { s with dir_stack := s.dir_stack.tail }

/-- The loop `for (i = 0; i < dir_stack_count; i++)` of `find_indir`: whether one of its
iterations, each of which compares `st.st_ino` with `dir_stack[dir_stack_count - 1].inode`,
finds them equal. -/
def loop_check (dir_stack : List find_dir_stack) (st_ino : Nat) : Bool :=
  (List.range dir_stack.length).any (fun _ =>
    match dir_stack.head? with
    | some top => decide (st_ino = top.inode)
    | none => false)

/-- The path `asprintf` makes of the directory path and an entry name:
`path`, then `/` unless `path[strlen(path) - 1] == '/'`, then the name. -/
def child_path (path d_name : String) : String :=
  path ++ (if path.data.getLast? = some '/' then "" else "/") ++ d_name

/-- The function `basename` of the C library (the GNU version `string.h` declares under
`_GNU_SOURCE`): the part of the path after its last `/`. -/
def basename (path : String) : String :=
  String.mk (path.data.reverse.takeWhile (fun c => c ≠ '/')).reverse

/-- The function `find_indir` on the names `readdir` still yields for the directory
`path`.  `ev filepath name st` is the effect of `expr_eval(filepath, name, &st,
expressions)` on the outside world, `none` when it does not return.  The first argument
bounds the number of entries processed; `none` is a traversal that does not return
within the bound. -/
def find_indir {σ : Type} (ev : String → String → stat → σ → Option σ) (os : sys)
    (lk : lookups) (options : Nat) :
    Nat → List String → String → find_state σ → Option (Int × find_state σ)
  | 0, _, _, _ => none
  | _ + 1, [], _, s => some (EXIT_SUCCESS, s)
  | fuel + 1, d_name :: more, path, s =>
    if d_name = "." then find_indir ev os lk options fuel more path s
    else if d_name = ".." then find_indir ev os lk options fuel more path s
    else
      let filepath := child_path path d_name
      match find_stat lk filepath options false s with
      | (none, s1) => find_indir ev os lk options fuel more path s1
      | (some st, s1) =>
        if loop_check s1.dir_stack st.st_ino then
          find_indir ev os lk options fuel more path
            { s1 with stderr := s1.stderr ++
                [.loop_detected filepath ((s1.dir_stack.head?.map (·.name)).getD "")] }
        else
          match ev filepath d_name st s1.world with
          | none => none
          | some w =>
            let s2 := { s1 with world := w }
            if st.st_mode &&& S_IFDIR ≠ 0 then
              match os.opendir filepath with
              | none => some (EXIT_FAILURE, s2)
              | some names =>
                match find_indir ev os lk options fuel names filepath
                    (dir_stack_push st.st_ino filepath s2) with
                | none => none
                | some (rc, s3) =>
                  if rc ≠ 0 then some (EXIT_FAILURE, dir_stack_pop s3)
                  else find_indir ev os lk options fuel more path (dir_stack_pop s3)
            else find_indir ev os lk options fuel more path s2

/-- The function `find` on the paths `paths[i ..]`; the first argument is the bound given
to every call of `find_indir`. -/
def find {σ : Type} (ev : String → String → stat → σ → Option σ) (os : sys)
    (lk : lookups) (options : Nat) (fuel : Nat) :
    List String → find_state σ → Option (Int × find_state σ)
  | [], s => some (EXIT_SUCCESS, s)
  | p :: rest, s =>
    match find_stat lk p options true s with
    | (none, s1) => find ev os lk options fuel rest s1
    | (some st, s1) =>
      match ev p (basename p) st s1.world with
      | none => none
      | some w =>
        let s2 := { s1 with world := w }
        if st.st_mode &&& S_IFDIR ≠ 0 then
          match os.opendir p with
          | none => find ev os lk options fuel rest s2
          | some names =>
            match find_indir ev os lk options fuel names p
                (dir_stack_push st.st_ino p s2) with
            | none => none
            | some (rc, s3) =>
              if rc ≠ 0 then some (EXIT_FAILURE, dir_stack_pop s3)
              else find ev os lk options fuel rest (dir_stack_pop s3)
        else find ev os lk options fuel rest s2

/-- The call `parse_expressions(argc, argv, &argpos, &expressions)` with its output
location: the return value, the heap, and the content of `*expressions_p` afterwards,
`loc` being its content before.  The function stores to the location in one place
only, right before `return EXIT_SUCCESS`; `none` is a call that does not return. -/
def parse_expressions_store (argv : List String) (argpos : Nat) (loc : Option Nat) :
    Option (Int × List expr × Option Nat) :=
  match parse_expressions argv argpos with
  | .EXIT_FAILURE => some (EXIT_FAILURE, [], loc)
  | .EXIT_SUCCESS h expressions => some (EXIT_SUCCESS, h, expressions)
  | .unterminated => none

/-- The function `main`: the exit status and the final state of the traversal, from the
command line `argv` (with the program name first) and the outside world `w`.  The
argument `fuel` bounds the recursion of the traversal and of every evaluation; `none` is
a run that does not end within the bound. -/
def main {σ : Type} (cb : callbacks σ) (os : sys) (lk : lookups) (fuel : Nat)
    (argv : List String) (w : σ) : Option (Int × find_state σ) :=
  let s0 : find_state σ := ⟨w, [], []⟩
  let r1 := parse_options argv 1
  if r1.1 ≠ 0 then some (EXIT_FAILURE, s0)
  else
    let r2 := parse_paths argv r1.2.1
    if r2.1 ≠ 0 then some (EXIT_FAILURE, s0)
    else
      match parse_expressions_store argv r2.2.1 none with
      | none => none
      | some (rc, h, expressions) =>
        if rc ≠ 0 then some (EXIT_FAILURE, s0)
        else
          match find (fun filepath name st w1 =>
              (expr_eval cb h filepath name st fuel expressions w1).map Prod.snd)
              os lk r1.2.2 fuel r2.2.2 s0 with
          | none => none
          | some (rc1, s) =>
            if rc1 ≠ 0 then some (EXIT_FAILURE, s) else some (EXIT_SUCCESS, s)

/-- Two tokens are equal or are two spellings of one of the operators NOT (`!`, `-not`),
AND (`-a`, `-and`) and OR (`-o`, `-or`). -/
def synonym (tok tok1 : String) : Prop :=
  tok = tok1 ∨ ∃ op, (op = EXPR_OP_NOT ∨ op = EXPR_OP_AND ∨ op = EXPR_OP_OR)
    ∧ spells tok op ∧ spells tok1 op

/-- The records `parse_expressions` leaves for `! ! -name a`. -/
def double_not_heap : List expr :=
  [ ⟨.group EXPR_OP_NOT none none, some 1⟩,
    ⟨.test .expr_test_name_clb (some "a"), some 2⟩,
    ⟨.group EXPR_OP_NOT (some 0) none, none⟩,
    ⟨.act .expr_action_print_clb none, none⟩,
    ⟨.group EXPR_OP_AND (some 2) (some 3), none⟩ ]

/-- The symlink policy of an option token. -/
def option_policy (tok : String) : Nat :=
  if tok = "-L" then EXPR_FOLLOW_SYMLINKS
  else if tok = "-H" then EXPR_FOLLOW_EXPLICIT_SYMLINKS
  else EXPR_FOLLOW_NO_SYMLINKS

/-- The token is one of the symlink options. -/
def is_symlink_option (tok : String) : Prop := tok = "-P" ∨ tok = "-L" ∨ tok = "-H"

instance (tok : String) : Decidable (is_symlink_option tok) := by
  unfold is_symlink_option
  infer_instance

/-- The first character of the token is one of those that end the list of paths. -/
def starts_expression (tok : String) : Prop :=
  c_at tok 0 = '-' ∨ c_at tok 0 = '!' ∨ c_at tok 0 = '('

instance (tok : String) : Decidable (starts_expression tok) := by
  unfold starts_expression
  infer_instance

/-! ## A sample file system -/

/-- A directory (`S_IFDIR`, mode 0755) with the given inode. -/
def directory (ino : Nat) : stat := ⟨0o040755, 4096, ino⟩

/-- A sample file system: the directory `d` holds the directory `sub`, which cannot be
opened, and the regular file `f`; `e` is a regular file; there are no symbolic links. -/
def sample_files (path : String) : Option stat :=
  if path = "d" then some (directory 1)
  else if path = "d/sub" then some (directory 2)
  else if path = "d/f" then some ⟨0o100644, 5, 3⟩
  else if path = "e" then some ⟨0o100644, 0, 4⟩
  else none

/-- The metadata lookups of the sample file system. -/
def sample_lookups : lookups := ⟨sample_files, sample_files⟩

/-- The C library on the sample file system: only `d` can be opened. -/
def sample_sys : sys where
  fnmatch pattern name _ := if pattern = some name then 0 else FNM_NOMATCH
  opendir path := if path = "d" then some [".", "..", "sub", "f"] else none

/-- An expression that records the path of every file it is evaluated on. -/
def record_visit (filepath _name : String) (_st : stat) (w : List String) :
    Option (List String) :=
  some (w ++ [filepath])

/-! ## Directory trees: what a traversal is meant to visit -/

/-- The file information `find_stat` looks up for a path: through `stat` or `lstat`, by
the policy and the flag `explicit`. -/
def lookup_of (lk : lookups) (options : Nat) (explicit : Bool) (filepath : String) :
    Option stat :=
  if options = EXPR_FOLLOW_SYMLINKS
      ∨ (explicit = true ∧ options &&& EXPR_FOLLOW_EXPLICIT_SYMLINKS ≠ 0) then
    lk.stat filepath
  else lk.lstat filepath

/-- The entries a directory stream yields, in the order of the stream, each with its file
information and, for a directory, with the entries of its own stream (`inside`). -/
inductive dir_tree
  | nil
  | entry (d_name : String) (st : stat) (inside : dir_tree) (more : dir_tree)
  deriving Repr

/-- The names the stream of the directory yields. -/
def dir_tree.names : dir_tree → List String
  | .nil => []
  | .entry d_name _ _ more => d_name :: more.names

/-- One evaluation of the expression: the path, the name and the file information. -/
structure visit where
  filepath : String
  name : String
  st : stat
  deriving DecidableEq, Repr

/-- The entries beneath the directory `path` in depth-first order: every entry other
than `.` and `..` once, in the order of the stream, and everything inside a directory
before the entry that follows it. -/
def dir_tree.visits (path : String) : dir_tree → List visit
  | .nil => []
  | .entry d_name st inside more =>
    if d_name = "." ∨ d_name = ".." then more.visits path
    else
      ⟨child_path path d_name, d_name, st⟩ ::
        ((if st.st_mode &&& S_IFDIR ≠ 0 then inside.visits (child_path path d_name) else [])
          ++ more.visits path)

/-- A bound on the steps `find_indir` takes on the tree. -/
def dir_tree.steps : dir_tree → Nat
  | .nil => 1
  | .entry _ _ inside more => max inside.steps more.steps + 1

/-- The file system presents the tree beneath the directory `path`, whose inode is
`parent`: every lookup of an entry succeeds with the recorded file information, no
entry has the inode of the directory that holds it, and every directory among the
entries can be opened and presents what is recorded inside it. -/
def presents (os : sys) (lk : lookups) (options : Nat) (parent : Nat) (path : String) :
    dir_tree → Prop
  | .nil => True
  | .entry d_name st inside more =>
    (d_name = "." ∨ d_name = ".." ∨
      (lookup_of lk options false (child_path path d_name) = some st
        ∧ st.st_ino ≠ parent
        ∧ (st.st_mode &&& S_IFDIR ≠ 0 →
            os.opendir (child_path path d_name) = some inside.names
            ∧ presents os lk options st.st_ino (child_path path d_name) inside)))
    ∧ presents os lk options parent path more

/-- The evaluations of the expression one after the other, `none` when one of them does
not return. -/
def run_visits {σ : Type} (ev : String → String → stat → σ → Option σ) :
    List visit → σ → Option σ
  | [], w => some w
  | v :: vs, w =>
    match ev v.filepath v.name v.st w with
    | none => none
    | some w1 => run_visits ev vs w1

/-- A root path with its file information and, for a directory, the entries of its
stream. -/
structure root_tree where
  path : String
  st : stat
  inside : dir_tree

/-- The evaluations a traversal of the roots is meant to make: every root, followed by
what is beneath it, before the next root. -/
def roots_visits : List root_tree → List visit
  | [] => []
  | r :: rs =>
    ⟨r.path, basename r.path, r.st⟩ ::
      ((if r.st.st_mode &&& S_IFDIR ≠ 0 then r.inside.visits r.path else []) ++ roots_visits rs)

/-- The file system presents the roots: the lookup of every root succeeds, and every
root directory can be opened and presents its tree. -/
def presents_roots (os : sys) (lk : lookups) (options : Nat) : List root_tree → Prop
  | [] => True
  | r :: rs =>
    lookup_of lk options true r.path = some r.st
    ∧ (r.st.st_mode &&& S_IFDIR ≠ 0 →
        os.opendir r.path = some r.inside.names
        ∧ presents os lk options r.st.st_ino r.path r.inside)
    ∧ presents_roots os lk options rs

/-- A bound on the steps `find_indir` takes beneath any of the roots. -/
def roots_steps : List root_tree → Nat
  | [] => 0
  | r :: rs => max r.inside.steps (roots_steps rs)

/-- A file system with a symbolic link that leads back: the directory `d` holds the link
`loop`, which points to `d` itself, and the regular file `f`. -/
def loop_lookups : lookups where
  stat path :=
    if path = "d" then some (directory 1)
    else if path = "d/loop" then some (directory 1)
    else if path = "d/f" then some ⟨0o100644, 5, 3⟩
    else none
  lstat path :=
    if path = "d" then some (directory 1)
    else if path = "d/loop" then some ⟨0o120777, 1, 9⟩
    else if path = "d/f" then some ⟨0o100644, 5, 3⟩
    else none

/-- The C library on the file system of `loop_lookups`. -/
def loop_sys : sys where
  fnmatch pattern name _ := if pattern = some name then 0 else FNM_NOMATCH
  opendir path :=
    if path = "d" ∨ path = "d/loop" then some [".", "..", "loop", "f"] else none

/-- A file system in which everything can be looked up and opened: the directory `d`
holds the directory `sub`, which holds the regular file `g`, and the regular file `f`;
`e` is a regular file. -/
def open_files (path : String) : Option stat :=
  if path = "d" then some (directory 1)
  else if path = "d/sub" then some (directory 2)
  else if path = "d/sub/g" then some ⟨0o100644, 0, 5⟩
  else if path = "d/f" then some ⟨0o100644, 5, 3⟩
  else if path = "e" then some ⟨0o100644, 0, 4⟩
  else none

/-- The metadata lookups of the file system of `open_files`. -/
def open_lookups : lookups := ⟨open_files, open_files⟩

/-- The C library on the file system of `open_files`. -/
def open_sys : sys where
  fnmatch pattern name _ := if pattern = some name then 0 else FNM_NOMATCH
  opendir path :=
    if path = "d" then some [".", "..", "sub", "f"]
    else if path = "d/sub" then some [".", "..", "g"]
    else none

/-- The roots `d` and `e` of the file system of `open_files`, with what is beneath. -/
def open_roots : List root_tree :=
  [ ⟨"d", directory 1,
      .entry "." (directory 1) .nil (.entry ".." (directory 0) .nil
        (.entry "sub" (directory 2)
          (.entry "." (directory 2) .nil (.entry ".." (directory 1) .nil
            (.entry "g" ⟨0o100644, 0, 5⟩ .nil .nil)))
          (.entry "f" ⟨0o100644, 5, 3⟩ .nil .nil)))⟩,
    ⟨"e", ⟨0o100644, 0, 4⟩, .nil⟩ ]

/-! ## File types of `sys/stat.h` -/

/-- The constant `S_IFMT`: the bits of `st_mode` that hold the file type. -/
def S_IFMT : Nat := 0o170000

/-- The constant `S_IFSOCK`: socket. -/
def S_IFSOCK : Nat := 0o140000

/-- The constant `S_IFLNK`: symbolic link. -/
def S_IFLNK : Nat := 0o120000

/-- The constant `S_IFREG`: regular file. -/
def S_IFREG : Nat := 0o100000

/-- The constant `S_IFBLK`: block device. -/
def S_IFBLK : Nat := 0o060000

/-- The constant `S_IFCHR`: character device. -/
def S_IFCHR : Nat := 0o020000

/-- The constant `S_IFIFO`: FIFO. -/
def S_IFIFO : Nat := 0o010000

/-! ## A sample of `fnmatch` with wildcards -/

/-- A sample matcher for patterns made of `*`, `?` and plain characters: `*` stands for
any run of characters, `?` for any one character. -/
def glob : List Char → List Char → Bool
  | [], name => name.isEmpty
  | c :: pattern, name =>
    if c = '*' then name.tails.any (fun t => glob pattern t)
    else
      match name with
      | [] => false
      | d :: more => (c = '?' || c = d) && glob pattern more

/-- A sample C library whose `fnmatch` is `glob`, on the lower-case forms of the pattern
and of the name when the flag `FNM_CASEFOLD` is given; a missing pattern is an error. -/
def glob_sys : sys where
  fnmatch pattern name flags :=
    match pattern with
    | none => 2
    | some p =>
      if flags = FNM_CASEFOLD then
        if glob (p.data.map Char.toLower) (name.data.map Char.toLower) then 0 else FNM_NOMATCH
      else if glob p.data name.data then 0 else FNM_NOMATCH
  opendir _ := none

/-! ## cmdline.c: long options -/

/-- What `global_options` writes: the usage text or the version text to the standard
output, or the line `unknown option --arg` to the log. -/
inductive long_output
  | usage
  | version
  | unknown_option (arg : String)
  deriving DecidableEq, Repr

/-- The function `global_options`: its return value and what it writes. -/
def global_options (arg : String) : Int × long_output :=
  if arg = "help" then (EXIT_SUCCESS, .usage)
  else if arg = "version" then (EXIT_SUCCESS, .version)
  else (EXIT_FAILURE, .unknown_option arg)

/-- The call `global_options(&argv[*argpos][2])` that the loops of `parse_options` and of
`parse_expressions` make on a token with `argv[*argpos][0] == '-'` and
`argv[*argpos][1] == '-'`, right before they fail; `none` when the token makes no such
call. -/
def long_option_call (tok : String) : Option (Int × long_output) :=
  if c_at tok 0 = '-' then
    if c_at tok 1 = '-' then some (global_options (c_from tok 2))
    else none
  else none

/-! ## Sample file systems with a cycle and with a socket -/

/-- A file system with a link that leads two levels up, every link being followed: the
directory `a` (inode 1) holds the directory `b` (inode 2), which holds the link `up` to
`a`; the lookups beneath `a/b/up/b` fail. -/
def cycle_files (path : String) : Option stat :=
  if path = "a" then some (directory 1)
  else if path = "a/b" then some (directory 2)
  else if path = "a/b/up" then some (directory 1)
  else if path = "a/b/up/b" then some (directory 2)
  else none

/-- The metadata lookups of the file system of `cycle_files`. -/
def cycle_lookups : lookups := ⟨cycle_files, cycle_files⟩

/-- The C library on the file system of `cycle_files`. -/
def cycle_sys : sys where
  fnmatch pattern name _ := if pattern = some name then 0 else FNM_NOMATCH
  opendir path :=
    if path = "a" ∨ path = "a/b/up" then some [".", "..", "b"]
    else if path = "a/b" ∨ path = "a/b/up/b" then some [".", "..", "up"]
    else none

/-- A file system with a socket: the directory `d` holds the socket `s` and the regular
file `f`. -/
def socket_files (path : String) : Option stat :=
  if path = "d" then some (directory 1)
  else if path = "d/s" then some ⟨0o140755, 0, 2⟩
  else if path = "d/f" then some ⟨0o100644, 5, 3⟩
  else none

/-- The metadata lookups of the file system of `socket_files`. -/
def socket_lookups : lookups := ⟨socket_files, socket_files⟩

/-- The C library on the file system of `socket_files`: only the directory `d` can be
opened, `opendir` of the socket fails. -/
def socket_sys : sys where
  fnmatch pattern name _ := if pattern = some name then 0 else FNM_NOMATCH
  opendir path := if path = "d" then some [".", "..", "s", "f"] else none

/-! ## The records within reach of a root -/

/-- The records a record points to through `expr1` and `expr2`. -/
def expr.links (e : expr) : List Nat :=
  match e.u with
  | .group _ expr1 expr2 => expr1.toList ++ expr2.toList
  | _ => []

/-- The addresses `seen` and those the records at them point to, each once. -/
def reach_step (h : List expr) (seen : List Nat) : List Nat :=
  (seen.flatMap (fun p => (h[p]?.map expr.links).getD [])).foldl
    (fun acc p => if p ∈ acc then acc else acc ++ [p]) seen

/-- The addresses within reach of `root` through `expr1` and `expr2`: as many rounds of
`reach_step` as the heap has records. -/
def reachable (h : List expr) (root : Option Nat) : List Nat :=
  Nat.iterate (reach_step h) h.length root.toList

/-- The leaves within reach of `root`: the addresses of the test and action records. -/
def reachable_leaves (h : List expr) (root : Option Nat) : List Nat :=
  (reachable h root).filter (fun p =>
    match h[p]? with
    | some e => decide (e.type ≠ .EXPR_GROUP)
    | none => false)

/-- The records `parse_expressions` leaves for `-name a -o -name b -a -print`. -/
def dropped_heap : List expr :=
  [ ⟨.test .expr_test_name_clb (some "a"), some 1⟩,
    ⟨.test .expr_test_name_clb (some "b"), some 2⟩,
    ⟨.act .expr_action_print_clb none, some 3⟩,
    ⟨.group EXPR_OP_AND (some 0) (some 1), some 4⟩,
    ⟨.group EXPR_OP_OR (some 3) (some 4), none⟩ ]

/-! # Properties

From here on the file holds lemmas and theorems only; every definition is above. -/

/-! ## The registries -/

theorem expr_actions_PRINT_eq : expr_actions[1]? = some expr_actions_PRINT := rfl

theorem expr_tests_ids : expr_tests.map (·.id) = ["empty", "iname", "name"] := rfl

theorem expr_actions_ids : expr_actions.map (·.id) = ["print0", "print"] := rfl

/-! ## Evaluation: lemmas -/

theorem expr_eval_mono {σ : Type} (cb : callbacks σ) (h : List expr) (filepath name : String)
    (st : stat) (fuel : Nat) :
    ∀ (p : Option Nat) (w : σ) (x : expr_result × σ),
      expr_eval cb h filepath name st fuel p w = some x →
      expr_eval cb h filepath name st (fuel + 1) p w = some x := by
  induction fuel with
  | zero => intro p w x hx; simp [expr_eval] at hx
  | succ n ih =>
    intro p w x hx
    cases p with
    | none => simp [expr_eval] at hx
    | some p =>
      rw [expr_eval] at hx ⊢
      cases hp : h[p]? with
      | none => simp [hp] at hx
      | some e =>
        simp only [hp] at hx ⊢
        cases hu : e.u with
        | test t a => simpa [hu] using hx
        | act a arg => simpa [hu] using hx
        | group op e1 e2 =>
          simp only [hu] at hx ⊢
          cases h1 : expr_eval cb h filepath name st n e1 w with
          | none => simp [h1] at hx
          | some x1 =>
            obtain ⟨r1, w1⟩ := x1
            rw [ih e1 w _ h1]
            simp only [h1] at hx ⊢
            split_ifs at hx ⊢ <;> try exact hx
            all_goals
              cases h2 : expr_eval cb h filepath name st n e2 w1 with
              | none => simp [h2] at hx
              | some x2 =>
                obtain ⟨r2, w2⟩ := x2
                rw [ih e2 w1 _ h2]
                simp only [h2] at hx ⊢
                exact hx

theorem expr_eval_mono_le {σ : Type} (cb : callbacks σ) (h : List expr)
    (filepath name : String) (st : stat) (fuel m : Nat) (hm : fuel ≤ m)
    (p : Option Nat) (w : σ) (x : expr_result × σ)
    (hx : expr_eval cb h filepath name st fuel p w = some x) :
    expr_eval cb h filepath name st m p w = some x := by
  induction hm with
  | refl => exact hx
  | step _ ih => exact expr_eval_mono cb h filepath name st _ p w x ih

/-! ## The heap of a postfix list: lemmas -/

@[simp] theorem seq_heap_length (us : List expr_union) : (seq_heap us).length = us.length := by
  simp [seq_heap]

theorem seq_heap_getElem? (us : List expr_union) (i : Nat) :
    (seq_heap us)[i]? =
      us[i]?.map (fun u => ⟨u, if i + 1 < us.length then some (i + 1) else none⟩) := by
  simp only [seq_heap, List.getElem?_map, List.getElem?_enum]
  cases us[i]? <;> simp

theorem seq_heap_snoc (us : List expr_union) (u : expr_union) (hne : us ≠ []) :
    set_next (seq_heap us ++ [⟨u, none⟩]) (us.length - 1) (some us.length)
      = seq_heap (us ++ [u]) := by
  apply List.ext_getElem?
  intro i
  have hl : 0 < us.length := List.length_pos.mpr hne
  simp only [set_next, List.getElem?_modify, seq_heap_getElem?, List.getElem?_append, seq_heap_length, List.length_append, List.length_singleton]
  by_cases h1 : i < us.length
  · simp [h1]
    by_cases h2 : us.length - 1 = i
    · have : us.length = i + 1 := by omega
      simp [h2, this]
    · have : i + 1 < us.length := by omega
      simp [h2, this]
  · simp [h1]
    have h2 : ¬ (us.length - 1 = i) := by omega
    rcases Nat.eq_zero_or_pos (i - us.length) with h3 | h3
    · simp [h2, h3]
    · obtain ⟨k, hk⟩ : ∃ k, i - us.length = k + 1 := ⟨i - us.length - 1, by omega⟩
      simp [h2, hk]

theorem seq_heap_nil : seq_heap [] = [] := rfl

theorem seq_heap_singleton (u : expr_union) : seq_heap [u] = [⟨u, none⟩] := rfl

theorem seq_heap_append_alloc (us : List expr_union) (u : expr_union) :
    expr_list_insert us.length
      { list_state us stk ha with heap := seq_heap us ++ [⟨u, none⟩], has_action := ha1 }
      = list_state (us ++ [u]) stk ha1 := by
  by_cases hne : us = []
  · subst hne
    simp [expr_list_insert, list_state, seq_heap]
  · simp [expr_list_insert, list_state, hne, seq_heap_snoc]

/-! ## The token loop: lemmas -/

theorem emit_group_list_state (op : expr_operator) (us : List expr_union)
    (stk : List expr_operator) (ha : Bool) :
    emit_group op (list_state us stk ha) = list_state (us ++ [open_group op]) stk ha := by
  have := @seq_heap_append_alloc stk ha ha us (.group op none none)
  simpa [emit_group, expr_new_group, alloc, list_state, open_group] using this

theorem insert_leaf_list_state (T : terminal) (us : List expr_union)
    (stk : List expr_operator) (ha : Bool) :
    insert_leaf T (list_state us stk ha) = list_state (us ++ [T.u]) stk (ha || T.is_action) := by
  have := @seq_heap_append_alloc stk ha (ha || T.is_action) us T.u
  simpa [insert_leaf, list_state] using this

theorem list_state_stack (us : List expr_union) (stk stk1 : List expr_operator) (ha : Bool) :
    { list_state us stk ha with op_stack := stk1 } = list_state us stk1 ha := rfl

theorem op_stack_push_pops_list_state (op : expr_operator) (stk : List expr_operator) :
    ∀ (us : List expr_union) (stk0 : List expr_operator) (ha : Bool),
      op_stack_push_pops op stk (list_state us stk0 ha)
        = list_state (us ++ (popped op stk).map open_group) (kept op stk) ha := by
  induction stk with
  | nil => intro us stk0 ha; simp [op_stack_push_pops, popped, kept, list_state_stack]
  | cons op_prev stk ih =>
    intro us stk0 ha
    simp only [op_stack_push_pops, popped, kept]
    split_ifs <;> simp [list_state_stack, emit_group_list_state, ih]

theorem op_stack_push_list_state (op : expr_operator) (us : List expr_union)
    (stk : List expr_operator) (ha : Bool) :
    op_stack_push op (list_state us stk ha)
      = list_state (us ++ (if op = EXPR_OP_LBR then [] else (popped op stk).map open_group))
          (if op = EXPR_OP_RBR then kept op stk
            else op :: (if op = EXPR_OP_LBR then stk else kept op stk)) ha := by
  have hs : (list_state us stk ha).op_stack = stk := rfl
  unfold op_stack_push
  rw [hs]
  by_cases h1 : op = EXPR_OP_LBR
  · subst h1; simp [list_state_stack, hs]
  · by_cases h2 : op = EXPR_OP_RBR
    · subst h2; simp [op_stack_push_pops_list_state]
    · simp [h1, h2, op_stack_push_pops_list_state, list_state_stack]
      rfl

theorem op_stack_clean_loop_list_state (stk : List expr_operator) :
    ∀ (us : List expr_union) (stk0 : List expr_operator) (ha : Bool),
      op_stack_clean_loop stk (list_state us stk0 ha)
        = list_state (us ++ stk.map open_group) [] ha := by
  induction stk with
  | nil => intro us stk0 ha; simp [op_stack_clean_loop, list_state_stack]
  | cons op stk ih =>
    intro us stk0 ha
    simp [op_stack_clean_loop, emit_group_list_state, ih]

theorem op_stack_clean_list_state (us : List expr_union) (stk : List expr_operator)
    (ha : Bool) :
    op_stack_clean (list_state us stk ha) = list_state (us ++ stk.map open_group) [] ha := by
  unfold op_stack_clean
  exact op_stack_clean_loop_list_state stk us stk ha

theorem parse_loop_cons (tok : String) (rest : List String) (s : parse_state) :
    parse_loop (tok :: rest) s =
      match parse_step tok rest.head? s with
      | none => none
      | some (s1, consumed) => parse_loop (if consumed then rest.tail else rest) s1 := by
  rw [parse_loop]
  cases parse_step tok rest.head? s with
  | none => rfl
  | some x =>
    obtain ⟨s1, c⟩ := x
    cases rest with
    | nil => cases c <;> simp [parse_loop]
    | cons a r => cases c <;> simp

theorem parse_step_operator (tok : String) (op : expr_operator) (htok : spells tok op)
    (nxt : Option String) (s : parse_state) :
    parse_step tok nxt s = some (op_stack_push op s, false) := by
  cases op <;> simp only [spells] at htok
  · subst htok; simp +decide [parse_step, c_at, c_from]
  · subst htok; simp +decide [parse_step, c_at, c_from]
  · rcases htok with rfl | rfl <;> simp +decide [parse_step, c_at, c_from]
  · rcases htok with rfl | rfl <;> simp +decide [parse_step, c_at, c_from]
  · rcases htok with rfl | rfl <;> simp +decide [parse_step, c_at, c_from]

theorem parse_loop_operator (tok : String) (op : expr_operator) (htok : spells tok op)
    (rest : List String) (s : parse_state) :
    parse_loop (tok :: rest) s = parse_loop rest (op_stack_push op s) := by
  rw [parse_loop_cons, parse_step_operator tok op htok]
  simp


theorem terminal_valid_cases (T : terminal) (hT : T.valid) :
    T = .test ⟨"empty", .expr_test_empty_clb, EXPR_ARG_NO⟩ none
    ∨ (∃ a, starts_like_token a = false ∧
        T = .test ⟨"iname", .expr_test_iname_clb, EXPR_ARG_MAND⟩ (some a))
    ∨ (∃ a, starts_like_token a = false ∧
        T = .test ⟨"name", .expr_test_name_clb, EXPR_ARG_MAND⟩ (some a))
    ∨ T = .action ⟨"print0", .expr_action_print0_clb, EXPR_ARG_NO⟩ none
    ∨ T = .action ⟨"print", .expr_action_print_clb, EXPR_ARG_NO⟩ none := by
  cases T with
  | test info arg =>
    obtain ⟨hmem, harg⟩ := hT
    simp only [expr_tests, List.mem_cons, List.mem_singleton, List.mem_nil_iff, or_false] at hmem
    rcases hmem with rfl | rfl | rfl <;> cases arg with
    | none => simp [checked_arg, plain_arg] at harg ⊢
    | some a =>
      by_cases ha : starts_like_token a <;> simp [checked_arg, plain_arg, ha] at harg ⊢
  | action info arg =>
    obtain ⟨hmem, harg⟩ := hT
    simp only [expr_actions, List.mem_cons, List.mem_singleton, List.mem_nil_iff, or_false] at hmem
    rcases hmem with rfl | rfl <;> cases arg with
    | none => simp [checked_arg, plain_arg] at harg ⊢
    | some a =>
      by_cases ha : starts_like_token a <;> simp [checked_arg, plain_arg, ha] at harg ⊢

theorem arg_slot_alloc (h : List expr) (e : expr) : arg_slot (h ++ [e]) h.length = e.has_arg := by
  simp [arg_slot]

theorem parse_loop_terminal (T : terminal) (hT : T.valid) (rest : List String)
    (hrest : T.arg = none → plain_arg rest.head? = false) (s : parse_state) :
    parse_loop (T.tokens ++ rest) s = parse_loop rest (insert_leaf T s) := by
  rcases terminal_valid_cases T hT with rfl | ⟨a, ha, rfl⟩ | ⟨a, ha, rfl⟩ | rfl | rfl
  · have hp := hrest rfl
    have : terminal.tokens (.test ⟨"empty", .expr_test_empty_clb, EXPR_ARG_NO⟩ none) = ["-empty"] := by
      decide
    rw [this, List.singleton_append, parse_loop_cons]
    simp +decide [parse_step, c_at, c_from, expr_tests, expr_new_test, checked_arg, hp, alloc,
      arg_slot_alloc, expr.has_arg, insert_leaf, terminal.u, terminal.is_action]
  · have : terminal.tokens (.test ⟨"iname", .expr_test_iname_clb, EXPR_ARG_MAND⟩ (some a))
        = ["-iname", a] := by
      simp +decide [terminal.tokens]
    rw [this, List.cons_append, parse_loop_cons]
    simp +decide [parse_step, c_at, c_from, expr_tests, expr_new_test, checked_arg, plain_arg, ha,
      alloc, arg_slot_alloc, expr.has_arg, insert_leaf, terminal.u, terminal.is_action]
  · have : terminal.tokens (.test ⟨"name", .expr_test_name_clb, EXPR_ARG_MAND⟩ (some a))
        = ["-name", a] := by
      simp +decide [terminal.tokens]
    rw [this, List.cons_append, parse_loop_cons]
    simp +decide [parse_step, c_at, c_from, expr_tests, expr_new_test, checked_arg, plain_arg, ha,
      alloc, arg_slot_alloc, expr.has_arg, insert_leaf, terminal.u, terminal.is_action]
  · have hp := hrest rfl
    have : terminal.tokens (.action ⟨"print0", .expr_action_print0_clb, EXPR_ARG_NO⟩ none)
        = ["-print0"] := by
      decide
    rw [this, List.singleton_append, parse_loop_cons]
    simp +decide [parse_step, c_at, c_from, expr_tests, expr_actions, expr_new_action, checked_arg,
      hp, alloc, arg_slot_alloc, expr.has_arg, insert_leaf, terminal.u, terminal.is_action]
  · have hp := hrest rfl
    have : terminal.tokens (.action ⟨"print", .expr_action_print_clb, EXPR_ARG_NO⟩ none)
        = ["-print"] := by
      decide
    rw [this, List.singleton_append, parse_loop_cons]
    simp +decide [parse_step, c_at, c_from, expr_tests, expr_actions, expr_new_action, checked_arg,
      hp, alloc, arg_slot_alloc, expr.has_arg, insert_leaf, terminal.u, terminal.is_action]

/-! ## The linking pass: lemmas -/

theorem seq_heap_get (us : List expr_union) (i : Nat) :
    (seq_heap us)[i]? = us[i]?.map (fun u => ⟨u, seq_next us.length i⟩) := by
  rw [seq_heap_getElem?]; rfl

theorem scan_cond_iff (e : expr) :
    (e.type ≠ .EXPR_GROUP ∨ e.has_arg = true) ↔ is_open e.u = false := by
  obtain ⟨u, nx⟩ := e
  cases u with
  | group op e1 e2 => cases e1 <;> simp [expr.type, expr.has_arg, is_open]
  | test c a => simp [expr.type, expr.has_arg, is_open]
  | act c a => simp [expr.type, expr.has_arg, is_open]

theorem find_grp_seq (us : List expr_union) :
    ∀ (fuel g : Nat), g ≤ us.length → us.length - g < fuel →
      find_grp (seq_heap us) fuel (if g < us.length then some g else none)
        = some (first_open (us.drop g) g) := by
  intro fuel
  induction fuel with
  | zero => intro g _ h; omega
  | succ n ih =>
    intro g hg hf
    by_cases hlt : g < us.length
    · simp only [hlt, if_true]
      rw [find_grp]
      have hget : us[g]? = some us[g] := by simp [hlt]
      simp only [seq_heap_get, hget, Option.map_some']
      have hd : us.drop g = us[g] :: us.drop (g + 1) := by
        simp
      rw [hd, first_open]
      by_cases ho : is_open us[g] = true
      · have : ¬ (is_open us[g] = false) := by simp [ho]
        simp [scan_cond_iff, ho]
      · have ho1 : is_open us[g] = false := by simpa using ho
        have := ih (g + 1) (by omega) (by omega)
        simp only [scan_cond_iff, ho1, if_true] 
        simp only [seq_next]
        rw [this]
        simp
    · have : g = us.length := by omega
      subst this
      simp [find_grp, first_open]

theorem adopt_seq (us : List expr_union) (g e : Nat) (nxt : Option Nat) :
    adopt (seq_heap us) g e nxt = seq_heap (us.modify (adopt_u e nxt) g) := by
  apply List.ext_getElem?
  intro i
  simp only [adopt, List.getElem?_modify, seq_heap_get, List.length_modify]
  by_cases hi : g = i
  · subst hi
    cases hg : us[g]? with
    | none => simp
    | some u => cases u <;> simp [adopt_u]
  · simp [hi]

theorem link_loop_seq_step (us : List expr_union) (fuel e : Nat) (x : Option Nat)
    (he : e < us.length) :
    link_loop (fuel + 1) (seq_heap us) (some e) x =
      match first_open (us.drop (e + 1)) (e + 1) with
      | none => link_loop fuel (seq_heap us) none (some e)
      | some g =>
        link_loop fuel (seq_heap (us.modify (adopt_u e (seq_next us.length e)) g))
          (some g) (some g) := by
  rw [link_loop]
  have hget : us[e]? = some us[e] := by simp [he]
  simp only [seq_heap_get, hget, Option.map_some', seq_heap_length]
  have := find_grp_seq us (us.length + 1) (e + 1) (by omega) (by omega)
  simp only [seq_next]
  rw [this]
  cases first_open (us.drop (e + 1)) (e + 1) with
  | none => rfl
  | some g => simp only [adopt_seq]


theorem init_list_state : parse_state.init = list_state [] [] false := rfl

theorem represents_append (h k : List expr) (t : tree) :
    ∀ p, represents h p t = true → represents (h ++ k) p t = true := by
  induction t with
  | null => intro p hp; cases p <;> simp_all [represents]
  | test c a =>
    intro p hp
    cases p with
    | none => simp [represents] at hp
    | some p =>
      rw [represents] at hp ⊢
      split at hp
      · next _ c1 a1 nx hq =>
        have : (h ++ k)[p]? = some ⟨.test c1 a1, nx⟩ := by
          rw [List.getElem?_append_left]; exact hq
          exact (List.getElem?_eq_some.mp hq).1
        simp only [this]; exact hp
      · simp at hp
  | act c a =>
    intro p hp
    cases p with
    | none => simp [represents] at hp
    | some p =>
      rw [represents] at hp ⊢
      split at hp
      · next _ c1 a1 nx hq =>
        have : (h ++ k)[p]? = some ⟨.act c1 a1, nx⟩ := by
          rw [List.getElem?_append_left]; exact hq
          exact (List.getElem?_eq_some.mp hq).1
        simp only [this]; exact hp
      · simp at hp
  | group op t1 t2 ih1 ih2 =>
    intro p hp
    cases p with
    | none => simp [represents] at hp
    | some p =>
      rw [represents] at hp ⊢
      split at hp
      · next _ op1 p1 p2 nx hq =>
        have : (h ++ k)[p]? = some ⟨.group op1 p1 p2, nx⟩ := by
          rw [List.getElem?_append_left]; exact hq
          exact (List.getElem?_eq_some.mp hq).1
        simp only [this]
        simp only [Bool.and_eq_true, decide_eq_true_eq] at hp ⊢
        exact ⟨⟨hp.1.1, ih1 _ hp.1.2⟩, ih2 _ hp.2⟩
      · simp at hp


theorem add_default_action_eq (h : List expr) (T : Option Nat) :
    add_default_action h T
      = .EXIT_SUCCESS (h ++ default_records h.length T) (some (h.length + 1)) := by
  simp [add_default_action, expr_new_action, expr_actions_PRINT, checked_arg, plain_arg,
    expr_new_group, alloc, default_records]

theorem list_state_expressions (us : List expr_union) (stk : List expr_operator) (ha : Bool) :
    (list_state us stk ha).expressions = if us = [] then none else some 0 := rfl

theorem parse_expressions_of_list (argv : List String) (argpos : Nat)
    (us : List expr_union) (stk : List expr_operator) (ha : Bool)
    (hl : parse_loop (argv.drop argpos) parse_state.init = some (list_state us stk ha))
    (hne : us ++ stk.map open_group ≠ []) (h : List expr) (T : Option Nat)
    (hk : link_loop ((us ++ stk.map open_group).length + 1)
      (seq_heap (us ++ stk.map open_group)) (some 0) none = some (h, T)) :
    parse_expressions argv argpos =
      if ha then .EXIT_SUCCESS h T
      else .EXIT_SUCCESS (h ++ default_records h.length T) (some (h.length + 1)) := by
  unfold parse_expressions parse_tokens
  rw [hl]
  simp only [op_stack_clean_list_state, list_state_expressions, hne, if_false]
  have : link (list_state (us ++ stk.map open_group) [] ha).heap 0 = some (h, T) := by
    simpa [link, list_state] using hk
  simp only [this]
  cases ha <;> simp [list_state, add_default_action_eq]

theorem is_open_terminal (T : terminal) : is_open T.u = false := by
  cases T <;> rfl

theorem is_open_open_group (op : expr_operator) : is_open (open_group op) = true := rfl

theorem link_loop_done (fuel : Nat) (h : List expr) (x : Option Nat) :
    link_loop (fuel + 1) h none x = some (h, x) := by
  rw [link_loop]

theorem is_open_linked (op : expr_operator) (e1 : Nat) (e2 : Option Nat) :
    is_open (.group op (some e1) e2) = false := rfl

theorem adopt_u_open_group (e : Nat) (nxt : Option Nat) (op : expr_operator) :
    adopt_u e nxt (open_group op)
      = .group op (some e) (if op ≠ EXPR_OP_NOT then nxt else none) := rfl

theorem represents_leaf (h : List expr) (p : Nat) (T : terminal) (nx : Option Nat)
    (hp : h[p]? = some ⟨T.u, nx⟩) : represents h (some p) T.leaf = true := by
  cases T <;> simp [represents, terminal.leaf, terminal.u] at hp ⊢ <;> simp [hp]

theorem represents_group (h : List expr) (p : Nat) (op : expr_operator) (p1 p2 nx : Option Nat)
    (t1 t2 : tree) (hp : h[p]? = some ⟨.group op p1 p2, nx⟩)
    (h1 : represents h p1 t1 = true) (h2 : represents h p2 t2 = true) :
    represents h (some p) (.group op t1 t2) = true := by
  simp [represents, hp, h1, h2]

theorem default_records_get0 (h : List expr) (T : Option Nat) :
    (h ++ default_records h.length T)[h.length]?
      = some ⟨.act .expr_action_print_clb none, none⟩ := by
  rw [List.getElem?_append_right (Nat.le_refl _)]
  simp [default_records]

theorem default_records_get1 (h : List expr) (T : Option Nat) :
    (h ++ default_records h.length T)[h.length + 1]?
      = some ⟨.group EXPR_OP_AND T (some h.length), none⟩ := by
  rw [List.getElem?_append_right (Nat.le_succ _)]
  simp [default_records]

theorem represents_default (h : List expr) (T : Option Nat) (t : tree)
    (ht : represents h T t = true) :
    represents (h ++ default_records h.length T) (some (h.length + 1)) (with_default_print t)
      = true := by
  have ht1 := represents_append h (default_records h.length T) t T ht
  unfold with_default_print
  apply represents_group _ _ _ T (some h.length) none _ _ (default_records_get1 h T) ht1
  simp [represents, default_records_get0]

theorem any_is_action_eq (Ts : List terminal) (ha : Bool)
    (h : ha = Ts.any terminal.is_action) (hh : List expr) (T : Option Nat) (t : tree)
    (ht : represents hh T t = true) :
    ∃ h1 root, (if ha then parse_outcome.EXIT_SUCCESS hh T
        else .EXIT_SUCCESS (hh ++ default_records hh.length T) (some (hh.length + 1)))
        = .EXIT_SUCCESS h1 root ∧ represents h1 root (expected_root Ts t) = true := by
  subst h
  unfold expected_root
  cases Ts.any terminal.is_action
  · exact ⟨_, _, rfl, represents_default hh T t ht⟩
  · exact ⟨_, _, rfl, ht⟩


theorem represents_eq_tree_at (h : List expr) (t : tree) :
    ∀ p, represents h p t = tree_at (h.map (·.u)) p t := by
  induction t with
  | null => intro p; cases p <;> simp [represents, tree_at]
  | test c a =>
    intro p
    cases p with
    | none => simp [represents, tree_at]
    | some p =>
      simp only [represents, tree_at, List.getElem?_map]
      cases h[p]? with
      | none => rfl
      | some e => obtain ⟨u, nx⟩ := e; cases u <;> rfl
  | act c a =>
    intro p
    cases p with
    | none => simp [represents, tree_at]
    | some p =>
      simp only [represents, tree_at, List.getElem?_map]
      cases h[p]? with
      | none => rfl
      | some e => obtain ⟨u, nx⟩ := e; cases u <;> rfl
  | group op t1 t2 ih1 ih2 =>
    intro p
    cases p with
    | none => simp [represents, tree_at]
    | some p =>
      simp only [represents, tree_at, List.getElem?_map]
      cases h[p]? with
      | none => rfl
      | some e =>
        obtain ⟨u, nx⟩ := e
        cases u with
        | group op1 p1 p2 => simp [ih1, ih2]
        | test c a => rfl
        | act c a => rfl

theorem seq_heap_map_u (us : List expr_union) : (seq_heap us).map (·.u) = us := by
  apply List.ext_getElem?
  intro i
  simp only [List.getElem?_map, seq_heap_get]
  cases us[i]? <;> rfl

theorem represents_seq_heap (us : List expr_union) (p : Option Nat) (t : tree) :
    represents (seq_heap us) p t = tree_at us p t := by
  rw [represents_eq_tree_at, seq_heap_map_u]

theorem tree_at_append (us vs : List expr_union) (t : tree) :
    ∀ p, tree_at us p t = true → tree_at (us ++ vs) p t = true := by
  intro p hp
  have h1 : represents (seq_heap us) p t = true := by rw [represents_seq_heap]; exact hp
  have h2 := represents_append (seq_heap us) (vs.map (fun u => ⟨u, none⟩)) t p h1
  rw [represents_eq_tree_at] at h2
  simpa [seq_heap_map_u, Function.comp_def] using h2


/-! ## Invariants of the token loop -/

theorem reaches_parse_loop (toks toks1 : List String) (s s1 : parse_state)
    (h : reaches toks s toks1 s1) : parse_loop toks s = parse_loop toks1 s1 := by
  induction h with
  | here => rfl
  | next tok rest s s1 c toks2 s2 hstep _ ih =>
    rw [parse_loop_cons, hstep]
    exact ih

/-- A property of the state that every iteration of the token loop preserves holds when
the loop ends. -/
theorem parse_loop_invariant (P : parse_state → Prop) (toks : List String)
    (hstep : ∀ tok ∈ toks, ∀ nxt s s1 c, P s → parse_step tok nxt s = some (s1, c) → P s1) :
    ∀ (n : Nat) (ts : List String), ts.length ≤ n → (∀ tok ∈ ts, tok ∈ toks) →
      ∀ s s1, P s → parse_loop ts s = some s1 → P s1 := by
  intro n
  induction n with
  | zero =>
    intro ts hn _ s s1 hP hl
    have : ts = [] := List.length_eq_zero.mp (Nat.le_zero.mp hn)
    subst this
    simp only [parse_loop] at hl
    cases hl
    exact hP
  | succ n ih =>
    intro ts hn hsub s s1 hP hl
    cases ts with
    | nil =>
      simp only [parse_loop] at hl
      cases hl
      exact hP
    | cons tok rest =>
      rw [parse_loop_cons] at hl
      cases hs : parse_step tok rest.head? s with
      | none => simp [hs] at hl
      | some x =>
        obtain ⟨s2, c⟩ := x
        simp only [hs] at hl
        have hP2 : P s2 := hstep tok (hsub tok (List.mem_cons_self _ _)) _ _ _ _ hP hs
        have hlen : (if c then rest.tail else rest).length ≤ n := by
          simp only [List.length_cons] at hn
          split
          · rw [List.length_tail]; omega
          · omega
        have hsub2 : ∀ t ∈ (if c then rest.tail else rest), t ∈ toks := by
          intro t ht
          apply hsub t
          apply List.mem_cons_of_mem
          split at ht
          · exact List.mem_of_mem_tail ht
          · exact ht
        exact ih _ hlen hsub2 s2 s1 hP2 hl

theorem set_next_map_type (h : List expr) (p : Nat) (q : Option Nat) :
    (set_next h p q).map expr.type = h.map expr.type := by
  apply List.ext_getElem?
  intro i
  simp only [set_next, List.getElem?_map, List.getElem?_modify]
  cases h[i]? with
  | none => rfl
  | some x => by_cases hi : p = i <;> simp [hi, expr.type]

theorem adopt_map_type (h : List expr) (g e : Nat) (nxt : Option Nat) :
    (adopt h g e nxt).map expr.type = h.map expr.type := by
  apply List.ext_getElem?
  intro i
  simp only [adopt, List.getElem?_map, List.getElem?_modify]
  cases h[i]? with
  | none => rfl
  | some x =>
    obtain ⟨u, nx⟩ := x
    by_cases hi : g = i <;> cases u <;> simp [hi, expr.type]

theorem expr_list_insert_type (p : Nat) (s : parse_state) :
    (expr_list_insert p s).heap.map expr.type = s.heap.map expr.type
    ∧ (expr_list_insert p s).has_action = s.has_action := by
  unfold expr_list_insert
  cases s.expressions with
  | none => exact ⟨rfl, rfl⟩
  | some e =>
    cases s.expr_last with
    | none => exact ⟨rfl, rfl⟩
    | some l => exact ⟨set_next_map_type _ _ _, rfl⟩

theorem emit_group_type (op : expr_operator) (s : parse_state) :
    (emit_group op s).heap.map expr.type = s.heap.map expr.type ++ [.EXPR_GROUP]
    ∧ (emit_group op s).has_action = s.has_action := by
  unfold emit_group
  have := expr_list_insert_type (expr_new_group s.heap op none none).2
    { s with heap := (expr_new_group s.heap op none none).1 }
  refine ⟨?_, this.2⟩
  rw [this.1]
  simp [expr_new_group, alloc, expr.type]

/-- What a run of pops adds to the heap: records of type `EXPR_GROUP` only. -/
theorem op_stack_push_pops_type (op : expr_operator) (stk : List expr_operator) :
    ∀ s : parse_state, ∃ k : Nat,
      (op_stack_push_pops op stk s).heap.map expr.type
        = s.heap.map expr.type ++ List.replicate k .EXPR_GROUP
      ∧ (op_stack_push_pops op stk s).has_action = s.has_action := by
  induction stk with
  | nil => intro s; exact ⟨0, by simp [op_stack_push_pops]⟩
  | cons op_prev stk ih =>
    intro s
    simp only [op_stack_push_pops]
    have he := emit_group_type op_prev s
    obtain ⟨k, hk1, hk2⟩ := ih (emit_group op_prev s)
    have hcons : s.heap.map expr.type ++ [expr_type.EXPR_GROUP] ++ List.replicate k .EXPR_GROUP
        = s.heap.map expr.type ++ List.replicate (k + 1) .EXPR_GROUP := by
      simp [List.replicate_succ]
    split_ifs
    · exact ⟨0, by simp⟩
    · exact ⟨k + 1, by rw [hk1, he.1, hcons], by rw [hk2, he.2]⟩
    · exact ⟨k + 1, by rw [hk1, he.1, hcons], by rw [hk2, he.2]⟩
    · exact ⟨0, by simp⟩

theorem op_stack_push_type (op : expr_operator) (s : parse_state) : ∃ k : Nat,
    (op_stack_push op s).heap.map expr.type
      = s.heap.map expr.type ++ List.replicate k .EXPR_GROUP
    ∧ (op_stack_push op s).has_action = s.has_action := by
  unfold op_stack_push
  obtain ⟨k, hk1, hk2⟩ := op_stack_push_pops_type op s.op_stack s
  by_cases h1 : op = EXPR_OP_LBR
  · subst h1; exact ⟨0, by simp⟩
  · by_cases h2 : op = EXPR_OP_RBR
    · subst h2; exact ⟨k, by simpa using hk1, by simpa using hk2⟩
    · exact ⟨k, by simpa [h1, h2] using hk1, by simpa [h1, h2] using hk2⟩

theorem op_stack_clean_type (s : parse_state) : ∃ k : Nat,
    (op_stack_clean s).heap.map expr.type
      = s.heap.map expr.type ++ List.replicate k .EXPR_GROUP
    ∧ (op_stack_clean s).has_action = s.has_action := by
  unfold op_stack_clean
  generalize s.op_stack = stk
  induction stk generalizing s with
  | nil => exact ⟨0, by simp [op_stack_clean_loop]⟩
  | cons op stk ih =>
    simp only [op_stack_clean_loop]
    have he := emit_group_type op s
    obtain ⟨k, hk1, hk2⟩ := ih (emit_group op s)
    refine ⟨k + 1, ?_, by rw [hk2, he.2]⟩
    rw [hk1, he.1]
    simp [List.replicate_succ]

theorem dash_c_from (tok : String) (h : c_at tok 0 = '-') : tok = "-" ++ c_from tok 1 := by
  obtain ⟨data⟩ := tok
  cases data with
  | nil => simp [c_at] at h
  | cons c cs =>
    simp only [c_at, List.getD_cons_zero] at h
    subst h
    apply String.ext
    simp [c_from]

theorem find_action_some (name : String) (info : expr_action)
    (h : expr_actions.find? (fun i => decide (name = i.id)) = some info) :
    (name = "print0" ∨ name = "print") ∧ info.arg = EXPR_ARG_NO := by
  have hm := List.mem_of_find?_eq_some h
  have hp := List.find?_some h
  simp only [decide_eq_true_eq] at hp
  simp only [expr_actions, List.mem_cons, List.mem_singleton, List.mem_nil_iff, or_false] at hm
  rcases hm with rfl | rfl
  · exact ⟨Or.inl hp, rfl⟩
  · exact ⟨Or.inr hp, rfl⟩

/-- What one iteration of the token loop does to the types of the records and to the
flag `has_action`: either it adds records that are not actions and leaves the flag, or
the token is the name of an action, one action record is added and the flag is set. -/
theorem parse_step_type (tok : String) (nxt : Option String) (s s1 : parse_state) (c : Bool)
    (h : parse_step tok nxt s = some (s1, c)) :
    (∃ gs, s1.heap.map expr.type = s.heap.map expr.type ++ gs ∧ expr_type.EXPR_ACT ∉ gs
        ∧ s1.has_action = s.has_action)
    ∨ (is_action_token tok ∧ s1.heap.map expr.type = s.heap.map expr.type ++ [.EXPR_ACT]
        ∧ s1.has_action = true) := by
  have hop : ∀ op, s1 = op_stack_push op s →
      ∃ gs, s1.heap.map expr.type = s.heap.map expr.type ++ gs ∧ expr_type.EXPR_ACT ∉ gs
        ∧ s1.has_action = s.has_action := by
    intro op hs
    subst hs
    obtain ⟨k, hk1, hk2⟩ := op_stack_push_type op s
    exact ⟨_, hk1, by simp [List.mem_replicate], hk2⟩
  unfold parse_step at h
  split_ifs at h with h0 h1 h2 h3 h4 h5 h6 h7 h8 h9 h10
  · simp only [Option.some.injEq, Prod.mk.injEq] at h; exact Or.inl (hop _ h.1.symm)
  · simp only [Option.some.injEq, Prod.mk.injEq] at h; exact Or.inl (hop _ h.1.symm)
  · simp only [Option.some.injEq, Prod.mk.injEq] at h; exact Or.inl (hop _ h.1.symm)
  · cases ht : expr_tests.find? (fun i => decide (c_from tok 1 = i.id)) with
    | some info =>
      simp only [ht] at h
      cases hn : expr_new_test s.heap info nxt with
      | none => simp [hn] at h
      | some x =>
        obtain ⟨hh, p⟩ := x
        simp only [hn, Option.some.injEq, Prod.mk.injEq] at h
        obtain ⟨rfl, _⟩ := h
        have hi := expr_list_insert_type p { s with heap := hh }
        left
        unfold expr_new_test at hn
        cases hc : checked_arg info.arg nxt with
        | none => simp [hc] at hn
        | some a =>
          simp only [hc, alloc, Option.some.injEq, Prod.mk.injEq] at hn
          obtain ⟨rfl, rfl⟩ := hn
          refine ⟨[.EXPR_TEST], ?_, by simp, hi.2⟩
          rw [hi.1]
          simp [expr.type]
    | none =>
      simp only [ht] at h
      cases ha : expr_actions.find? (fun i => decide (c_from tok 1 = i.id)) with
      | none => simp [ha] at h
      | some info =>
        simp only [ha] at h
        cases hn : expr_new_action s.heap info nxt with
        | none => simp [hn] at h
        | some x =>
          obtain ⟨hh, p⟩ := x
          simp only [hn, Option.some.injEq, Prod.mk.injEq] at h
          obtain ⟨rfl, _⟩ := h
          have hi := expr_list_insert_type p { s with heap := hh, has_action := true }
          right
          unfold expr_new_action at hn
          cases hc : checked_arg info.arg nxt with
          | none => simp [hc] at hn
          | some a =>
            simp only [hc, alloc, Option.some.injEq, Prod.mk.injEq] at hn
            obtain ⟨rfl, rfl⟩ := hn
            refine ⟨?_, ?_, hi.2⟩
            · have := (find_action_some _ _ ha).1
              have hd := dash_c_from tok h0
              rcases this with h' | h' <;> rw [h'] at hd
              · exact Or.inl hd
              · exact Or.inr hd
            · rw [hi.1]
              simp [expr.type]
  · simp only [Option.some.injEq, Prod.mk.injEq] at h; exact Or.inl (hop _ h.1.symm)
  · simp only [Option.some.injEq, Prod.mk.injEq] at h; exact Or.inl (hop _ h.1.symm)
  · simp only [Option.some.injEq, Prod.mk.injEq] at h; exact Or.inl (hop _ h.1.symm)

/-- The flag `has_action` tells whether the postfix list holds an action record. -/
theorem parse_tokens_flag (argv : List String) (argpos : Nat) (s : parse_state)
    (hs : parse_tokens argv argpos = some s) : s.has_action = has_act s.heap := by
  unfold parse_tokens at hs
  cases hl : parse_loop (argv.drop argpos) parse_state.init with
  | none => simp [hl] at hs
  | some s0 =>
    simp only [hl, Option.some.injEq] at hs
    subst hs
    have h0 : s0.has_action = has_act s0.heap := by
      apply parse_loop_invariant (fun s => s.has_action = has_act s.heap) (argv.drop argpos)
        _ _ (argv.drop argpos) (Nat.le_refl _) (fun _ h => h) parse_state.init s0 rfl hl
      intro tok _ nxt s s1 c hP hstep
      rcases parse_step_type tok nxt s s1 c hstep with ⟨gs, h1, h2, h3⟩ | ⟨_, h1, h3⟩
      · rw [h3, hP]
        unfold has_act
        rw [h1]
        simp [h2]
      · rw [h3]
        unfold has_act
        rw [h1]
        simp
    obtain ⟨k, hk1, hk2⟩ := op_stack_clean_type s0
    rw [hk2, h0]
    unfold has_act
    rw [hk1]
    simp [List.mem_replicate]

/-- Without the name of an action among the tokens the flag `has_action` stays clear. -/
theorem parse_tokens_no_action (argv : List String) (argpos : Nat) (s : parse_state)
    (hna : ∀ tok ∈ argv.drop argpos, ¬ is_action_token tok)
    (hs : parse_tokens argv argpos = some s) : s.has_action = false := by
  unfold parse_tokens at hs
  cases hl : parse_loop (argv.drop argpos) parse_state.init with
  | none => simp [hl] at hs
  | some s0 =>
    simp only [hl, Option.some.injEq] at hs
    subst hs
    have h0 : s0.has_action = false := by
      apply parse_loop_invariant (fun s => s.has_action = false) (argv.drop argpos)
        _ _ (argv.drop argpos) (Nat.le_refl _) (fun _ h => h) parse_state.init s0 rfl hl
      intro tok htok nxt s s1 c hP hstep
      rcases parse_step_type tok nxt s s1 c hstep with ⟨gs, _, _, h3⟩ | ⟨h1, _, _⟩
      · rw [h3]; exact hP
      · exact absurd h1 (hna tok htok)
    obtain ⟨k, _, hk2⟩ := op_stack_clean_type s0
    rw [hk2, h0]

theorem link_loop_map_type (fuel : Nat) :
    ∀ (h : List expr) (p x : Option Nat) (h1 : List expr) (T : Option Nat),
      link_loop fuel h p x = some (h1, T) → h1.map expr.type = h.map expr.type := by
  induction fuel with
  | zero => intro h p x h1 T hl; simp [link_loop] at hl
  | succ n ih =>
    intro h p x h1 T hl
    cases p with
    | none =>
      simp only [link_loop, Option.some.injEq, Prod.mk.injEq] at hl
      rw [← hl.1]
    | some e =>
      rw [link_loop] at hl
      cases he : h[e]? with
      | none => simp [he] at hl
      | some r =>
        simp only [he] at hl
        cases hf : find_grp h (h.length + 1) r.next with
        | none => simp [hf] at hl
        | some g =>
          cases g with
          | none =>
            simp only [hf] at hl
            exact ih _ _ _ _ _ hl
          | some g =>
            simp only [hf] at hl
            rw [ih _ _ _ _ _ hl, adopt_map_type]

theorem link_has_act (h : List expr) (e : Nat) (h1 : List expr) (T : Option Nat)
    (hl : link h e = some (h1, T)) : has_act h1 = has_act h := by
  unfold has_act
  rw [link_loop_map_type _ _ _ _ _ _ hl]

theorem getElem?_append_of_some {α : Type} (h k : List α) (p : Nat) (e : α)
    (hp : h[p]? = some e) : (h ++ k)[p]? = some e := by
  rw [List.getElem?_append_left (List.getElem?_eq_some.mp hp).1]
  exact hp

/-- An evaluation that returns on a heap returns the same on the heap with further
records allocated. -/
theorem expr_eval_append {σ : Type} (cb : callbacks σ) (h k : List expr)
    (filepath name : String) (st : stat) (fuel : Nat) :
    ∀ (p : Option Nat) (w : σ) (x : expr_result × σ),
      expr_eval cb h filepath name st fuel p w = some x →
      expr_eval cb (h ++ k) filepath name st fuel p w = some x := by
  induction fuel with
  | zero => intro p w x hx; simp [expr_eval] at hx
  | succ n ih =>
    intro p w x hx
    cases p with
    | none => simp [expr_eval] at hx
    | some p =>
      rw [expr_eval] at hx ⊢
      cases hp : h[p]? with
      | none => simp [hp] at hx
      | some e =>
        simp only [hp, getElem?_append_of_some h k p e hp] at hx ⊢
        cases hu : e.u with
        | test t a => simpa [hu] using hx
        | act a arg => simpa [hu] using hx
        | group op e1 e2 =>
          simp only [hu] at hx ⊢
          cases h1 : expr_eval cb h filepath name st n e1 w with
          | none => simp [h1] at hx
          | some x1 =>
            obtain ⟨r1, w1⟩ := x1
            rw [ih e1 w _ h1]
            simp only [h1] at hx ⊢
            split_ifs at hx ⊢ <;> try exact hx
            all_goals
              cases h2 : expr_eval cb h filepath name st n e2 w1 with
              | none => simp [h2] at hx
              | some x2 =>
                obtain ⟨r2, w2⟩ := x2
                rw [ih e2 w1 _ h2]
                simp only [h2] at hx ⊢
                exact hx

theorem not_act_of_has_act_false (h : List expr) (hh : has_act h = false) (p : Nat) (e : expr)
    (hp : h[p]? = some e) : e.type ≠ .EXPR_ACT := by
  intro ht
  have hm : e ∈ h := List.getElem?_mem hp
  have : expr_type.EXPR_ACT ∈ h.map expr.type := ht ▸ List.mem_map_of_mem _ hm
  simp [has_act, this] at hh

/-- The evaluation of a structure without action records invokes no action callback. -/
theorem expr_eval_no_action_calls {σ : Type} (cb : callbacks σ) (h : List expr)
    (hh : has_act h = false) (filepath name : String) (st : stat) (fuel : Nat) :
    ∀ (p : Option Nat) (w : σ × List call) (r : expr_result) (w1 : σ × List call),
      expr_eval (logged cb) h filepath name st fuel p w = some (r, w1) →
      action_calls w1.2 = action_calls w.2 := by
  induction fuel with
  | zero => intro p w r w1 hx; simp [expr_eval] at hx
  | succ n ih =>
    intro p w r w1 hx
    cases p with
    | none => simp [expr_eval] at hx
    | some p =>
      rw [expr_eval] at hx
      cases hp : h[p]? with
      | none => simp [hp] at hx
      | some e =>
        have hna := not_act_of_has_act_false h hh p e hp
        simp only [hp] at hx
        cases hu : e.u with
        | test t a =>
          simp only [hu, logged, Option.some.injEq, Prod.mk.injEq] at hx
          obtain ⟨_, rfl⟩ := hx
          simp [action_calls, call.is_action, List.countP_append]
        | act a arg => simp [expr.type, hu] at hna
        | group op e1 e2 =>
          simp only [hu] at hx
          cases h1 : expr_eval (logged cb) h filepath name st n e1 w with
          | none => simp [h1] at hx
          | some x1 =>
            obtain ⟨r1, v1⟩ := x1
            have a1 := ih e1 w r1 v1 h1
            simp only [h1] at hx
            have done : ∀ rr, (some (rr, v1) = some (r, w1)) →
                action_calls w1.2 = action_calls w.2 := by
              intro rr hrr
              simp only [Option.some.injEq, Prod.mk.injEq] at hrr
              rw [← hrr.2]; exact a1
            split_ifs at hx <;> try exact done _ hx
            all_goals
              cases h2 : expr_eval (logged cb) h filepath name st n e2 v1 with
              | none => simp [h2] at hx
              | some x2 =>
                obtain ⟨r2, v2⟩ := x2
                have a2 := ih e2 v1 r2 v2 h2
                simp only [h2, Option.some.injEq, Prod.mk.injEq] at hx
                rw [← hx.2, a2, a1]


/-! ## Termination of the linking pass -/

theorem first_open_bounds (l : List expr_union) :
    ∀ (k g : Nat), first_open l k = some g → k ≤ g ∧ g < k + l.length := by
  induction l with
  | nil => intro k g h; simp [first_open] at h
  | cons u l ih =>
    intro k g h
    rw [first_open] at h
    split_ifs at h
    · simp only [Option.some.injEq] at h
      subst h
      simp
    · have := ih (k + 1) g h
      simp only [List.length_cons]
      omega

/-- The linking pass ends on every postfix list, within the bound `parse_expressions`
gives it. -/
theorem link_loop_seq_total (fuel : Nat) :
    ∀ (us : List expr_union) (e : Nat) (x : Option Nat), e < us.length →
      us.length - e < fuel →
      ∃ us1 T, link_loop fuel (seq_heap us) (some e) x = some (seq_heap us1, T) := by
  induction fuel with
  | zero => intro us e x _ hf; omega
  | succ n ih =>
    intro us e x he hf
    rw [link_loop_seq_step us n e x he]
    cases hfo : first_open (us.drop (e + 1)) (e + 1) with
    | none =>
      obtain ⟨m, rfl⟩ : ∃ m, n = m + 1 := ⟨n - 1, by omega⟩
      exact ⟨us, some e, link_loop_done _ _ _⟩
    | some g =>
      have hb := first_open_bounds _ _ _ hfo
      simp only [List.length_drop] at hb
      exact ih _ g (some g) (by simp; omega) (by simp; omega)

theorem parse_step_list_state (tok : String) (nxt : Option String) (us : List expr_union)
    (stk : List expr_operator) (ha : Bool) (s1 : parse_state) (c : Bool)
    (h : parse_step tok nxt (list_state us stk ha) = some (s1, c)) :
    ∃ us1 stk1 ha1, s1 = list_state us1 stk1 ha1 := by
  have hop : ∀ op, s1 = op_stack_push op (list_state us stk ha) →
      ∃ us1 stk1 ha1, s1 = list_state us1 stk1 ha1 := by
    intro op hs
    rw [op_stack_push_list_state] at hs
    exact ⟨_, _, _, hs⟩
  unfold parse_step at h
  split_ifs at h
  · simp only [Option.some.injEq, Prod.mk.injEq] at h; exact hop _ h.1.symm
  · simp only [Option.some.injEq, Prod.mk.injEq] at h; exact hop _ h.1.symm
  · simp only [Option.some.injEq, Prod.mk.injEq] at h; exact hop _ h.1.symm
  · cases ht : expr_tests.find? (fun i => decide (c_from tok 1 = i.id)) with
    | some info =>
      simp only [ht] at h
      cases hc : checked_arg info.arg nxt with
      | none => simp [expr_new_test, hc] at h
      | some a =>
        simp only [expr_new_test, hc, alloc, Option.some.injEq, Prod.mk.injEq] at h
        obtain ⟨rfl, _⟩ := h
        refine ⟨us ++ [.test info.test a], stk, ha, ?_⟩
        have := @seq_heap_append_alloc stk ha ha us (.test info.test a)
        simpa [list_state] using this
    | none =>
      simp only [ht] at h
      cases hac : expr_actions.find? (fun i => decide (c_from tok 1 = i.id)) with
      | none => simp [hac] at h
      | some info =>
        simp only [hac] at h
        cases hc : checked_arg info.arg nxt with
        | none => simp [expr_new_action, hc] at h
        | some a =>
          simp only [expr_new_action, hc, alloc, Option.some.injEq, Prod.mk.injEq] at h
          obtain ⟨rfl, _⟩ := h
          refine ⟨us ++ [.act info.action a], stk, true, ?_⟩
          have := @seq_heap_append_alloc stk ha true us (.act info.action a)
          simpa [list_state] using this
  · simp only [Option.some.injEq, Prod.mk.injEq] at h; exact hop _ h.1.symm
  · simp only [Option.some.injEq, Prod.mk.injEq] at h; exact hop _ h.1.symm
  · simp only [Option.some.injEq, Prod.mk.injEq] at h; exact hop _ h.1.symm

/-- The token loop and `op_stack_clean` leave a postfix list allocated in order, with
an empty operator stack. -/
theorem parse_tokens_list_state (argv : List String) (argpos : Nat) (s : parse_state)
    (hs : parse_tokens argv argpos = some s) : ∃ us ha, s = list_state us [] ha := by
  unfold parse_tokens at hs
  cases hl : parse_loop (argv.drop argpos) parse_state.init with
  | none => simp [hl] at hs
  | some s0 =>
    simp only [hl, Option.some.injEq] at hs
    subst hs
    have h0 : ∃ us stk ha, s0 = list_state us stk ha := by
      apply parse_loop_invariant (fun s => ∃ us stk ha, s = list_state us stk ha)
        (argv.drop argpos) _ _ (argv.drop argpos) (Nat.le_refl _) (fun _ h => h)
        parse_state.init s0 ⟨[], [], false, rfl⟩ hl
      intro tok _ nxt s s1 c hP hstep
      obtain ⟨us, stk, ha, rfl⟩ := hP
      exact parse_step_list_state tok nxt us stk ha s1 c hstep
    obtain ⟨us, stk, ha, rfl⟩ := h0
    exact ⟨_, _, op_stack_clean_list_state us stk ha⟩

/-- The function `parse_expressions` returns on every command line: its linking loop
always ends. -/
theorem parse_expressions_terminates (argv : List String) (argpos : Nat) :
    parse_expressions argv argpos ≠ .unterminated := by
  unfold parse_expressions
  cases hs : parse_tokens argv argpos with
  | none => simp
  | some s =>
    obtain ⟨us, ha, rfl⟩ := parse_tokens_list_state argv argpos s hs
    simp only [list_state_expressions]
    by_cases hus : us = []
    · subst hus
      simp [expr_new_action, expr_actions_PRINT, checked_arg, plain_arg]
    · simp only [hus, if_false]
      have hpos : 0 < us.length := List.length_pos.mpr hus
      obtain ⟨us1, T, hl⟩ := link_loop_seq_total (us.length + 1) us 0 none hpos (by omega)
      have : link (list_state us [] ha).heap 0 = some (seq_heap us1, T) := by
        simpa [link, list_state] using hl
      simp only [this]
      cases ha <;> simp [list_state, add_default_action_eq]


/-! ## C1: short-circuit law -/

/-- C1. Short-circuit law of `expr_eval`: for a group record with both children present,
when the evaluation of the left child `l` returns `EXPR_FALSE` under AND, or `EXPR_TRUE`
under OR, the evaluation of the group returns that value with the outside world and the
log of callback invocations exactly as the evaluation of `l` alone left them: no callback
of the right child is invoked. -/
theorem expr_eval_short_circuit {σ : Type} (cb : callbacks σ) (h : List expr)
    (filepath name : String) (st : stat) (fuel m : Nat) (p l r : Nat) (op : expr_operator)
    (nx : Option Nat) (w w1 : σ × List call) (r1 : expr_result)
    (hp : h[p]? = some ⟨.group op (some l) (some r), nx⟩)
    (hl : expr_eval (logged cb) h filepath name st fuel (some l) w = some (r1, w1))
    (hsc : (op = EXPR_OP_AND ∧ r1 = EXPR_FALSE) ∨ (op = EXPR_OP_OR ∧ r1 = EXPR_TRUE))
    (hm : fuel < m) :
    expr_eval (logged cb) h filepath name st m (some p) w = some (r1, w1) := by
  apply expr_eval_mono_le (logged cb) h filepath name st (fuel + 1) m hm
  rw [expr_eval]
  simp only [hp, hl]
  rcases hsc with ⟨ho, hr⟩ | ⟨ho, hr⟩ <;> subst ho <;> subst hr <;> simp

theorem expr_eval_short_circuit_witness :
    expr_eval (logged (rfind_callbacks literal_sys)) sample_heap "d/b" "b" (regular_file 0) 2
        (some 2) (⟨""⟩, [])
      = some (EXPR_FALSE, (⟨""⟩,
          [call.test .expr_test_name_clb "d/b" "b" (regular_file 0) (some "a")])) :=
  expr_eval_short_circuit (rfind_callbacks literal_sys) sample_heap "d/b" "b" (regular_file 0)
    1 2 2 0 1 EXPR_OP_AND none (⟨""⟩, []) _ EXPR_FALSE (by decide) (by decide)
    (Or.inl ⟨rfl, rfl⟩) (by decide)

/-! ## C2: the value of an evaluation -/

theorem ofBool_eq_true (b : Bool) : (expr_result.ofBool b = EXPR_TRUE) ↔ b = true := by
  cases b <;> simp [expr_result.ofBool]

theorem ofBool_eq_false (b : Bool) : (expr_result.ofBool b = EXPR_FALSE) ↔ b = false := by
  cases b <;> simp [expr_result.ofBool]

/-- C2. Value of `expr_eval`: on a heap structure that is a copy of a tree whose groups
are AND, OR, NOT with the required children, and with callbacks whose result on
(filepath, name, st, argument) resp. (filepath, argument) does not depend on the outside
world, `expr_eval` returns (for every recursion bound above the depth of the tree) the
value of the Boolean formula read off the tree: `EXPR_TRUE` when it is true,
`EXPR_FALSE` otherwise. -/
theorem expr_eval_value {σ : Type} (cb : callbacks σ) (h : List expr)
    (filepath name : String) (st : stat)
    (tv : expr_test_clb → Option String → Bool) (av : expr_action_clb → Option String → Bool)
    (hT : ∀ c a w, (cb.test c filepath name st a w).1 = expr_result.ofBool (tv c a))
    (hA : ∀ c a w, (cb.action c filepath a w).1 = expr_result.ofBool (av c a))
    (t : tree) (hwf : t.wf_groups = true) :
    ∀ (p : Option Nat) (fuel : Nat) (w : σ), represents h p t = true → t.depth ≤ fuel →
      ∃ w1, expr_eval cb h filepath name st fuel p w
        = some (expr_result.ofBool (t.formula tv av), w1) := by
  induction t with
  | null => simp [tree.wf_groups] at hwf
  | test c a =>
    intro p fuel w hr hd
    cases p with
    | none => simp [represents] at hr
    | some p =>
      obtain ⟨n, rfl⟩ : ∃ n, fuel = n + 1 := ⟨fuel - 1, by simp [tree.depth] at hd; omega⟩
      rw [represents] at hr
      split at hr
      · next _ c1 a1 nx hp =>
        simp only [Bool.and_eq_true, decide_eq_true_eq] at hr
        obtain ⟨rfl, rfl⟩ := hr
        refine ⟨(cb.test c1 filepath name st a1 w).2, ?_⟩
        rw [expr_eval]
        simp only [hp, tree.formula, ← hT c1 a1 w]
      · simp at hr
  | act c a =>
    intro p fuel w hr hd
    cases p with
    | none => simp [represents] at hr
    | some p =>
      obtain ⟨n, rfl⟩ : ∃ n, fuel = n + 1 := ⟨fuel - 1, by simp [tree.depth] at hd; omega⟩
      rw [represents] at hr
      split at hr
      · next _ c1 a1 nx hp =>
        simp only [Bool.and_eq_true, decide_eq_true_eq] at hr
        obtain ⟨rfl, rfl⟩ := hr
        refine ⟨(cb.action c1 filepath a1 w).2, ?_⟩
        rw [expr_eval]
        simp only [hp, tree.formula, ← hA c1 a1 w]
      · simp at hr
  | group op t1 t2 ih1 ih2 =>
    intro p fuel w hr hd
    cases p with
    | none => simp [represents] at hr
    | some p =>
      obtain ⟨n, rfl⟩ : ∃ n, fuel = n + 1 := ⟨fuel - 1, by simp [tree.depth] at hd; omega⟩
      have hd1 : t1.depth ≤ n := by simp [tree.depth] at hd; omega
      have hd2 : t2.depth ≤ n := by simp [tree.depth] at hd; omega
      rw [represents] at hr
      split at hr
      · next _ op1 p1 p2 nx hp =>
        simp only [Bool.and_eq_true, decide_eq_true_eq] at hr
        obtain ⟨⟨rfl, hr1⟩, hr2⟩ := hr
        rw [expr_eval]
        simp only [hp]
        cases op1 with
        | EXPR_OP_LBR => simp [tree.wf_groups] at hwf
        | EXPR_OP_RBR => simp [tree.wf_groups] at hwf
        | EXPR_OP_NOT =>
          simp only [tree.wf_groups, Bool.and_eq_true, decide_eq_true_eq] at hwf
          obtain ⟨w1, h1⟩ := ih1 hwf.1 p1 n w hr1 hd1
          refine ⟨w1, ?_⟩
          simp only [h1, tree.formula, if_true]
          cases t1.formula tv av <;> simp [expr_result.ofBool]
        | EXPR_OP_AND =>
          simp only [tree.wf_groups, Bool.and_eq_true] at hwf
          obtain ⟨w1, h1⟩ := ih1 hwf.1 p1 n w hr1 hd1
          obtain ⟨w2, h2⟩ := ih2 hwf.2 p2 n w1 hr2 hd2
          simp only [h1, h2, tree.formula]
          cases t1.formula tv av <;> cases t2.formula tv av <;>
            simp [expr_result.ofBool]
        | EXPR_OP_OR =>
          simp only [tree.wf_groups, Bool.and_eq_true] at hwf
          obtain ⟨w1, h1⟩ := ih1 hwf.1 p1 n w hr1 hd1
          obtain ⟨w2, h2⟩ := ih2 hwf.2 p2 n w1 hr2 hd2
          simp only [h1, h2, tree.formula]
          cases t1.formula tv av <;> cases t2.formula tv av <;>
            simp [expr_result.ofBool]
      · simp at hr

theorem test_value_spec (os : sys) (filepath name : String) (st : stat) (c : expr_test_clb)
    (a : Option String) (w : world) :
    ((rfind_callbacks os).test c filepath name st a w).1
      = expr_result.ofBool (test_value os filepath name st c a) := by
  have key : ∀ r : expr_result, r = expr_result.ofBool (decide (r = EXPR_TRUE)) := by
    intro r; cases r <;> rfl
  unfold test_value
  cases c <;> exact key _

theorem action_value_spec (os : sys) (filepath : String) (c : expr_action_clb)
    (a : Option String) (w : world) :
    ((rfind_callbacks os).action c filepath a w).1 = expr_result.ofBool true := by
  cases c <;> rfl

theorem expr_eval_value_witness :
    ∃ w1, expr_eval (rfind_callbacks literal_sys) sample_heap "d/a" "a" (regular_file 0) 2
        (some 2) ⟨""⟩
      = some (expr_result.ofBool
          ((tree.group EXPR_OP_AND (.test .expr_test_name_clb (some "a"))
            (.act .expr_action_print_clb none)).formula
              (test_value literal_sys "d/a" "a" (regular_file 0)) (fun _ _ => true)), w1) :=
  expr_eval_value (rfind_callbacks literal_sys) sample_heap "d/a" "a" (regular_file 0)
    (test_value literal_sys "d/a" "a" (regular_file 0)) (fun _ _ => true)
    (test_value_spec literal_sys "d/a" "a" (regular_file 0))
    (action_value_spec literal_sys "d/a")
    (.group EXPR_OP_AND (.test .expr_test_name_clb (some "a")) (.act .expr_action_print_clb none))
    (by decide) (some 2) 2 ⟨""⟩ (by decide) (by decide)

/-! ## C3: precedence of AND over OR -/

theorem or_and_outcome :
    parse_expressions ["-name", "a", "-o", "-name", "b", "-a", "-name", "c"] 0
      = .EXIT_SUCCESS or_and_heap (some 6) := by
  decide

/-- C3 (defect). On `-name a -o -name b -a -name c` the parser succeeds, but the OR
record it returns beneath the default print has the AND of the first two terminals as
`expr1` and itself as `expr2`, and the third terminal is not linked: the structure is
not the tree `OR(a, AND(b, c))`. -/
theorem parse_or_and_defect :
    parse_expressions ["-name", "a", "-o", "-name", "b", "-a", "-name", "c"] 0
      = .EXIT_SUCCESS or_and_heap (some 6)
    ∧ or_and_heap[4]? = some ⟨.group EXPR_OP_OR (some 3) (some 4), none⟩
    ∧ or_and_heap[3]? = some ⟨.group EXPR_OP_AND (some 0) (some 1), some 4⟩
    ∧ ¬ builds ["-name", "a", "-o", "-name", "b", "-a", "-name", "c"]
        (with_default_print (.group EXPR_OP_OR (.test .expr_test_name_clb (some "a"))
          (.group EXPR_OP_AND (.test .expr_test_name_clb (some "b"))
            (.test .expr_test_name_clb (some "c"))))) := by
  refine ⟨or_and_outcome, rfl, rfl, ?_⟩
  rintro ⟨h, root, hp, hr⟩
  rw [or_and_outcome] at hp
  injection hp with h1 h2
  subst h1; subst h2
  revert hr
  decide

theorem or_and_left_false (fuel : Nat) (x : expr_result × world)
    (hx : expr_eval (rfind_callbacks literal_sys) or_and_heap "a" "a" (regular_file 0) fuel
      (some 3) ⟨""⟩ = some x) : x = (EXPR_FALSE, ⟨""⟩) := by
  have h2 : expr_eval (rfind_callbacks literal_sys) or_and_heap "a" "a" (regular_file 0) 2
      (some 3) ⟨""⟩ = some (EXPR_FALSE, ⟨""⟩) := by decide
  rcases Nat.lt_or_ge fuel 2 with hlt | hge
  · have : fuel = 0 ∨ fuel = 1 := by omega
    rcases this with rfl | rfl
    · simp [expr_eval] at hx
    · have h1 : expr_eval (rfind_callbacks literal_sys) or_and_heap "a" "a" (regular_file 0) 1
          (some 3) ⟨""⟩ = none := by decide
      rw [h1] at hx
      cases hx
  · have := expr_eval_mono_le _ _ _ _ _ 2 fuel hge _ _ _ h2
    rw [this] at hx
    exact (Option.some.inj hx).symm

/-- The evaluation of the structure built for `-name a -o -name b -a -name c` on a file
named `a`, which satisfies `a or (b and c)`, never returns: the OR record evaluates
itself again and again. -/
theorem or_and_eval_diverges (fuel : Nat) :
    expr_eval (rfind_callbacks literal_sys) or_and_heap "a" "a" (regular_file 0) fuel
      (some 6) ⟨""⟩ = none := by
  have h4 : ∀ n, expr_eval (rfind_callbacks literal_sys) or_and_heap "a" "a" (regular_file 0) n
      (some 4) ⟨""⟩ = none := by
    intro n
    induction n with
    | zero => rfl
    | succ n ih =>
      rw [expr_eval]
      have hg : or_and_heap[4]? = some ⟨.group EXPR_OP_OR (some 3) (some 4), none⟩ := rfl
      simp only [hg]
      cases h3 : expr_eval (rfind_callbacks literal_sys) or_and_heap "a" "a" (regular_file 0) n
          (some 3) ⟨""⟩ with
      | none => rfl
      | some x =>
        have := or_and_left_false n x h3
        subst this
        simp [ih]
  cases fuel with
  | zero => rfl
  | succ n =>
    rw [expr_eval]
    have hg : or_and_heap[6]? = some ⟨.group EXPR_OP_AND (some 4) (some 5), none⟩ := rfl
    simp only [hg, h4 n]

/-! ## C4: parenthesised grouping -/

theorem parse_grouping_list (T1 T2 T3 : terminal) (h1 : T1.valid) (h2 : T2.valid) (h3 : T3.valid)
    (tor tand : String) (hor : spells tor EXPR_OP_OR) (hand : spells tand EXPR_OP_AND) :
    parse_loop (["("] ++ T1.tokens ++ [tor] ++ T2.tokens ++ [")", tand] ++ T3.tokens) parse_state.init
     = some (list_state [T1.u, T2.u, open_group EXPR_OP_OR, T3.u] [EXPR_OP_AND]
          (T1.is_action || T2.is_action || T3.is_action)) := by
  have htor : plain_arg (some tor) = false := by
    rcases hor with rfl | rfl <;> decide
  simp only [List.append_assoc, List.singleton_append, List.cons_append, List.nil_append]
  rw [parse_loop_operator "(" EXPR_OP_LBR rfl, init_list_state, op_stack_push_list_state,
    parse_loop_terminal T1 h1 _ (by intro; simpa using htor), insert_leaf_list_state,
    parse_loop_operator tor EXPR_OP_OR hor, op_stack_push_list_state,
    parse_loop_terminal T2 h2 _ (by intro; rfl), insert_leaf_list_state,
    parse_loop_operator ")" EXPR_OP_RBR rfl, op_stack_push_list_state,
    parse_loop_operator tand EXPR_OP_AND hand, op_stack_push_list_state]
  have := parse_loop_terminal T3 h3 [] (by intro; rfl)
  simp only [List.append_nil] at this
  rw [this, insert_leaf_list_state]
  simp +decide [parse_loop, popped, kept]

theorem link_grouping (T1 T2 T3 : terminal) :
    link_loop 6 (seq_heap [T1.u, T2.u, open_group EXPR_OP_OR, T3.u, open_group EXPR_OP_AND])
      (some 0) none
    = some (seq_heap [T1.u, T2.u, .group EXPR_OP_OR (some 0) (some 1), T3.u,
        .group EXPR_OP_AND (some 2) (some 3)], some 4) := by
  simp +decide [link_loop_seq_step, link_loop_done, first_open, is_open_terminal,
    is_open_open_group, is_open_linked, adopt_u_open_group,
    List.modify, List.modifyHead, List.modifyTailIdx, seq_next]

theorem parse_grouping_builds (T1 T2 T3 : terminal) (h1 : T1.valid) (h2 : T2.valid) (h3 : T3.valid)
    (tor tand : String) (hor : spells tor EXPR_OP_OR) (hand : spells tand EXPR_OP_AND) :
    builds (["("] ++ T1.tokens ++ [tor] ++ T2.tokens ++ [")", tand] ++ T3.tokens)
      (expected_root [T1, T2, T3]
        (.group EXPR_OP_AND (.group EXPR_OP_OR T1.leaf T2.leaf) T3.leaf)) := by
  unfold builds
  rw [parse_expressions_of_list _ 0 _ _ _
    (parse_grouping_list T1 T2 T3 h1 h2 h3 tor tand hor hand) (by simp) _ _
    (link_grouping T1 T2 T3)]
  apply any_is_action_eq
  · simp [Bool.or_assoc]
  · have hs : seq_heap [T1.u, T2.u, .group EXPR_OP_OR (some 0) (some 1), T3.u,
        .group EXPR_OP_AND (some 2) (some 3)]
        = [⟨T1.u, some 1⟩, ⟨T2.u, some 2⟩, ⟨.group EXPR_OP_OR (some 0) (some 1), some 3⟩,
            ⟨T3.u, some 4⟩, ⟨.group EXPR_OP_AND (some 2) (some 3), none⟩] := rfl
    rw [hs]
    apply represents_group _ 4 _ (some 2) (some 3) none _ _ rfl
    · apply represents_group _ 2 _ (some 0) (some 1) (some 3) _ _ rfl
      · exact represents_leaf _ 0 T1 (some 1) rfl
      · exact represents_leaf _ 1 T2 (some 2) rfl
    · exact represents_leaf _ 3 T3 (some 4) rfl

theorem grouping_outcome :
    parse_expressions ["(", "-name", "a", "-o", "-name", "b", ")", "-a", "-empty"] 0
      = .EXIT_SUCCESS grouping_heap (some 6) := by
  decide

theorem grouping_eval_empty (os : sys) (hmatch : os.fnmatch (some "a") "a" 0 = 0)
    (filepath : String) (st : stat) (hreg : st.st_mode &&& S_IFDIR = 0) (w : world)
    (hsize : st.st_size = 0) :
    expr_eval (rfind_callbacks os) grouping_heap filepath "a" st 4 (some 6) w
      = some (EXPR_TRUE, ⟨w.stdout ++ filepath ++ "\n"⟩) := by
  simp [expr_eval, grouping_heap, rfind_callbacks, expr_test_name_clb, expr_test_name_common,
    hmatch, expr_test_empty_clb, hreg, hsize, expr_action_print_clb]

theorem grouping_eval_nonempty (os : sys) (hmatch : os.fnmatch (some "a") "a" 0 = 0)
    (filepath : String) (st : stat) (hreg : st.st_mode &&& S_IFDIR = 0) (w : world)
    (hsize : st.st_size ≠ 0) :
    expr_eval (rfind_callbacks os) grouping_heap filepath "a" st 4 (some 6) w
      = some (EXPR_FALSE, w) := by
  simp [expr_eval, grouping_heap, rfind_callbacks, expr_test_name_clb, expr_test_name_common,
    hmatch, expr_test_empty_clb, hreg, hsize]

/-- C4. Parenthesised grouping: for all valid terminals `T1`, `T2`, `T3`,
`parse_expressions` on `( T1 -o T2 ) -a T3` succeeds and builds `AND(OR(T1, T2), T3)`,
beneath the default print when none of the terminals is an action.  In particular,
what is built for `( -name a -o -name b ) -a -empty` evaluates, on a file named `a`
that is not a directory and whose name the matcher accepts for the pattern `a`, to
`EXPR_TRUE` (printing the path) when the file has size 0 and to `EXPR_FALSE` (printing
nothing) when it has not. -/
theorem parse_grouping (T1 T2 T3 : terminal) (h1 : T1.valid) (h2 : T2.valid) (h3 : T3.valid)
    (tor tand : String) (hor : spells tor EXPR_OP_OR) (hand : spells tand EXPR_OP_AND)
    (os : sys) (hmatch : os.fnmatch (some "a") "a" 0 = 0)
    (filepath : String) (st : stat) (hreg : st.st_mode &&& S_IFDIR = 0) (w : world) :
    builds (["("] ++ T1.tokens ++ [tor] ++ T2.tokens ++ [")", tand] ++ T3.tokens)
      (expected_root [T1, T2, T3]
        (.group EXPR_OP_AND (.group EXPR_OP_OR T1.leaf T2.leaf) T3.leaf))
    ∧ ∃ h root,
        parse_expressions ["(", "-name", "a", "-o", "-name", "b", ")", "-a", "-empty"] 0
          = .EXIT_SUCCESS h root
        ∧ (st.st_size = 0 →
            expr_eval (rfind_callbacks os) h filepath "a" st 4 root w
              = some (EXPR_TRUE, ⟨w.stdout ++ filepath ++ "\n"⟩))
        ∧ (st.st_size ≠ 0 →
            expr_eval (rfind_callbacks os) h filepath "a" st 4 root w
              = some (EXPR_FALSE, w)) :=
  ⟨parse_grouping_builds T1 T2 T3 h1 h2 h3 tor tand hor hand,
    grouping_heap, some 6, grouping_outcome,
    grouping_eval_empty os hmatch filepath st hreg w,
    grouping_eval_nonempty os hmatch filepath st hreg w⟩

theorem parse_grouping_witness :
    builds (["("] ++ (terminal.test ⟨"name", .expr_test_name_clb, EXPR_ARG_MAND⟩ (some "a")).tokens
        ++ ["-o"] ++ (terminal.test ⟨"name", .expr_test_name_clb, EXPR_ARG_MAND⟩ (some "b")).tokens
        ++ [")", "-a"] ++ (terminal.test ⟨"empty", .expr_test_empty_clb, EXPR_ARG_NO⟩ none).tokens)
      (expected_root [.test ⟨"name", .expr_test_name_clb, EXPR_ARG_MAND⟩ (some "a"),
          .test ⟨"name", .expr_test_name_clb, EXPR_ARG_MAND⟩ (some "b"),
          .test ⟨"empty", .expr_test_empty_clb, EXPR_ARG_NO⟩ none]
        (.group EXPR_OP_AND
          (.group EXPR_OP_OR
            (terminal.test ⟨"name", .expr_test_name_clb, EXPR_ARG_MAND⟩ (some "a")).leaf
            (terminal.test ⟨"name", .expr_test_name_clb, EXPR_ARG_MAND⟩ (some "b")).leaf)
          (terminal.test ⟨"empty", .expr_test_empty_clb, EXPR_ARG_NO⟩ none).leaf))
    ∧ ∃ h root,
        parse_expressions ["(", "-name", "a", "-o", "-name", "b", ")", "-a", "-empty"] 0
          = .EXIT_SUCCESS h root
        ∧ ((regular_file 0).st_size = 0 →
            expr_eval (rfind_callbacks literal_sys) h "d/a" "a" (regular_file 0) 4 root ⟨""⟩
              = some (EXPR_TRUE, ⟨"" ++ "d/a" ++ "\n"⟩))
        ∧ ((regular_file 0).st_size ≠ 0 →
            expr_eval (rfind_callbacks literal_sys) h "d/a" "a" (regular_file 0) 4 root ⟨""⟩
              = some (EXPR_FALSE, ⟨""⟩)) :=
  parse_grouping _ _ _ (by decide) (by decide) (by decide) "-o" "-a" (Or.inl rfl) (Or.inl rfl)
    literal_sys (by decide) "d/a" (regular_file 0) (by decide) ⟨""⟩

/-! ## C5: left associativity -/

theorem plain_arg_spells (tok : String) (op : expr_operator) (h : spells tok op) :
    plain_arg (some tok) = false := by
  cases op <;> simp only [spells] at h
  · subst h; decide
  · subst h; decide
  · rcases h with rfl | rfl <;> decide
  · rcases h with rfl | rfl <;> decide
  · rcases h with rfl | rfl <;> decide

theorem popped_same (op : expr_operator) (hop : op = EXPR_OP_AND ∨ op = EXPR_OP_OR) :
    popped op [op] = [op] ∧ kept op [op] = [] := by
  rcases hop with rfl | rfl <;> decide

/-- The token loop on the rest of a chain, entered with the operator on the stack. -/
theorem parse_loop_chain (tok : String) (op : expr_operator) (htok : spells tok op)
    (hop : op = EXPR_OP_AND ∨ op = EXPR_OP_OR) (Ts : List terminal) :
    (∀ T ∈ Ts, T.valid) → ∀ (us : List expr_union) (ha : Bool),
      parse_loop (chain_tokens tok Ts) (list_state us [op] ha)
        = some (list_state (us ++ Ts.flatMap (fun T => [open_group op, T.u])) [op]
            (ha || Ts.any terminal.is_action)) := by
  induction Ts with
  | nil => intro _ us ha; simp [chain_tokens, parse_loop]
  | cons T Ts ih =>
    intro hv us ha
    have hT : T.valid := hv T (List.mem_cons_self _ _)
    have hTs : ∀ T1 ∈ Ts, T1.valid := fun T1 h1 => hv T1 (List.mem_cons_of_mem _ h1)
    have hpk := popped_same op hop
    have hop1 : op ≠ EXPR_OP_LBR := by rcases hop with rfl | rfl <;> decide
    have hop2 : op ≠ EXPR_OP_RBR := by rcases hop with rfl | rfl <;> decide
    have hrest : T.arg = none → plain_arg (chain_tokens tok Ts).head? = false := by
      intro _
      cases Ts with
      | nil => rfl
      | cons T2 Ts2 => simpa [chain_tokens] using plain_arg_spells tok op htok
    have hc : chain_tokens tok (T :: Ts) = tok :: (T.tokens ++ chain_tokens tok Ts) := by
      simp [chain_tokens]
    rw [hc, parse_loop_operator tok op htok, op_stack_push_list_state,
      parse_loop_terminal T hT _ hrest, insert_leaf_list_state]
    simp only [hop1, hop2, if_false, hpk.1, hpk.2, List.map_cons, List.map_nil]
    rw [ih hTs]
    simp [Bool.or_assoc]

theorem chain_us_shift (op : expr_operator) (Ts : List terminal) :
    Ts.flatMap (fun T => [open_group op, T.u]) ++ [open_group op]
      = open_group op :: chain_us op Ts := by
  induction Ts with
  | nil => rfl
  | cons T Ts ih =>
    simp only [List.flatMap_cons, chain_us, List.cons_append, List.nil_append, List.append_assoc] at ih ⊢
    rw [ih]

theorem drop_succ_length_append {α : Type} (pre : List α) (g : α) (rest : List α) :
    (pre ++ g :: rest).drop (pre.length + 1) = rest := by
  induction pre with
  | nil => rfl
  | cons a pre ih => simp [ih]

theorem modify_length_add_two {α : Type} (f : α → α) (pre : List α) (a b c : α)
    (rest : List α) :
    (pre ++ a :: b :: c :: rest).modify f (pre.length + 2) = pre ++ a :: b :: f c :: rest := by
  induction pre with
  | nil => rfl
  | cons x pre ih =>
    have := ih
    simp only [List.cons_append, List.length_cons]
    rw [show pre.length + 1 + 2 = (pre.length + 2) + 1 from by omega, List.modify_succ_cons, ih]

/-- The linking pass on the postfix list of a chain. -/
theorem link_loop_chain (op : expr_operator) (hop : op ≠ EXPR_OP_NOT) (R : List terminal) :
    ∀ (pre : List expr_union) (g : expr_union) (fuel : Nat) (x : Option Nat),
      R.length + 1 < fuel →
      link_loop fuel (seq_heap (pre ++ g :: chain_us op R)) (some pre.length) x
        = some (seq_heap (pre ++ g :: linked_us op pre.length R),
            some (pre.length + 2 * R.length)) := by
  induction R with
  | nil =>
    intro pre g fuel x hf
    obtain ⟨n, rfl⟩ : ∃ n, fuel = n + 2 := ⟨fuel - 2, by simp at hf; omega⟩
    rw [link_loop_seq_step _ _ _ _ (by simp [chain_us])]
    simp [chain_us, drop_succ_length_append, first_open, link_loop_done, linked_us]
  | cons T R ih =>
    intro pre g fuel x hf
    obtain ⟨n, rfl⟩ : ∃ n, fuel = n + 1 := ⟨fuel - 1, by omega⟩
    have hcu : chain_us op (T :: R) = T.u :: open_group op :: chain_us op R := by
      simp [chain_us]
    rw [link_loop_seq_step _ _ _ _ (by simp), hcu, drop_succ_length_append]
    simp only [first_open, is_open_terminal, is_open_open_group, if_true, Bool.false_eq_true,
      if_false]
    have hn : seq_next (pre ++ g :: T.u :: open_group op :: chain_us op R).length pre.length
        = some (pre.length + 1) := by
      simp [seq_next]
    rw [hn, show pre.length + 1 + 1 = pre.length + 2 from rfl, modify_length_add_two,
      adopt_u_open_group]
    simp only [hop, ne_eq, not_false_eq_true, if_true]
    have := ih (pre ++ [g, T.u]) (.group op (some pre.length) (some (pre.length + 1))) n
      (some (pre.length + 2)) (by simp at hf; omega)
    simp only [List.append_assoc, List.cons_append, List.nil_append, List.length_append,
      List.length_cons, List.length_nil] at this
    rw [this]
    simp only [linked_us, List.length_cons]
    have e1 : pre.length + (0 + 1 + 1) = pre.length + 2 := rfl
    have e2 : pre.length + 2 + 2 * R.length = pre.length + 2 * (R.length + 1) := by omega
    rw [e1, e2]

theorem left_nested_cons (op : expr_operator) (t : tree) (T : terminal) (Ts : List terminal) :
    left_nested op t (T :: Ts) = left_nested op (.group op t T.leaf) Ts := rfl

theorem tree_at_leaf (us : List expr_union) (p : Nat) (T : terminal)
    (hp : us[p]? = some T.u) : tree_at us (some p) T.leaf = true := by
  cases T <;> simp [tree_at, terminal.leaf, terminal.u] at hp ⊢ <;> simp [hp]

theorem getElem?_length_append {α : Type} (pre : List α) (g : α) (rest : List α) :
    (pre ++ g :: rest)[pre.length]? = some g := by
  rw [List.getElem?_append_right (Nat.le_refl _)]
  simp

/-- The linked records of a chain stand for the left-nested tree. -/
theorem tree_at_chain (op : expr_operator) (R : List terminal) :
    ∀ (pre : List expr_union) (g : expr_union) (t : tree) (post : List expr_union),
      tree_at (pre ++ [g]) (some pre.length) t = true →
      tree_at (pre ++ g :: (linked_us op pre.length R ++ post))
        (some (pre.length + 2 * R.length)) (left_nested op t R) = true := by
  induction R with
  | nil =>
    intro pre g t post ht
    have := tree_at_append (pre ++ [g]) post t _ ht
    simpa [linked_us, left_nested] using this
  | cons T R ih =>
    intro pre g t post ht
    rw [left_nested_cons]
    have key : tree_at ((pre ++ [g, T.u]) ++ [.group op (some pre.length) (some (pre.length + 1))])
        (some (pre ++ [g, T.u]).length) (.group op t T.leaf) = true := by
      have h0 : ((pre ++ [g, T.u]) ++ [expr_union.group op (some pre.length) (some (pre.length + 1))])[
          (pre ++ [g, T.u]).length]? = some (.group op (some pre.length) (some (pre.length + 1))) :=
        getElem?_length_append _ _ _
      rw [tree_at, h0]
      simp only [decide_True, Bool.true_and, Bool.and_eq_true]
      constructor
      · have := tree_at_append (pre ++ [g]) [T.u, .group op (some pre.length) (some (pre.length + 1))]
          t _ ht
        simpa using this
      · apply tree_at_leaf
        have : (pre ++ [g]).length = pre.length + 1 := by simp
        rw [← this]
        simp only [List.append_assoc, List.cons_append, List.nil_append]
        rw [show pre ++ g :: T.u :: [expr_union.group op (some pre.length) (some ((pre ++ [g]).length))]
          = (pre ++ [g]) ++ T.u :: [expr_union.group op (some pre.length) (some ((pre ++ [g]).length))]
          from by simp]
        exact getElem?_length_append _ _ _
    have := ih (pre ++ [g, T.u]) (.group op (some pre.length) (some (pre.length + 1)))
      (.group op t T.leaf) post key
    simp only [List.append_assoc, List.cons_append, List.nil_append, List.length_append,
      List.length_cons, List.length_nil] at this
    simp only [linked_us, List.length_cons, List.cons_append]
    have e1 : pre.length + (0 + 1 + 1) = pre.length + 2 := rfl
    have e2 : pre.length + 2 + 2 * R.length = pre.length + 2 * (R.length + 1) := by omega
    rw [e1, e2] at this
    exact this

theorem parse_chain_list (tok : String) (op : expr_operator) (htok : spells tok op)
    (hop : op = EXPR_OP_AND ∨ op = EXPR_OP_OR) (T1 T2 : terminal) (R : List terminal)
    (h1 : T1.valid) (h2 : T2.valid) (hR : ∀ T ∈ R, T.valid) :
    parse_loop (T1.tokens ++ chain_tokens tok (T2 :: R)) parse_state.init
      = some (list_state ([T1.u, T2.u] ++ R.flatMap (fun T => [open_group op, T.u])) [op]
          ((T1 :: T2 :: R).any terminal.is_action)) := by
  have hop1 : op ≠ EXPR_OP_LBR := by rcases hop with rfl | rfl <;> decide
  have hop2 : op ≠ EXPR_OP_RBR := by rcases hop with rfl | rfl <;> decide
  have hc : chain_tokens tok (T2 :: R) = tok :: (T2.tokens ++ chain_tokens tok R) := by
    simp [chain_tokens]
  have hrest : T2.arg = none → plain_arg (chain_tokens tok R).head? = false := by
    intro _
    cases R with
    | nil => rfl
    | cons T3 R3 => simpa [chain_tokens] using plain_arg_spells tok op htok
  rw [hc, parse_loop_terminal T1 h1 _ (by intro; simpa using plain_arg_spells tok op htok),
    init_list_state, insert_leaf_list_state, parse_loop_operator tok op htok,
    op_stack_push_list_state, parse_loop_terminal T2 h2 _ hrest, insert_leaf_list_state]
  simp only [hop1, hop2, if_false, popped, kept, List.map_nil, List.append_nil, List.nil_append]
  rw [parse_loop_chain tok op htok hop R hR]
  simp [Bool.or_assoc]

theorem chain_us_length (op : expr_operator) (R : List terminal) :
    (chain_us op R).length = 2 * R.length := by
  induction R with
  | nil => rfl
  | cons T R ih =>
    have : chain_us op (T :: R) = T.u :: open_group op :: chain_us op R := by simp [chain_us]
    rw [this]; simp [ih]; omega

/-- C5. Left associativity: for every chain `T1 op T2 op ... op Tn` of `n ≥ 2` valid
terminals separated by one and the same token of a binary operator (AND or OR),
`parse_expressions` succeeds and builds the left-nested tree
`op(...op(op(T1, T2), T3)..., Tn)`, beneath the default print when the chain has no
action. -/
theorem parse_chain_left_assoc (tok : String) (op : expr_operator) (htok : spells tok op)
    (hop : op = EXPR_OP_AND ∨ op = EXPR_OP_OR) (T1 : terminal) (Ts : List terminal)
    (hn : Ts ≠ []) (h1 : T1.valid) (hTs : ∀ T ∈ Ts, T.valid) :
    builds (T1.tokens ++ chain_tokens tok Ts)
      (expected_root (T1 :: Ts) (left_nested op T1.leaf Ts)) := by
  cases Ts with
  | nil => exact absurd rfl hn
  | cons T2 R =>
    have h2 : T2.valid := hTs T2 (List.mem_cons_self _ _)
    have hR : ∀ T ∈ R, T.valid := fun T h => hTs T (List.mem_cons_of_mem _ h)
    have hopn : op ≠ EXPR_OP_NOT := by rcases hop with rfl | rfl <;> decide
    have hl := parse_chain_list tok op htok hop T1 T2 R h1 h2 hR
    have hus : ([T1.u, T2.u] ++ R.flatMap (fun T => [open_group op, T.u]))
        ++ [op].map open_group = [] ++ T1.u :: chain_us op (T2 :: R) := by
      have := chain_us_shift op R
      simp only [List.map_cons, List.map_nil, List.append_assoc, List.nil_append,
        List.cons_append]
      rw [this]
      simp [chain_us]
    have hk := link_loop_chain op hopn (T2 :: R) [] T1.u
      (([] ++ T1.u :: chain_us op (T2 :: R)).length + 1) none
      (by simp [chain_us_length]; omega)
    unfold builds
    rw [parse_expressions_of_list _ 0 _ _ _ hl (by simp) _ _ (by rw [hus]; exact hk)]
    apply any_is_action_eq _ _ rfl
    rw [represents_seq_heap]
    have := tree_at_chain op (T2 :: R) [] T1.u T1.leaf []
      (tree_at_leaf _ _ T1 (by simp))
    simpa using this


theorem parse_chain_left_assoc_witness :
    builds ((terminal.test ⟨"name", .expr_test_name_clb, EXPR_ARG_MAND⟩ (some "a")).tokens
        ++ chain_tokens "-o" [.test ⟨"empty", .expr_test_empty_clb, EXPR_ARG_NO⟩ none,
            .action ⟨"print0", .expr_action_print0_clb, EXPR_ARG_NO⟩ none])
      (expected_root [.test ⟨"name", .expr_test_name_clb, EXPR_ARG_MAND⟩ (some "a"),
          .test ⟨"empty", .expr_test_empty_clb, EXPR_ARG_NO⟩ none,
          .action ⟨"print0", .expr_action_print0_clb, EXPR_ARG_NO⟩ none]
        (left_nested EXPR_OP_OR
          (terminal.test ⟨"name", .expr_test_name_clb, EXPR_ARG_MAND⟩ (some "a")).leaf
          [.test ⟨"empty", .expr_test_empty_clb, EXPR_ARG_NO⟩ none,
            .action ⟨"print0", .expr_action_print0_clb, EXPR_ARG_NO⟩ none])) :=
  parse_chain_left_assoc "-o" EXPR_OP_OR (Or.inl rfl) (Or.inr rfl) _ _ (by decide) (by decide)
    (by decide)

/-! ## C6: equivalence with a conventional parser -/

theorem and_not_outcome :
    parse_expressions ["-name", "a", "-a", "!", "-name", "b"] 0
      = .EXIT_SUCCESS and_not_heap (some 5) := by
  decide

/-- C6 (defect). On `-name a -a ! -name b`, a sentence of the grammar, the conventional
parser yields `AND(a, NOT(b))`, while `parse_expressions` links the NOT record to the
first terminal and the AND record to the NOT record and to itself; the second terminal
is not linked.  The structure built is not the conventional tree. -/
theorem parse_not_equivalent :
    ref_parse ["-name", "a", "-a", "!", "-name", "b"]
      = some (.group EXPR_OP_AND (.test .expr_test_name_clb (some "a"))
          (.group EXPR_OP_NOT (.test .expr_test_name_clb (some "b")) .null))
    ∧ parse_expressions ["-name", "a", "-a", "!", "-name", "b"] 0
      = .EXIT_SUCCESS and_not_heap (some 5)
    ∧ ¬ builds ["-name", "a", "-a", "!", "-name", "b"]
        (tree.with_default (.group EXPR_OP_AND (.test .expr_test_name_clb (some "a"))
          (.group EXPR_OP_NOT (.test .expr_test_name_clb (some "b")) .null))) := by
  refine ⟨by decide, and_not_outcome, ?_⟩
  rintro ⟨h, root, hp, hr⟩
  rw [and_not_outcome] at hp
  injection hp with h1 h2
  subst h1; subst h2
  revert hr
  decide

/-! ## C7: default action for action-free input -/

theorem parse_expressions_linked (argv : List String) (argpos : Nat) (s : parse_state)
    (hs : parse_tokens argv argpos = some s) (e_list : Nat) (he : s.expressions = some e_list)
    (h : List expr) (T : Option Nat) (hl : link s.heap e_list = some (h, T)) :
    parse_expressions argv argpos =
      if s.has_action then .EXIT_SUCCESS h T
      else .EXIT_SUCCESS (h ++ default_records h.length T) (some (h.length + 1)) := by
  unfold parse_expressions
  simp only [hs, he, hl, add_default_action_eq]

/-- The evaluation of the root with the default action, from the evaluation of the
linked tree `T` beneath it. -/
theorem expr_eval_default {σ : Type} (cb : callbacks σ) (h : List expr) (T : Option Nat)
    (filepath name : String) (st : stat) (fuel : Nat) (w w1 : σ) (r : expr_result)
    (hT : expr_eval cb h filepath name st fuel T w = some (r, w1)) :
    expr_eval cb (h ++ default_records h.length T) filepath name st (fuel + 1)
        (some (h.length + 1)) w
      = if r = EXPR_FALSE then some (EXPR_FALSE, w1)
        else some (cb.action .expr_action_print_clb filepath none w1) := by
  have hT1 := expr_eval_append cb h (default_records h.length T) filepath name st fuel T w _ hT
  obtain ⟨n, rfl⟩ : ∃ n, fuel = n + 1 := by
    cases fuel with
    | zero => simp [expr_eval] at hT
    | succ n => exact ⟨n, rfl⟩
  rw [expr_eval]
  simp only [default_records_get1, hT1]
  have hp : expr_eval cb (h ++ default_records h.length T) filepath name st (n + 1)
      (some h.length) w1 = some (cb.action .expr_action_print_clb filepath none w1) := by
    rw [expr_eval]
    simp only [default_records_get0]
  cases r with
  | EXPR_FALSE => simp
  | EXPR_TRUE =>
    simp only [hp]
    cases hres : (cb.action .expr_action_print_clb filepath none w1).1 <;>
      simp [hres, Prod.ext_iff]

/-- C7. Default action for action-free input: when no token of the expression is the
name of an action and `parse_expressions` has linked the (non-empty) postfix list into
the tree `T`, it succeeds and returns a new group `AND(T, Action(print, NULL))`.  Hence
an evaluation of the root invokes the print action exactly once, after the callbacks of
`T`, when `T` evaluates to `EXPR_TRUE`, and invokes no action at all when `T` evaluates
to `EXPR_FALSE` (the callbacks of `T` themselves are tests only). -/
theorem default_action_injected (argv : List String) (argpos : Nat)
    (hna : ∀ tok ∈ argv.drop argpos, ¬ is_action_token tok)
    (s : parse_state) (hs : parse_tokens argv argpos = some s)
    (e_list : Nat) (he : s.expressions = some e_list)
    (h : List expr) (T : Option Nat) (hl : link s.heap e_list = some (h, T)) :
    parse_expressions argv argpos
      = .EXIT_SUCCESS (h ++ default_records h.length T) (some (h.length + 1))
    ∧ (h ++ default_records h.length T)[h.length + 1]?
        = some ⟨.group EXPR_OP_AND T (some h.length), none⟩
    ∧ (h ++ default_records h.length T)[h.length]?
        = some ⟨.act .expr_action_print_clb none, none⟩
    ∧ ∀ (σ : Type) (cb : callbacks σ) (filepath name : String) (st : stat) (fuel : Nat)
        (w w1 : σ × List call),
        (expr_eval (logged cb) h filepath name st fuel T w = some (EXPR_TRUE, w1) →
          expr_eval (logged cb) (h ++ default_records h.length T) filepath name st (fuel + 1)
              (some (h.length + 1)) w
            = some ((cb.action .expr_action_print_clb filepath none w1.1).1,
                ((cb.action .expr_action_print_clb filepath none w1.1).2,
                  w1.2 ++ [call.action .expr_action_print_clb filepath none]))
          ∧ action_calls w1.2 = action_calls w.2)
        ∧ (expr_eval (logged cb) h filepath name st fuel T w = some (EXPR_FALSE, w1) →
          expr_eval (logged cb) (h ++ default_records h.length T) filepath name st (fuel + 1)
              (some (h.length + 1)) w
            = some (EXPR_FALSE, w1)
          ∧ action_calls w1.2 = action_calls w.2) := by
  have hflag := parse_tokens_no_action argv argpos s hna hs
  have hact : has_act h = false := by
    rw [link_has_act _ _ _ _ hl, ← parse_tokens_flag argv argpos s hs, hflag]
  refine ⟨?_, default_records_get1 h T, default_records_get0 h T, ?_⟩
  · rw [parse_expressions_linked argv argpos s hs e_list he h T hl, hflag]
    simp
  · intro σ cb filepath name st fuel w w1
    constructor
    · intro hT
      refine ⟨?_, expr_eval_no_action_calls cb h hact filepath name st fuel T w _ w1 hT⟩
      rw [expr_eval_default (logged cb) h T filepath name st fuel w w1 _ hT]
      simp [logged]
    · intro hT
      refine ⟨?_, expr_eval_no_action_calls cb h hact filepath name st fuel T w _ w1 hT⟩
      rw [expr_eval_default (logged cb) h T filepath name st fuel w w1 _ hT]
      simp

theorem default_action_injected_witness :
    parse_expressions ["-name", "a"] 0
      = .EXIT_SUCCESS
          ([⟨.test .expr_test_name_clb (some "a"), none⟩]
            ++ default_records [(⟨.test .expr_test_name_clb (some "a"), none⟩ : expr)].length
                (some 0))
          (some ([(⟨.test .expr_test_name_clb (some "a"), none⟩ : expr)].length + 1)) :=
  (default_action_injected ["-name", "a"] 0 (by decide)
    ⟨[⟨.test .expr_test_name_clb (some "a"), none⟩], some 0, some 0, [], false⟩ (by decide)
    0 rfl [⟨.test .expr_test_name_clb (some "a"), none⟩] (some 0) (by decide)).1

/-! ## C8: what decides the injection of the default action -/

theorem adjacent_outcome :
    parse_expressions ["-name", "a", "-print"] 0 = .EXIT_SUCCESS adjacent_heap (some 0) := by
  decide

/-- C8 (counterexample). On `-name a -print` the parser succeeds and the tree linked
from the postfix list is the single leaf `Test(name, a)`, which contains no action leaf
(the print record is in the postfix list but is not linked); the root returned is this
leaf, not `AND(tree, Action(print, NULL))`. -/
theorem injection_not_by_tree :
    parse_expressions ["-name", "a", "-print"] 0 = .EXIT_SUCCESS adjacent_heap (some 0)
    ∧ represents adjacent_heap (some 0) (.test .expr_test_name_clb (some "a")) = true
    ∧ (tree.test .expr_test_name_clb (some "a")).has_action = false
    ∧ ¬ builds ["-name", "a", "-print"]
        (with_default_print (.test .expr_test_name_clb (some "a"))) := by
  refine ⟨adjacent_outcome, by decide, rfl, ?_⟩
  rintro ⟨h, root, hp, hr⟩
  rw [adjacent_outcome] at hp
  injection hp with h1 h2
  subst h1; subst h2
  revert hr
  decide

/-- C8 (amended). Default-action injection is decided by the postfix list: whenever
`parse_expressions` has linked a non-empty postfix list into the tree `T`, it succeeds,
and the root it returns is a new group `AND(T, Action(print, NULL))` if the postfix
list holds no action record, and `T` itself if it holds one (whether or not the linking
pass has kept that record in the tree). -/
theorem default_action_by_list (argv : List String) (argpos : Nat)
    (s : parse_state) (hs : parse_tokens argv argpos = some s)
    (e_list : Nat) (he : s.expressions = some e_list)
    (h : List expr) (T : Option Nat) (hl : link s.heap e_list = some (h, T)) :
    (has_act s.heap = false →
      parse_expressions argv argpos
        = .EXIT_SUCCESS (h ++ default_records h.length T) (some (h.length + 1))
      ∧ (h ++ default_records h.length T)[h.length + 1]?
          = some ⟨.group EXPR_OP_AND T (some h.length), none⟩
      ∧ (h ++ default_records h.length T)[h.length]?
          = some ⟨.act .expr_action_print_clb none, none⟩)
    ∧ (has_act s.heap = true → parse_expressions argv argpos = .EXIT_SUCCESS h T) := by
  have hflag := parse_tokens_flag argv argpos s hs
  have hp := parse_expressions_linked argv argpos s hs e_list he h T hl
  constructor
  · intro hf
    rw [hf] at hflag
    rw [hp, hflag]
    exact ⟨by simp, default_records_get1 h T, default_records_get0 h T⟩
  · intro hf
    rw [hf] at hflag
    rw [hp, hflag]
    simp

theorem default_action_by_list_witness :
    (has_act adjacent_heap = false →
      parse_expressions ["-name", "a", "-print"] 0
        = .EXIT_SUCCESS (adjacent_heap ++ default_records adjacent_heap.length (some 0))
            (some (adjacent_heap.length + 1))
      ∧ (adjacent_heap ++ default_records adjacent_heap.length (some 0))[
            adjacent_heap.length + 1]?
          = some ⟨.group EXPR_OP_AND (some 0) (some adjacent_heap.length), none⟩
      ∧ (adjacent_heap ++ default_records adjacent_heap.length (some 0))[adjacent_heap.length]?
          = some ⟨.act .expr_action_print_clb none, none⟩)
    ∧ (has_act adjacent_heap = true →
      parse_expressions ["-name", "a", "-print"] 0 = .EXIT_SUCCESS adjacent_heap (some 0)) :=
  default_action_by_list ["-name", "a", "-print"] 0
    ⟨adjacent_heap, some 0, some 1, [], true⟩ (by decide) 0 rfl adjacent_heap (some 0)
    (by decide)

/-! ## C9: the empty expression -/

/-- C9. Empty expression: when no expression token remains (`argpos == argc`),
`parse_expressions` succeeds and returns exactly one record, the action `-print` with a
null argument and no group above it; its evaluation on any file returns `EXPR_TRUE` and
writes the path and a newline to standard output. -/
theorem parse_empty_expression (argv : List String) (os : sys) (filepath name : String)
    (st : stat) (fuel : Nat) (w : world) :
    parse_expressions argv argv.length
      = .EXIT_SUCCESS [⟨.act .expr_action_print_clb none, none⟩] (some 0)
    ∧ expr_eval (rfind_callbacks os) [⟨.act .expr_action_print_clb none, none⟩]
        filepath name st (fuel + 1) (some 0) w
      = some (EXPR_TRUE, ⟨w.stdout ++ filepath ++ "\n"⟩) := by
  constructor
  · simp [parse_expressions, parse_tokens, parse_loop, op_stack_clean, op_stack_clean_loop,
      parse_state.init, expr_new_action, expr_actions_PRINT, checked_arg, plain_arg, alloc]
  · simp [expr_eval, rfind_callbacks, expr_action_print_clb]

/-! ## C10: mandatory arguments -/

theorem reaches_step (toks : List String) (s0 : parse_state) (tok : String)
    (rest : List String) (s s1 : parse_state) (c : Bool)
    (hr : reaches toks s0 (tok :: rest) s)
    (hstep : parse_step tok rest.head? s = some (s1, c)) :
    reaches toks s0 (if c then rest.tail else rest) s1 := by
  generalize hq : tok :: rest = q at hr
  induction hr with
  | here toks s =>
    subst hq
    exact reaches.next tok rest s s1 c _ _ hstep (reaches.here _ _)
  | next tok1 rest1 sa sb c1 toks2 s2 hstep1 _ ih =>
    exact reaches.next tok1 rest1 sa sb c1 _ _ hstep1 (ih hstep hq)

theorem checked_arg_mand (arg : Option String) :
    checked_arg EXPR_ARG_MAND arg = if plain_arg arg then some arg else none := by
  simp [checked_arg]

theorem parse_step_name (tok : String) (htok : tok = "-name" ∨ tok = "-iname")
    (nxt : Option String) (s : parse_state) :
    ∃ info ∈ expr_tests, tok = "-" ++ info.id ∧ info.arg = EXPR_ARG_MAND ∧
      parse_step tok nxt s =
        if plain_arg nxt then some (insert_leaf (.test info nxt) s, true) else none := by
  rcases htok with rfl | rfl
  · refine ⟨⟨"name", .expr_test_name_clb, EXPR_ARG_MAND⟩, by simp [expr_tests], by decide, rfl, ?_⟩
    cases hp : plain_arg nxt <;>
      simp +decide [parse_step, c_at, c_from, expr_tests, expr_new_test, checked_arg, hp, alloc,
        arg_slot_alloc, expr.has_arg, insert_leaf, terminal.u, terminal.is_action]
    cases nxt with
    | none => simp [plain_arg] at hp
    | some a => rfl
  · refine ⟨⟨"iname", .expr_test_iname_clb, EXPR_ARG_MAND⟩, by simp [expr_tests], by decide, rfl, ?_⟩
    cases hp : plain_arg nxt <;>
      simp +decide [parse_step, c_at, c_from, expr_tests, expr_new_test, checked_arg, hp, alloc,
        arg_slot_alloc, expr.has_arg, insert_leaf, terminal.u, terminal.is_action]
    cases nxt with
    | none => simp [plain_arg] at hp
    | some a => rfl

theorem plain_arg_false_iff_token (arg : Option String) :
    plain_arg arg = false ↔ (arg = none ∨ ∃ a, arg = some a ∧ starts_like_token a = true) := by
  cases arg with
  | none => simp [plain_arg]
  | some a => simp [plain_arg]

/-- C10. Mandatory argument: for a descriptor with MANDATORY arity, `expr_new_test` and
`expr_new_action` fail if and only if the argument is absent or its first character is
one of `-`, `!`, `(`, `)`; otherwise they succeed with a new record whose argument is the
given string.  Consequently, when the token loop of `parse_expressions` arrives at a
token `-name` or `-iname`, the parse fails if that token is the last one or is followed
by a token with such a first character; otherwise the following token becomes the
argument of the new test record and the loop goes on with the token after it. -/
theorem mandatory_argument (info_t : expr_test) (info_a : expr_action)
    (ht : info_t.arg = EXPR_ARG_MAND) (ha : info_a.arg = EXPR_ARG_MAND)
    (h : List expr) (arg : Option String)
    (tok : String) (htok : tok = "-name" ∨ tok = "-iname")
    (argv : List String) (argpos : Nat) (rest : List String) (s : parse_state)
    (hreach : reaches (argv.drop argpos) parse_state.init (tok :: rest) s) :
    (expr_new_test h info_t arg = none ↔
      (arg = none ∨ ∃ a, arg = some a ∧ starts_like_token a = true))
    ∧ (expr_new_action h info_a arg = none ↔
      (arg = none ∨ ∃ a, arg = some a ∧ starts_like_token a = true))
    ∧ (∀ a, arg = some a → starts_like_token a = false →
        expr_new_test h info_t arg
          = some (h ++ [⟨.test info_t.test (some a), none⟩], h.length)
        ∧ expr_new_action h info_a arg
          = some (h ++ [⟨.act info_a.action (some a), none⟩], h.length))
    ∧ ((rest = [] ∨ ∃ t more, rest = t :: more ∧ starts_like_token t = true) →
        parse_expressions argv argpos = .EXIT_FAILURE)
    ∧ (∀ a more, rest = a :: more → starts_like_token a = false →
        ∃ info ∈ expr_tests, tok = "-" ++ info.id ∧
          parse_step tok rest.head? s = some (insert_leaf (.test info (some a)) s, true) ∧
          reaches (argv.drop argpos) parse_state.init more
            (insert_leaf (.test info (some a)) s)) := by
  refine ⟨?_, ?_, ?_, ?_, ?_⟩
  · rw [← plain_arg_false_iff_token]
    unfold expr_new_test
    rw [ht, checked_arg_mand]
    cases plain_arg arg <;> simp
  · rw [← plain_arg_false_iff_token]
    unfold expr_new_action
    rw [ha, checked_arg_mand]
    cases plain_arg arg <;> simp
  · intro a harg hpl
    subst harg
    have hp : plain_arg (some a) = true := by simp [plain_arg, hpl]
    unfold expr_new_test expr_new_action
    rw [ht, ha, checked_arg_mand, hp]
    exact ⟨rfl, rfl⟩
  · intro hbad
    have hp : plain_arg rest.head? = false := by
      rw [plain_arg_false_iff_token]
      rcases hbad with rfl | ⟨t, more, rfl, htk⟩
      · exact Or.inl rfl
      · exact Or.inr ⟨t, rfl, htk⟩
    obtain ⟨info, _, _, _, hstep⟩ := parse_step_name tok htok rest.head? s
    rw [hp] at hstep
    have hloop : parse_loop (argv.drop argpos) parse_state.init = none := by
      rw [reaches_parse_loop _ _ _ _ hreach, parse_loop_cons, hstep]
      simp
    simp [parse_expressions, parse_tokens, hloop]
  · intro a more hrest hpl
    subst hrest
    have hp : plain_arg (some a) = true := by simp [plain_arg, hpl]
    obtain ⟨info, hmem, hid, _, hstep⟩ := parse_step_name tok htok (some a) s
    rw [hp] at hstep
    simp only [if_true] at hstep
    refine ⟨info, hmem, hid, hstep, ?_⟩
    have := reaches_step _ _ tok (a :: more) s _ true hreach hstep
    simpa using this

theorem mandatory_argument_witness :
    (expr_new_test [] ⟨"name", .expr_test_name_clb, EXPR_ARG_MAND⟩ (some "-o") = none ↔
      ((some "-o" : Option String) = none
        ∨ ∃ a, some "-o" = some a ∧ starts_like_token a = true))
    ∧ parse_expressions ["-iname"] 0 = .EXIT_FAILURE :=
  have key := mandatory_argument ⟨"name", .expr_test_name_clb, EXPR_ARG_MAND⟩
    ⟨"exec", .expr_action_print_clb, EXPR_ARG_MAND⟩ rfl rfl [] (some "-o")
    "-iname" (Or.inr rfl) ["-iname"] 0 [] parse_state.init (reaches.here _ _)
  ⟨key.1, key.2.2.2.1 (Or.inl rfl)⟩

/-! ## C11: terminals without argument -/

theorem checked_arg_no (arg : Option String) :
    checked_arg EXPR_ARG_NO arg = if plain_arg arg then none else some none := by
  simp [checked_arg]

theorem plain_arg_true_iff (arg : Option String) :
    plain_arg arg = true ↔ ∃ a, arg = some a ∧ starts_like_token a = false := by
  cases arg with
  | none => simp [plain_arg]
  | some a => simp [plain_arg]

theorem parse_step_noarg (tok : String)
    (htok : tok = "-empty" ∨ tok = "-print" ∨ tok = "-print0")
    (nxt : Option String) (s : parse_state) :
    ∃ T : terminal, T.valid ∧ T.arg = none ∧ T.tokens = [tok] ∧
      parse_step tok nxt s = if plain_arg nxt then none else some (insert_leaf T s, false) := by
  rcases htok with rfl | rfl | rfl
  · refine ⟨.test ⟨"empty", .expr_test_empty_clb, EXPR_ARG_NO⟩ none, by decide, rfl,
      by decide, ?_⟩
    cases hp : plain_arg nxt <;>
      simp +decide [parse_step, c_at, c_from, expr_tests, expr_new_test, checked_arg, hp, alloc,
        arg_slot_alloc, expr.has_arg, insert_leaf, terminal.u, terminal.is_action]
  · refine ⟨.action ⟨"print", .expr_action_print_clb, EXPR_ARG_NO⟩ none, by decide, rfl,
      by decide, ?_⟩
    cases hp : plain_arg nxt <;>
      simp +decide [parse_step, c_at, c_from, expr_tests, expr_actions, expr_new_action,
        checked_arg, hp, alloc, arg_slot_alloc, expr.has_arg, insert_leaf, terminal.u,
        terminal.is_action]
  · refine ⟨.action ⟨"print0", .expr_action_print0_clb, EXPR_ARG_NO⟩ none, by decide, rfl,
      by decide, ?_⟩
    cases hp : plain_arg nxt <;>
      simp +decide [parse_step, c_at, c_from, expr_tests, expr_actions, expr_new_action,
        checked_arg, hp, alloc, arg_slot_alloc, expr.has_arg, insert_leaf, terminal.u,
        terminal.is_action]

/-- C11. No-argument terminals: for a descriptor with NONE arity, `expr_new_test` and
`expr_new_action` fail if and only if an argument is present whose first character is
not one of `-`, `!`, `(`, `)`; in every other case they succeed with a new record whose
argument is null.  So when the token loop of `parse_expressions` arrives at `-empty`,
`-print` or `-print0` and the iteration succeeds, the record inserted has no argument,
the following token is not consumed and the loop goes on with it. -/
theorem no_argument (info_t : expr_test) (info_a : expr_action)
    (ht : info_t.arg = EXPR_ARG_NO) (ha : info_a.arg = EXPR_ARG_NO)
    (h : List expr) (arg : Option String)
    (tok : String) (htok : tok = "-empty" ∨ tok = "-print" ∨ tok = "-print0")
    (argv : List String) (argpos : Nat) (rest : List String) (s s1 : parse_state) (c : Bool)
    (hreach : reaches (argv.drop argpos) parse_state.init (tok :: rest) s)
    (hstep : parse_step tok rest.head? s = some (s1, c)) :
    (expr_new_test h info_t arg = none ↔ ∃ a, arg = some a ∧ starts_like_token a = false)
    ∧ (expr_new_action h info_a arg = none ↔ ∃ a, arg = some a ∧ starts_like_token a = false)
    ∧ ((¬ ∃ a, arg = some a ∧ starts_like_token a = false) →
        expr_new_test h info_t arg = some (h ++ [⟨.test info_t.test none, none⟩], h.length)
        ∧ expr_new_action h info_a arg
          = some (h ++ [⟨.act info_a.action none, none⟩], h.length))
    ∧ c = false
    ∧ (∃ T : terminal, T.valid ∧ T.arg = none ∧ T.tokens = [tok] ∧ s1 = insert_leaf T s)
    ∧ reaches (argv.drop argpos) parse_state.init rest s1 := by
  obtain ⟨T, hv, ha0, htk, hps⟩ := parse_step_noarg tok htok rest.head? s
  have hc : c = false ∧ s1 = insert_leaf T s := by
    rw [hps] at hstep
    cases hp : plain_arg rest.head? <;> simp [hp] at hstep
    exact ⟨hstep.2, hstep.1.symm⟩
  refine ⟨?_, ?_, ?_, hc.1, ⟨T, hv, ha0, htk, hc.2⟩, ?_⟩
  · rw [← plain_arg_true_iff]
    unfold expr_new_test
    rw [ht, checked_arg_no]
    cases plain_arg arg <;> simp
  · rw [← plain_arg_true_iff]
    unfold expr_new_action
    rw [ha, checked_arg_no]
    cases plain_arg arg <;> simp
  · intro hno
    rw [← plain_arg_true_iff] at hno
    have hp : plain_arg arg = false := by simpa using hno
    unfold expr_new_test expr_new_action
    rw [ht, ha, checked_arg_no, hp]
    exact ⟨rfl, rfl⟩
  · have := reaches_step _ _ tok rest s s1 c hreach hstep
    rw [hc.1] at this
    simpa using this

theorem no_argument_witness :
    (expr_new_test [] ⟨"empty", .expr_test_empty_clb, EXPR_ARG_NO⟩ (some "x") = none ↔
      ∃ a, some "x" = some a ∧ starts_like_token a = false)
    ∧ reaches (["-empty", "-o", "-print"].drop 0) parse_state.init ["-o", "-print"]
        (insert_leaf (.test ⟨"empty", .expr_test_empty_clb, EXPR_ARG_NO⟩ none)
          parse_state.init) :=
  have key := no_argument ⟨"empty", .expr_test_empty_clb, EXPR_ARG_NO⟩
    ⟨"print", .expr_action_print_clb, EXPR_ARG_NO⟩ rfl rfl [] (some "x")
    "-empty" (Or.inl rfl) ["-empty", "-o", "-print"] 0 ["-o", "-print"] parse_state.init
    (insert_leaf (.test ⟨"empty", .expr_test_empty_clb, EXPR_ARG_NO⟩ none) parse_state.init)
    false (reaches.here _ _) (by decide)
  ⟨key.1, key.2.2.2.2.2⟩

/-! ## C12: unknown and malformed tokens -/

theorem c_at_dash (X : String) : c_at ("-" ++ X) 0 = '-' := by
  simp [c_at]

theorem c_from_dash (X : String) : c_from ("-" ++ X) 1 = X := by
  simp [c_from]

theorem c_at_one_ne_nul (tok : String) (hlen : 1 < tok.length)
    (hnul : Char.ofNat 0 ∉ tok.data) : c_at tok 1 ≠ Char.ofNat 0 := by
  obtain ⟨data⟩ := tok
  match data, hlen, hnul with
  | [], hlen, _ => simp at hlen
  | [_], hlen, _ => simp [String.length] at hlen
  | a :: b :: r, _, hnul =>
    simp only [c_at, List.getD_cons_succ, List.getD_cons_zero]
    intro hb
    apply hnul
    simp [hb]

theorem find_test_none (X : String) (h : X ∉ expr_tests.map (·.id)) :
    expr_tests.find? (fun i => decide (X = i.id)) = none := by
  simp only [expr_tests, List.map_cons, List.map_nil, List.mem_cons, List.mem_singleton,
    List.mem_nil_iff, or_false, not_or] at h
  simp [expr_tests, List.find?, h.1, h.2.1, h.2.2]

theorem find_action_none (X : String) (h : X ∉ expr_actions.map (·.id)) :
    expr_actions.find? (fun i => decide (X = i.id)) = none := by
  simp only [expr_actions, List.map_cons, List.map_nil, List.mem_cons, List.mem_singleton,
    List.mem_nil_iff, or_false, not_or] at h
  simp [expr_actions, List.find?, h.1, h.2]

/-- The iteration of the token loop fails on an unknown or malformed token. -/
theorem parse_step_rejects (tok : String) (nxt : Option String) (s : parse_state)
    (hbad : (∃ X, tok = "-" ++ X ∧ X ∉ ["not", "a", "and", "o", "or"]
          ∧ X ∉ expr_tests.map (·.id) ∧ X ∉ expr_actions.map (·.id))
      ∨ ((c_at tok 0 = '!' ∨ c_at tok 0 = '(' ∨ c_at tok 0 = ')')
          ∧ 1 < tok.length ∧ Char.ofNat 0 ∉ tok.data)) :
    parse_step tok nxt s = none := by
  rcases hbad with ⟨X, rfl, hop, ht, ha⟩ | ⟨h0, hlen, hnul⟩
  · simp only [List.mem_cons, List.mem_singleton, List.mem_nil_iff, or_false, not_or] at hop
    unfold parse_step
    simp only [c_at_dash, c_from_dash, if_true, hop.1, hop.2.1, hop.2.2.1, hop.2.2.2.1,
      hop.2.2.2.2, or_self, if_false, find_test_none X ht, find_action_none X ha]
    split_ifs <;> rfl
  · have h1 := c_at_one_ne_nul tok hlen hnul
    unfold parse_step
    rcases h0 with h0 | h0 | h0 <;> simp +decide [h0, h1]

/-- C12. Unknown and malformed tokens are rejected: `parse_expressions` returns failure
whenever its token loop arrives at a token `-X` where `X` is neither an operator name
(`not`, `a`, `and`, `o`, `or`) nor, compared as a string, one of the registered ids
(`empty`, `iname`, `name`, `print0`, `print`), and whenever it arrives at a token that
starts with `!`, `(` or `)` and has more than one character. -/
theorem unknown_token_rejected (argv : List String) (argpos : Nat) (tok : String)
    (rest : List String) (s : parse_state)
    (hreach : reaches (argv.drop argpos) parse_state.init (tok :: rest) s)
    (hbad : (∃ X, tok = "-" ++ X ∧ X ∉ ["not", "a", "and", "o", "or"]
          ∧ X ∉ ["empty", "iname", "name"] ∧ X ∉ ["print0", "print"])
      ∨ ((c_at tok 0 = '!' ∨ c_at tok 0 = '(' ∨ c_at tok 0 = ')')
          ∧ 1 < tok.length ∧ Char.ofNat 0 ∉ tok.data)) :
    parse_expressions argv argpos = .EXIT_FAILURE := by
  have hstep : parse_step tok rest.head? s = none := by
    apply parse_step_rejects
    rcases hbad with ⟨X, h1, h2, h3, h4⟩ | h
    · exact Or.inl ⟨X, h1, h2, by rw [expr_tests_ids]; exact h3,
        by rw [expr_actions_ids]; exact h4⟩
    · exact Or.inr h
  have hloop : parse_loop (argv.drop argpos) parse_state.init = none := by
    rw [reaches_parse_loop _ _ _ _ hreach, parse_loop_cons, hstep]
  simp [parse_expressions, parse_tokens, hloop]

theorem unknown_token_rejected_witness :
    parse_expressions ["-empty", "-a", "-Name", "x"] 0 = .EXIT_FAILURE :=
  unknown_token_rejected ["-empty", "-a", "-Name", "x"] 0 "-Name" ["x"]
    (op_stack_push EXPR_OP_AND
      (insert_leaf (.test ⟨"empty", .expr_test_empty_clb, EXPR_ARG_NO⟩ none) parse_state.init))
    (reaches.next "-empty" ["-a", "-Name", "x"] parse_state.init
      (insert_leaf (.test ⟨"empty", .expr_test_empty_clb, EXPR_ARG_NO⟩ none) parse_state.init)
      false _ _ (by decide)
      (reaches.next "-a" ["-Name", "x"]
        (insert_leaf (.test ⟨"empty", .expr_test_empty_clb, EXPR_ARG_NO⟩ none) parse_state.init)
        (op_stack_push EXPR_OP_AND
          (insert_leaf (.test ⟨"empty", .expr_test_empty_clb, EXPR_ARG_NO⟩ none)
            parse_state.init))
        false _ _ (by decide) (reaches.here _ _)))
    (Or.inl ⟨"Name", by decide, by decide, by decide, by decide⟩)

/-! ## C13: atomic failure of parsing -/

/-- C13. Atomic failure of parsing: whenever `parse_expressions` returns failure, the
output location `*expressions_p` holds what it held before the call; and `main`, whose
call of `parse_expressions` fails, returns `EXIT_FAILURE` with the outside world as it
found it, whatever the callbacks, the file system and the recursion bound are: no
expression is evaluated, nothing is looked up, opened or logged by a traversal. -/
theorem parse_failure_atomic (argv : List String) (argpos : Nat)
    (hfail : parse_expressions argv argpos = .EXIT_FAILURE) :
    (∀ loc : Option Nat, parse_expressions_store argv argpos loc = some (EXIT_FAILURE, [], loc))
    ∧ (argpos = (parse_paths argv (parse_options argv 1).2.1).2.1 →
        ∀ (σ : Type) (cb : callbacks σ) (os : sys) (lk : lookups) (fuel : Nat) (w : σ),
          main cb os lk fuel argv w = some (EXIT_FAILURE, ⟨w, [], []⟩)) := by
  have hstore : ∀ loc : Option Nat,
      parse_expressions_store argv argpos loc = some (EXIT_FAILURE, [], loc) := by
    intro loc
    simp [parse_expressions_store, hfail]
  refine ⟨hstore, ?_⟩
  intro hpos σ cb os lk fuel w
  subst hpos
  unfold main
  simp only [hstore]
  split_ifs <;> first | rfl | (exfalso; simp_all [EXIT_FAILURE])

theorem parse_failure_atomic_witness :
    (∀ loc : Option Nat,
      parse_expressions_store ["rfind", "-L", "d", "-name"] 3 loc = some (EXIT_FAILURE, [], loc))
    ∧ (∀ (σ : Type) (cb : callbacks σ) (os : sys) (lk : lookups) (fuel : Nat) (w : σ),
          main cb os lk fuel ["rfind", "-L", "d", "-name"] w
            = some (EXIT_FAILURE, ⟨w, [], []⟩)) :=
  have key := parse_failure_atomic ["rfind", "-L", "d", "-name"] 3 (by decide)
  ⟨key.1, key.2 (by decide)⟩

/-! ## C14: operator synonyms -/

theorem checked_arg_synonym (hint : expr_arg) (nxt nxt1 : Option String)
    (h : nxt = nxt1 ∨ ∃ t t1, nxt = some t ∧ nxt1 = some t1 ∧ synonym t t1) :
    checked_arg hint nxt = checked_arg hint nxt1 := by
  rcases h with rfl | ⟨t, t1, rfl, rfl, hs⟩
  · rfl
  · rcases hs with rfl | ⟨op, _, h1, h2⟩
    · rfl
    · have p1 := plain_arg_spells t op h1
      have p2 := plain_arg_spells t1 op h2
      simp [checked_arg, p1, p2]

theorem parse_step_synonym (tok tok1 : String) (nxt nxt1 : Option String) (s : parse_state)
    (ht : synonym tok tok1)
    (hn : nxt = nxt1 ∨ ∃ t t1, nxt = some t ∧ nxt1 = some t1 ∧ synonym t t1) :
    parse_step tok nxt s = parse_step tok1 nxt1 s := by
  rcases ht with rfl | ⟨op, _, h1, h2⟩
  · have hc : ∀ hint, checked_arg hint nxt = checked_arg hint nxt1 :=
      fun hint => checked_arg_synonym hint nxt nxt1 hn
    simp only [parse_step, expr_new_test, expr_new_action, hc]
  · rw [parse_step_operator tok op h1, parse_step_operator tok1 op h2]

theorem head_synonym (r r1 : List String) (h : List.Forall₂ synonym r r1) :
    r.head? = r1.head? ∨ ∃ t t1, r.head? = some t ∧ r1.head? = some t1 ∧ synonym t t1 := by
  cases h with
  | nil => exact Or.inl rfl
  | cons hh _ => exact Or.inr ⟨_, _, rfl, rfl, hh⟩

theorem tail_synonym (r r1 : List String) (h : List.Forall₂ synonym r r1) :
    List.Forall₂ synonym r.tail r1.tail := by
  cases h with
  | nil => exact List.Forall₂.nil
  | cons _ ht => exact ht

theorem parse_loop_synonym (n : Nat) :
    ∀ (toks toks1 : List String), toks.length ≤ n → List.Forall₂ synonym toks toks1 →
      ∀ s, parse_loop toks s = parse_loop toks1 s := by
  induction n with
  | zero =>
    intro toks toks1 hn h s
    have : toks = [] := List.length_eq_zero.mp (Nat.le_zero.mp hn)
    subst this
    cases h
    rfl
  | succ n ih =>
    intro toks toks1 hn h s
    cases h with
    | nil => rfl
    | @cons t t1 r r1 hh hr =>
      rw [parse_loop_cons, parse_loop_cons,
        parse_step_synonym t t1 r.head? r1.head? s hh (head_synonym r r1 hr)]
      cases parse_step t1 r1.head? s with
      | none => rfl
      | some x =>
        obtain ⟨s1, c⟩ := x
        simp only [List.length_cons] at hn
        cases c
        · exact ih r r1 (by omega) hr s1
        · exact ih r.tail r1.tail (by rw [List.length_tail]; omega) (tail_synonym r r1 hr) s1

/-- C14. Operator synonyms: if two command lines differ only in the spelling of
operator tokens (`-not` for `!`, `-a` for `-and`, `-o` for `-or`, in either direction
and at any number of places), `parse_expressions` has the same outcome on both: the
same failure, or success with the same records and the same root. -/
theorem operator_synonyms (argv argv1 : List String) (argpos : Nat)
    (h : List.Forall₂ synonym argv argv1) :
    parse_expressions argv argpos = parse_expressions argv1 argpos := by
  have hd : List.Forall₂ synonym (argv.drop argpos) (argv1.drop argpos) :=
    List.forall₂_drop argpos h
  unfold parse_expressions parse_tokens
  rw [parse_loop_synonym _ _ _ (Nat.le_refl _) hd]

theorem operator_synonyms_witness :
    parse_expressions ["!", "-name", "!x", "-a", "-empty", "-o", "-print"] 0
      = parse_expressions ["-not", "-name", "!x", "-and", "-empty", "-or", "-print"] 0 :=
  operator_synonyms _ _ 0
    (.cons (Or.inr ⟨EXPR_OP_NOT, Or.inl rfl, Or.inl rfl, Or.inr rfl⟩)
    (.cons (Or.inl rfl)
    (.cons (Or.inl rfl)
    (.cons (Or.inr ⟨EXPR_OP_AND, Or.inr (Or.inl rfl), Or.inl rfl, Or.inr rfl⟩)
    (.cons (Or.inl rfl)
    (.cons (Or.inr ⟨EXPR_OP_OR, Or.inr (Or.inr rfl), Or.inl rfl, Or.inr rfl⟩)
    (.cons (Or.inl rfl) .nil)))))))

/-! ## C15: well-formed output -/

theorem double_not_outcome :
    parse_expressions ["!", "!", "-name", "a"] 0 = .EXIT_SUCCESS double_not_heap (some 4) := by
  decide

/-- C15 (defect). On `! ! -name a` the parser succeeds, but the structure it returns is
`AND(NOT(NOT(NULL)), print)`: the inner NOT record has no child at all (and the test is
not linked), so the output is not well-formed, and no evaluation of it returns, whatever
the callbacks are: `expr_eval` is called on the `NULL` child. -/
theorem parse_double_negation_defect :
    parse_expressions ["!", "!", "-name", "a"] 0 = .EXIT_SUCCESS double_not_heap (some 4)
    ∧ double_not_heap[0]? = some ⟨.group EXPR_OP_NOT none none, some 1⟩
    ∧ represents double_not_heap (some 4)
        (.group EXPR_OP_AND
          (.group EXPR_OP_NOT (.group EXPR_OP_NOT .null .null) .null)
          (.act .expr_action_print_clb none)) = true
    ∧ (tree.group EXPR_OP_AND
          (.group EXPR_OP_NOT (.group EXPR_OP_NOT .null .null) .null)
          (.act .expr_action_print_clb none)).wf_groups = false
    ∧ ∀ (σ : Type) (cb : callbacks σ) (filepath name : String) (st : stat) (fuel : Nat)
        (w : σ), expr_eval cb double_not_heap filepath name st fuel (some 4) w = none := by
  refine ⟨double_not_outcome, rfl, by decide, by decide, ?_⟩
  intro σ cb filepath name st fuel w
  cases fuel with
  | zero => rfl
  | succ n =>
    cases n with
    | zero => simp [expr_eval, double_not_heap]
    | succ n =>
      cases n with
      | zero => simp [expr_eval, double_not_heap]
      | succ n => cases n <;> simp [expr_eval, double_not_heap]

/-! ## C16: symlink options -/

theorem foldl_last {α β : Type} (f : α → β) (run : List α) :
    ∀ o : β, run.foldl (fun _ t => f t) o = (run.getLast?.map f).getD o := by
  induction run with
  | nil => intro o; rfl
  | cons t run ih =>
    intro o
    rw [List.foldl_cons, ih]
    cases run with
    | nil => rfl
    | cons a r =>
      rw [List.getLast?_cons_cons, List.getLast?_eq_getLast (a :: r) (by simp)]
      rfl

theorem parse_options_loop_run (run : List String) :
    (∀ t ∈ run, is_symlink_option t) → ∀ (rest : List String) (argpos options : Nat),
      parse_options_loop (run ++ rest) argpos options
        = parse_options_loop rest (argpos + run.length)
            (run.foldl (fun _ t => option_policy t) options) := by
  induction run with
  | nil => intro _ rest argpos options; rfl
  | cons t run ih =>
    intro h rest argpos options
    have ht : is_symlink_option t := h t (List.mem_cons_self _ _)
    have hr : ∀ t1 ∈ run, is_symlink_option t1 := fun t1 h1 => h t1 (List.mem_cons_of_mem _ h1)
    rw [List.cons_append, parse_options_loop, List.foldl_cons, List.length_cons,
      show argpos + (run.length + 1) = argpos + 1 + run.length from by omega]
    rcases ht with rfl | rfl | rfl
    · simp +decide only [c_at, c_from, List.getD_cons_zero, List.getD_cons_succ, if_true, if_false]
      rw [ih hr]
      rfl
    · simp +decide only [c_at, c_from, List.getD_cons_zero, List.getD_cons_succ, if_true, if_false]
      rw [ih hr]
      rfl
    · simp +decide only [c_at, c_from, List.getD_cons_zero, List.getD_cons_succ, if_true, if_false]
      rw [ih hr]
      rfl

theorem parse_options_loop_stop (rest : List String) (argpos options : Nat)
    (hrest : rest = [] ∨ ∃ t more, rest = t :: more ∧ ¬ is_symlink_option t
      ∧ ¬ (c_at t 0 = '-' ∧ c_at t 1 = '-')) :
    parse_options_loop rest argpos options = (EXIT_SUCCESS, argpos, options) := by
  rcases hrest with rfl | ⟨t, more, rfl, hno, hdd⟩
  · rfl
  · rw [parse_options_loop]
    by_cases h0 : c_at t 0 = '-'
    · have h1 : ¬ c_at t 1 = '-' := fun h => hdd ⟨h0, h⟩
      have hd := dash_c_from t h0
      have hL : ¬ c_from t 1 = "L" := by
        intro h; rw [h] at hd; exact hno (Or.inr (Or.inl hd))
      have hH : ¬ c_from t 1 = "H" := by
        intro h; rw [h] at hd; exact hno (Or.inr (Or.inr hd))
      have hP : ¬ c_from t 1 = "P" := by
        intro h; rw [h] at hd; exact hno (Or.inl hd)
      simp [h0, h1, hL, hH, hP]
    · simp [h0]

/-- C16. Symlink option, last one wins: on a run of tokens `-P`, `-L`, `-H` that starts at
`argpos` and is followed by the end of the command line or by a token that is none of
these and does not start with `--`, `parse_options` succeeds, leaves `argpos` at the first
token after the run, and sets the options to the policy of the last token of the run
(`-P` is NO_SYMLINKS, `-L` is ALL_SYMLINKS, `-H` is EXPLICIT_SYMLINKS), or to NO_SYMLINKS
when the run is empty. -/
theorem symlink_option_last_wins (pre run rest : List String)
    (hrun : ∀ t ∈ run, is_symlink_option t)
    (hrest : rest = [] ∨ ∃ t more, rest = t :: more ∧ ¬ is_symlink_option t
      ∧ ¬ (c_at t 0 = '-' ∧ c_at t 1 = '-')) :
    parse_options (pre ++ run ++ rest) pre.length
      = (EXIT_SUCCESS, pre.length + run.length,
          match run.getLast? with
          | some t => option_policy t
          | none => EXPR_FOLLOW_NO_SYMLINKS)
    ∧ option_policy "-P" = EXPR_FOLLOW_NO_SYMLINKS
    ∧ option_policy "-L" = EXPR_FOLLOW_SYMLINKS
    ∧ option_policy "-H" = EXPR_FOLLOW_EXPLICIT_SYMLINKS := by
  refine ⟨?_, by decide, by decide, by decide⟩
  unfold parse_options
  rw [List.append_assoc, List.drop_left, parse_options_loop_run run hrun,
    parse_options_loop_stop rest _ _ hrest, foldl_last]
  cases run.getLast? <;> rfl

theorem symlink_option_last_wins_witness :
    parse_options (["rfind"] ++ ["-L", "-P", "-H"] ++ ["d", "-name", "x"]) ["rfind"].length
      = (EXIT_SUCCESS, ["rfind"].length + ["-L", "-P", "-H"].length,
          match ["-L", "-P", "-H"].getLast? with
          | some t => option_policy t
          | none => EXPR_FOLLOW_NO_SYMLINKS) :=
  (symlink_option_last_wins ["rfind"] ["-L", "-P", "-H"] ["d", "-name", "x"] (by decide)
    (Or.inr ⟨"d", ["-name", "x"], rfl, by decide, by decide⟩)).1

/-! ## C17: path collection -/

theorem parse_paths_count_run (run : List String) (rest : List String)
    (hrun : ∀ t ∈ run, ¬ starts_expression t)
    (hrest : rest = [] ∨ ∃ t more, rest = t :: more ∧ starts_expression t) :
    parse_paths_count (run ++ rest) = run.length := by
  induction run with
  | nil =>
    rcases hrest with rfl | ⟨t, more, rfl, hs⟩
    · rfl
    · simp only [List.nil_append, parse_paths_count, List.length_nil]
      unfold starts_expression at hs
      split_ifs <;> rfl
  | cons t run ih =>
    have ht : ¬ starts_expression t := hrun t (List.mem_cons_self _ _)
    have hr : ∀ t1 ∈ run, ¬ starts_expression t1 :=
      fun t1 h1 => hrun t1 (List.mem_cons_of_mem _ h1)
    unfold starts_expression at ht
    have h0 : c_at t 0 ≠ '-' := fun h => ht (Or.inl h)
    rw [List.cons_append, parse_paths_count, ih hr]
    rw [if_pos h0, if_neg ht, List.length_cons]

theorem range_map_getD (pre run rest : List String) :
    (List.range run.length).map
        (fun i => (pre ++ run ++ rest).getD (pre.length + run.length - run.length + i) "")
      = run := by
  apply List.ext_getElem
  · simp
  · intro i h1 h2
    simp only [List.getElem_map, List.getElem_range, Nat.add_sub_cancel]
    rw [List.getD_eq_getElem?_getD, List.append_assoc,
      List.getElem?_append_right (Nat.le_add_right _ _), Nat.add_sub_cancel_left,
      List.getElem?_append_left h2, List.getElem?_eq_getElem h2]
    rfl

/-- C17. Path collection: `parse_paths` returns as paths exactly the maximal run of
tokens starting at `argpos` whose first character is none of `-`, `!`, `(`, in the order of
the command line, and advances `argpos` by the length of that run; when the run is
empty it returns the single path `.` and leaves `argpos` as it is. -/
theorem parse_paths_run (pre run rest : List String)
    (hrun : ∀ t ∈ run, ¬ starts_expression t)
    (hrest : rest = [] ∨ ∃ t more, rest = t :: more ∧ starts_expression t) :
    parse_paths (pre ++ run ++ rest) pre.length
      = (EXIT_SUCCESS, pre.length + run.length, if run = [] then ["."] else run) := by
  unfold parse_paths
  rw [List.append_assoc, List.drop_left, parse_paths_count_run run rest hrun hrest,
    ← List.append_assoc]
  by_cases h : run = []
  · subst h; simp
  · have hl : run.length ≠ 0 := fun h0 => h (List.length_eq_zero.mp h0)
    simp only [hl, ne_eq, not_false_eq_true, if_true, h, if_false, range_map_getD]

theorem parse_paths_run_witness :
    parse_paths (["rfind", "-L"] ++ ["d", ")e"] ++ ["!", "-name", "x"]) ["rfind", "-L"].length
      = (EXIT_SUCCESS, ["rfind", "-L"].length + ["d", ")e"].length,
          if ["d", ")e"] = [] then ["."] else ["d", ")e"]) :=
  parse_paths_run ["rfind", "-L"] ["d", ")e"] ["!", "-name", "x"] (by decide)
    (Or.inr ⟨"!", ["-name", "x"], rfl, by decide⟩)

/-! ## C18: symlink policy of the metadata lookup -/

theorem find_stat_eq {σ : Type} (lk : lookups) (filepath : String) (options : Nat)
    (explicit : Bool) (s : find_state σ) :
    find_stat lk filepath options explicit s =
      match (if options = EXPR_FOLLOW_SYMLINKS
          ∨ (explicit = true ∧ options &&& EXPR_FOLLOW_EXPLICIT_SYMLINKS ≠ 0)
        then lk.stat filepath else lk.lstat filepath) with
      | none => (none, { s with stderr := s.stderr ++ [.no_information filepath] })
      | some st => (some st, s) := rfl

theorem follows_iff (options : Nat)
    (hopt : options = EXPR_FOLLOW_NO_SYMLINKS ∨ options = EXPR_FOLLOW_EXPLICIT_SYMLINKS
      ∨ options = EXPR_FOLLOW_SYMLINKS) (explicit : Bool) :
    (options = EXPR_FOLLOW_SYMLINKS
        ∨ (explicit = true ∧ options &&& EXPR_FOLLOW_EXPLICIT_SYMLINKS ≠ 0))
      ↔ (options = EXPR_FOLLOW_SYMLINKS
        ∨ (options = EXPR_FOLLOW_EXPLICIT_SYMLINKS ∧ explicit = true)) := by
  rcases hopt with rfl | rfl | rfl <;> cases explicit <;> decide

/-- The lookups of entries do not depend on `stat` unless the policy is ALL_SYMLINKS. -/
theorem find_stat_entry_congr {σ : Type} (lk lk1 : lookups) (options : Nat)
    (hopt : options ≠ EXPR_FOLLOW_SYMLINKS) (hl : ∀ p, lk.lstat p = lk1.lstat p)
    (filepath : String) (s : find_state σ) :
    find_stat lk filepath options false s = find_stat lk1 filepath options false s := by
  simp [find_stat_eq, hopt, hl]

theorem find_indir_congr {σ : Type} (ev : String → String → stat → σ → Option σ) (os : sys)
    (lk lk1 : lookups) (options : Nat) (hopt : options ≠ EXPR_FOLLOW_SYMLINKS)
    (hl : ∀ p, lk.lstat p = lk1.lstat p) (fuel : Nat) :
    ∀ (names : List String) (path : String) (s : find_state σ),
      find_indir ev os lk options fuel names path s
        = find_indir ev os lk1 options fuel names path s := by
  induction fuel with
  | zero => intro names path s; rfl
  | succ n ih =>
    intro names path s
    cases names with
    | nil => rfl
    | cons d more =>
      simp only [find_indir, find_stat_entry_congr lk lk1 options hopt hl, ih]

theorem find_congr {σ : Type} (ev : String → String → stat → σ → Option σ) (os : sys)
    (lk lk1 : lookups) (hl : ∀ p, lk.lstat p = lk1.lstat p) (fuel : Nat)
    (paths : List String) :
    (∀ p ∈ paths, lk.stat p = lk1.stat p) → ∀ s : find_state σ,
      find ev os lk EXPR_FOLLOW_EXPLICIT_SYMLINKS fuel paths s
        = find ev os lk1 EXPR_FOLLOW_EXPLICIT_SYMLINKS fuel paths s := by
  induction paths with
  | nil => intro _ s; rfl
  | cons p rest ih =>
    intro hs s
    have hp : lk.stat p = lk1.stat p := hs p (List.mem_cons_self _ _)
    have hr := ih (fun q hq => hs q (List.mem_cons_of_mem _ hq))
    have hfs : find_stat lk p EXPR_FOLLOW_EXPLICIT_SYMLINKS true s
        = find_stat lk1 p EXPR_FOLLOW_EXPLICIT_SYMLINKS true s := by
      simp +decide [find_stat_eq, hp]
    have hne : EXPR_FOLLOW_EXPLICIT_SYMLINKS ≠ EXPR_FOLLOW_SYMLINKS := by decide
    simp only [find, hfs, hr, find_indir_congr ev os lk lk1 _ hne hl]

/-- C18. Symlink policy of the metadata lookup: for each of the three policies,
`find_stat` returns what `stat` returns (it follows symbolic links) if the policy is
ALL_SYMLINKS, or the policy is EXPLICIT_SYMLINKS and the path is flagged explicit, and
what `lstat` returns in every other case.  Entries found inside directories are looked
up with the flag clear: unless the policy is ALL_SYMLINKS, `find_indir` is the same on two
file systems whose `lstat` agree, whatever their `stat` are.  Roots are looked up with
the flag set: under EXPLICIT_SYMLINKS `find` is the same on two file systems whose `lstat`
agree and whose `stat` agree on the roots, and a root for which `stat` fails is skipped. -/
theorem find_stat_policy {σ : Type} (ev : String → String → stat → σ → Option σ) (os : sys)
    (lk lk1 : lookups) (options : Nat)
    (hopt : options = EXPR_FOLLOW_NO_SYMLINKS ∨ options = EXPR_FOLLOW_EXPLICIT_SYMLINKS
      ∨ options = EXPR_FOLLOW_SYMLINKS)
    (explicit : Bool) (filepath : String) (fuel : Nat) (names : List String) (path : String)
    (paths : List String) (p : String) (rest : List String) (s : find_state σ)
    (hl : ∀ q, lk.lstat q = lk1.lstat q) (hs : ∀ q ∈ paths, lk.stat q = lk1.stat q) :
    ((options = EXPR_FOLLOW_SYMLINKS
        ∨ (options = EXPR_FOLLOW_EXPLICIT_SYMLINKS ∧ explicit = true)) →
      (find_stat lk filepath options explicit s).1 = lk.stat filepath)
    ∧ (¬ (options = EXPR_FOLLOW_SYMLINKS
        ∨ (options = EXPR_FOLLOW_EXPLICIT_SYMLINKS ∧ explicit = true)) →
      (find_stat lk filepath options explicit s).1 = lk.lstat filepath)
    ∧ (options ≠ EXPR_FOLLOW_SYMLINKS →
      find_indir ev os lk options fuel names path s
        = find_indir ev os lk1 options fuel names path s)
    ∧ find ev os lk EXPR_FOLLOW_EXPLICIT_SYMLINKS fuel paths s
        = find ev os lk1 EXPR_FOLLOW_EXPLICIT_SYMLINKS fuel paths s
    ∧ (lk.stat p = none →
      find ev os lk EXPR_FOLLOW_EXPLICIT_SYMLINKS fuel (p :: rest) s
        = find ev os lk EXPR_FOLLOW_EXPLICIT_SYMLINKS fuel rest
            { s with stderr := s.stderr ++ [.no_information p] }) := by
  have hiff := follows_iff options hopt explicit
  refine ⟨?_, ?_, ?_, find_congr ev os lk lk1 hl fuel paths hs s, ?_⟩
  · intro h
    rw [find_stat_eq, if_pos (hiff.mpr h)]
    cases lk.stat filepath <;> rfl
  · intro h
    rw [find_stat_eq, if_neg (fun h1 => h (hiff.mp h1))]
    cases lk.lstat filepath <;> rfl
  · intro h
    exact find_indir_congr ev os lk lk1 options h hl fuel names path s
  · intro h
    have hfs : find_stat lk p EXPR_FOLLOW_EXPLICIT_SYMLINKS true s
        = (none, { s with stderr := s.stderr ++ [.no_information p] }) := by
      simp +decide [find_stat_eq, h]
    simp only [find, hfs]

theorem find_stat_policy_witness :
    (find_stat sample_lookups "d" EXPR_FOLLOW_EXPLICIT_SYMLINKS true
        (⟨[], [], []⟩ : find_state (List String))).1 = sample_lookups.stat "d"
    ∧ find record_visit sample_sys sample_lookups EXPR_FOLLOW_EXPLICIT_SYMLINKS 10
        ["nope", "e"] ⟨[], [], []⟩
      = find record_visit sample_sys sample_lookups EXPR_FOLLOW_EXPLICIT_SYMLINKS 10 ["e"]
          { (⟨[], [], []⟩ : find_state (List String)) with
            stderr := [] ++ [.no_information "nope"] } :=
  have key := find_stat_policy record_visit sample_sys sample_lookups sample_lookups
    EXPR_FOLLOW_EXPLICIT_SYMLINKS (Or.inr (Or.inl rfl)) true "d" 10 [".", "..", "sub", "f"] "d"
    ["d", "e"] "nope" ["e"] ⟨[], [], []⟩ (fun _ => rfl) (fun _ _ => rfl)
  ⟨key.1 (Or.inr ⟨rfl, rfl⟩), key.2.2.2.2 (by decide)⟩

/-! ## C19: an unreadable subdirectory -/

/-- When `opendir` fails on a subdirectory, `find_indir` returns `EXIT_FAILURE` at once,
whatever entries of the directory are left. -/
theorem find_indir_unreadable {σ : Type} (ev : String → String → stat → σ → Option σ)
    (os : sys) (lk : lookups) (options fuel : Nat) (d_name : String) (more : List String)
    (path : String) (s : find_state σ) (st : stat) (w : σ)
    (hdot : d_name ≠ "." ∧ d_name ≠ "..")
    (hst : find_stat lk (child_path path d_name) options false s = (some st, s))
    (hloop : loop_check s.dir_stack st.st_ino = false)
    (hev : ev (child_path path d_name) d_name st s.world = some w)
    (hdir : st.st_mode &&& S_IFDIR ≠ 0)
    (hopen : os.opendir (child_path path d_name) = none) :
    find_indir ev os lk options (fuel + 1) (d_name :: more) path s
      = some (EXIT_FAILURE, { s with world := w }) := by
  rw [find_indir]
  simp only [hdot.1, hdot.2, if_false, hst, hloop, hev, hopen, Bool.false_eq_true]
  rw [if_pos hdir]

/-- C19 (defect). On the sample file system, where the subdirectory `d/sub` of the root
`d` cannot be opened, the traversal of the roots `d` and `e` evaluates `d` and `d/sub`
and then returns `EXIT_FAILURE`: the entry `d/f` after the subdirectory and the root `e`
are never evaluated, and `main` exits with failure after printing two paths. -/
theorem unreadable_subdirectory_aborts :
    (∀ n : Nat, find record_visit sample_sys sample_lookups EXPR_FOLLOW_NO_SYMLINKS (n + 3)
        ["d", "e"] ⟨[], [], []⟩
      = some (EXIT_FAILURE, ⟨["d", "d/sub"], [], []⟩))
    ∧ main (rfind_callbacks sample_sys) sample_sys sample_lookups 10 ["rfind", "d", "e"] ⟨""⟩
      = some (EXIT_FAILURE, ⟨⟨"d\nd/sub\n"⟩, [], []⟩) := by
  constructor
  · intro n
    have h1 : find_stat sample_lookups "d" EXPR_FOLLOW_NO_SYMLINKS true
        (⟨[], [], []⟩ : find_state (List String)) = (some (directory 1), ⟨[], [], []⟩) := by
      decide
    have h2 : sample_sys.opendir "d" = some [".", "..", "sub", "f"] := by decide
    have h3 : find_indir record_visit sample_sys sample_lookups EXPR_FOLLOW_NO_SYMLINKS (n + 1)
        ["sub", "f"] "d" (⟨["d"], [⟨1, "d"⟩], []⟩ : find_state (List String))
        = some (EXIT_FAILURE, ⟨["d", "d/sub"], [⟨1, "d"⟩], []⟩) :=
      find_indir_unreadable record_visit sample_sys sample_lookups _ n "sub" ["f"] "d"
        ⟨["d"], [⟨1, "d"⟩], []⟩ (directory 2) ["d", "d/sub"] (by decide) (by decide) (by decide)
        (by decide) (by decide) (by decide)
    rw [find, h1]
    simp only [record_visit, basename]
    have hd : (directory 1).st_mode &&& S_IFDIR ≠ 0 := by decide
    simp only [hd, ne_eq, not_false_eq_true, if_true, h2, dir_stack_push]
    rw [find_indir, find_indir]
    simp only [if_true, show (".." : String) ≠ "." from by decide, if_false]
    have hb : (String.mk (List.takeWhile (fun c => decide (c ≠ '/')) "d".data.reverse).reverse)
        = "d" := by decide
    simp only [hb, List.nil_append]
    have e1 : (directory 1).st_ino = 1 := rfl
    rw [e1, h3]
    simp +decide [dir_stack_pop]
  · decide

/-! ## C20: errors at the roots -/

theorem find_stat_none {σ : Type} (lk : lookups) (filepath : String) (options : Nat)
    (explicit : Bool) (s : find_state σ)
    (h : (find_stat lk filepath options explicit s).1 = none) :
    find_stat lk filepath options explicit s
      = (none, { s with stderr := s.stderr ++ [.no_information filepath] }) := by
  rw [find_stat_eq] at h ⊢
  split at h
  · rfl
  · simp at h

theorem find_stat_some {σ : Type} (lk : lookups) (filepath : String) (options : Nat)
    (explicit : Bool) (s : find_state σ) (st : stat)
    (h : (find_stat lk filepath options explicit s).1 = some st) :
    find_stat lk filepath options explicit s = (some st, s) := by
  rw [find_stat_eq] at h ⊢
  split at h
  · simp at h
  · next st1 hh =>
    simp only [Option.some.injEq] at h
    rw [h]

/-- Roots whose lookup fails are all skipped: `find` succeeds without any evaluation. -/
theorem find_all_fail {σ : Type} (ev : String → String → stat → σ → Option σ) (os : sys)
    (lk : lookups) (options fuel : Nat) (paths : List String) :
    ∀ s : find_state σ, (∀ q ∈ paths, ∀ s1 : find_state σ,
        (find_stat lk q options true s1).1 = none) →
      ∃ s2, find ev os lk options fuel paths s = some (EXIT_SUCCESS, s2)
        ∧ s2.world = s.world := by
  induction paths with
  | nil => intro s _; exact ⟨s, rfl, rfl⟩
  | cons p rest ih =>
    intro s h
    have hp := find_stat_none lk p options true s (h p (List.mem_cons_self _ _) s)
    obtain ⟨s2, h2, hw⟩ := ih { s with stderr := s.stderr ++ [.no_information p] }
      (fun q hq => h q (List.mem_cons_of_mem _ hq))
    refine ⟨s2, ?_, hw⟩
    rw [find]
    simp only [hp]
    exact h2

/-- C20. Root-level errors are non-fatal: a root whose metadata lookup fails is not
evaluated (only a line is logged), and a root directory that cannot be opened is
evaluated but not descended; in both cases `find` goes on with the following roots
exactly as it would process them on their own, so it returns what they return; a list
of roots that is used up returns success, and so does a list of roots whose lookups all
fail. -/
theorem root_errors_not_fatal {σ : Type} (ev : String → String → stat → σ → Option σ)
    (os : sys) (lk : lookups) (options fuel : Nat) (p : String) (rest : List String)
    (s : find_state σ) :
    ((find_stat lk p options true s).1 = none →
      find ev os lk options fuel (p :: rest) s
        = find ev os lk options fuel rest
            { s with stderr := s.stderr ++ [.no_information p] })
    ∧ (∀ (st : stat) (w : σ), (find_stat lk p options true s).1 = some st →
        st.st_mode &&& S_IFDIR ≠ 0 → os.opendir p = none →
        ev p (basename p) st s.world = some w →
        find ev os lk options fuel (p :: rest) s
          = find ev os lk options fuel rest { s with world := w })
    ∧ find ev os lk options fuel [] s = some (EXIT_SUCCESS, s)
    ∧ ((∀ q ∈ p :: rest, ∀ s1 : find_state σ, (find_stat lk q options true s1).1 = none) →
        ∃ s2, find ev os lk options fuel (p :: rest) s = some (EXIT_SUCCESS, s2)
          ∧ s2.world = s.world) := by
  refine ⟨?_, ?_, rfl, find_all_fail ev os lk options fuel (p :: rest) s⟩
  · intro h
    rw [find]
    simp only [find_stat_none lk p options true s h]
  · intro st w hst hdir hopen hev
    rw [find]
    simp only [find_stat_some lk p options true s st hst, hev, hopen]
    rw [if_pos hdir]

theorem root_errors_not_fatal_witness :
    find record_visit sample_sys sample_lookups EXPR_FOLLOW_NO_SYMLINKS 10 ["nope", "e"]
        ⟨[], [], []⟩
      = find record_visit sample_sys sample_lookups EXPR_FOLLOW_NO_SYMLINKS 10 ["e"]
          { (⟨[], [], []⟩ : find_state (List String)) with
            stderr := [] ++ [.no_information "nope"] }
    ∧ find record_visit sample_sys sample_lookups EXPR_FOLLOW_NO_SYMLINKS 10 ["d/sub", "e"]
        ⟨[], [], []⟩
      = find record_visit sample_sys sample_lookups EXPR_FOLLOW_NO_SYMLINKS 10 ["e"]
          { (⟨[], [], []⟩ : find_state (List String)) with world := ["d/sub"] } :=
  ⟨(root_errors_not_fatal record_visit sample_sys sample_lookups EXPR_FOLLOW_NO_SYMLINKS 10
      "nope" ["e"] ⟨[], [], []⟩).1 (by decide),
    (root_errors_not_fatal record_visit sample_sys sample_lookups EXPR_FOLLOW_NO_SYMLINKS 10
      "d/sub" ["e"] ⟨[], [], []⟩).2.1 (directory 2) ["d/sub"] (by decide) (by decide)
      (by decide) (by decide)⟩

/-! ## C21: an entry that is the directory itself -/

/-- On a stack that is not empty the loop check compares with its top. -/
theorem loop_check_cons (top : find_dir_stack) (below : List find_dir_stack) (st_ino : Nat) :
    loop_check (top :: below) st_ino = decide (st_ino = top.inode) := by
  unfold loop_check
  simp only [List.length_cons, List.head?_cons]
  by_cases h : st_ino = top.inode
  · simp only [h, decide_True, List.any_eq_true]
    exact ⟨0, by simp, trivial⟩
  · simp [h]

/-- C21. While `find_indir` goes through the entries of a directory whose inode is on
top of the directory stack, an entry other than `.` and `..` whose looked-up inode is
that inode is reported as a loop and passed over: the expression is not evaluated on it
(the world stays as it is), it is not descended into, and the traversal goes on with
the entries that remain. -/
theorem self_loop_skipped {σ : Type} (ev : String → String → stat → σ → Option σ)
    (os : sys) (lk : lookups) (options fuel : Nat) (d_name : String) (more : List String)
    (path : String) (s : find_state σ) (top : find_dir_stack) (below : List find_dir_stack)
    (st : stat)
    (hdot : d_name ≠ "." ∧ d_name ≠ "..")
    (hstack : s.dir_stack = top :: below)
    (hst : (find_stat lk (child_path path d_name) options false s).1 = some st)
    (hino : st.st_ino = top.inode) :
    find_indir ev os lk options (fuel + 1) (d_name :: more) path s
      = find_indir ev os lk options fuel more path
          { s with stderr := s.stderr ++ [.loop_detected (child_path path d_name) top.name] } := by
  have hl : loop_check (top :: below) st.st_ino = true := by
    rw [loop_check_cons, hino]; simp
  rw [find_indir]
  simp only [hdot.1, hdot.2, if_false, find_stat_some lk _ options false s st hst, hl, if_true,
    hstack, List.head?_cons, Option.map_some', Option.getD_some]

theorem self_loop_skipped_witness :
    find_indir record_visit loop_sys loop_lookups EXPR_FOLLOW_SYMLINKS 3 ["loop", "f"] "d"
        ⟨["d"], [⟨1, "d"⟩], []⟩
      = find_indir record_visit loop_sys loop_lookups EXPR_FOLLOW_SYMLINKS 2 ["f"] "d"
          ⟨["d"], [⟨1, "d"⟩], [.loop_detected "d/loop" "d"]⟩ :=
  self_loop_skipped record_visit loop_sys loop_lookups EXPR_FOLLOW_SYMLINKS 2 "loop" ["f"] "d"
    ⟨["d"], [⟨1, "d"⟩], []⟩ ⟨1, "d"⟩ [] (directory 1) (by decide) rfl (by decide) rfl

/-- The directory `d` that holds a link to itself, traversed with every link followed:
`d` and `d/f` are visited, and `d/loop` is reported and passed over. -/
theorem find_self_loop :
    find record_visit loop_sys loop_lookups EXPR_FOLLOW_SYMLINKS 5 ["d"] ⟨[], [], []⟩
      = some (EXIT_SUCCESS, ⟨["d", "d/f"], [], [.loop_detected "d/loop" "d"]⟩) := by
  decide

/-! ## C22: the order of the visits -/

theorem run_visits_append {σ : Type} (ev : String → String → stat → σ → Option σ)
    (vs ws : List visit) (w : σ) :
    run_visits ev (vs ++ ws) w
      = match run_visits ev vs w with
        | none => none
        | some w1 => run_visits ev ws w1 := by
  induction vs generalizing w with
  | nil => rfl
  | cons v vs ih =>
    simp only [List.cons_append, run_visits]
    cases ev v.filepath v.name v.st w with
    | none => rfl
    | some w1 => exact ih w1

theorem find_stat_lookup {σ : Type} (lk : lookups) (filepath : String) (options : Nat)
    (explicit : Bool) (s : find_state σ) (st : stat)
    (h : lookup_of lk options explicit filepath = some st) :
    find_stat lk filepath options explicit s = (some st, s) := by
  rw [find_stat_eq]
  unfold lookup_of at h
  rw [h]

/-- Beneath a directory that presents its tree, `find_indir` makes the visits of the
tree in their order, and leaves the directory stack and the log as they were. -/
theorem find_indir_visits {σ : Type} (ev : String → String → stat → σ → Option σ)
    (os : sys) (lk : lookups) (options : Nat) (t : dir_tree) :
    ∀ (fuel : Nat) (path : String) (s : find_state σ) (top : find_dir_stack)
      (below : List find_dir_stack),
      s.dir_stack = top :: below → presents os lk options top.inode path t →
      t.steps ≤ fuel →
      find_indir ev os lk options fuel t.names path s
        = match run_visits ev (t.visits path) s.world with
          | none => none
          | some w => some (EXIT_SUCCESS, { s with world := w }) := by
  induction t with
  | nil =>
    intro fuel path s top below _ _ hf
    obtain ⟨k, rfl⟩ : ∃ k, fuel = k + 1 := ⟨fuel - 1, by simp [dir_tree.steps] at hf; omega⟩
    simp [dir_tree.names, dir_tree.visits, run_visits, find_indir]
  | entry d_name st inside more ihi ihm =>
    intro fuel path s top below hs hp hf
    obtain ⟨k, rfl⟩ : ∃ k, fuel = k + 1 := ⟨fuel - 1, by simp [dir_tree.steps] at hf; omega⟩
    have hki : inside.steps ≤ k := by simp [dir_tree.steps] at hf; omega
    have hkm : more.steps ≤ k := by simp [dir_tree.steps] at hf; omega
    obtain ⟨hhere, hmore⟩ := hp
    simp only [dir_tree.names, dir_tree.visits]
    rw [find_indir]
    by_cases h1 : d_name = "."
    · simp only [h1, if_true, true_or]
      exact ihm k path s top below hs hmore hkm
    by_cases h2 : d_name = ".."
    · simp only [h2, if_true, or_true]
      split_ifs
      · exact ihm k path s top below hs hmore hkm
      · exact ihm k path s top below hs hmore hkm
    rcases hhere with h | h | ⟨hl, hino, hdir⟩
    · exact absurd h h1
    · exact absurd h h2
    have hloop : loop_check s.dir_stack st.st_ino = false := by
      rw [hs, loop_check_cons]; simpa using hino
    simp only [h1, h2, if_false, or_self, find_stat_lookup lk _ options false s st hl, hloop,
      Bool.false_eq_true, run_visits]
    cases hev : ev (child_path path d_name) d_name st s.world with
    | none => rfl
    | some w =>
      simp only []
      by_cases hd : st.st_mode &&& S_IFDIR ≠ 0
      · obtain ⟨hopen, hin⟩ := hdir hd
        rw [if_pos hd, if_pos hd, hopen]
        simp only []
        rw [ihi k (child_path path d_name)
          (dir_stack_push st.st_ino (child_path path d_name) { s with world := w })
          ⟨st.st_ino, child_path path d_name⟩ s.dir_stack rfl hin hki, run_visits_append]
        simp only [dir_stack_push]
        cases run_visits ev (inside.visits (child_path path d_name)) w with
        | none => rfl
        | some w1 =>
          simp only [dir_stack_pop, List.tail_cons, ne_eq, not_true_eq_false, if_false,
            EXIT_SUCCESS]
          exact ihm k path { s with world := w1 } top below hs hmore hkm
      · rw [if_neg hd, if_neg hd, List.nil_append]
        exact ihm k path { s with world := w } top below hs hmore hkm


/-- C22. On a file system that presents the roots and the trees beneath them (every
lookup and every open succeeds, and no entry has the inode of the directory that holds
it), `find` returns success once the fuel covers the deepest tree, and the evaluations
it has made are those of `roots_visits`, in that order: each root, then every entry
beneath it other than `.` and `..` once, in the order of the streams, with everything
inside a directory before the entry that follows it, and each root with all beneath it
before the next root. The directory stack and the log are left as they were. -/
theorem find_visit_order {σ : Type} (ev : String → String → stat → σ → Option σ)
    (os : sys) (lk : lookups) (options fuel : Nat) (roots : List root_tree)
    (s : find_state σ)
    (hp : presents_roots os lk options roots) (hf : roots_steps roots ≤ fuel) :
    find ev os lk options fuel (roots.map (·.path)) s
      = match run_visits ev (roots_visits roots) s.world with
        | none => none
        | some w => some (EXIT_SUCCESS, { s with world := w }) := by
  induction roots generalizing s with
  | nil => rfl
  | cons r rs ih =>
    obtain ⟨hl, hdir, hrest⟩ := hp
    have hfi : r.inside.steps ≤ fuel := by simp [roots_steps] at hf; omega
    have hfr : roots_steps rs ≤ fuel := by simp [roots_steps] at hf; omega
    simp only [List.map_cons, roots_visits, run_visits]
    rw [find]
    simp only [find_stat_lookup lk _ options true s r.st hl]
    cases hev : ev r.path (basename r.path) r.st s.world with
    | none => rfl
    | some w =>
      simp only []
      by_cases hd : r.st.st_mode &&& S_IFDIR ≠ 0
      · obtain ⟨hopen, hin⟩ := hdir hd
        rw [if_pos hd, if_pos hd, hopen]
        simp only []
        rw [find_indir_visits ev os lk options r.inside fuel r.path
          (dir_stack_push r.st.st_ino r.path { s with world := w })
          ⟨r.st.st_ino, r.path⟩ s.dir_stack rfl hin hfi, run_visits_append]
        simp only [dir_stack_push]
        cases run_visits ev (r.inside.visits r.path) w with
        | none => rfl
        | some w1 =>
          simp only [dir_stack_pop, List.tail_cons]
          exact ih { s with world := w1 } hrest hfr
      · rw [if_neg hd, if_neg hd, List.nil_append]
        exact ih { s with world := w } hrest hfr

theorem open_roots_presented :
    presents_roots open_sys open_lookups EXPR_FOLLOW_NO_SYMLINKS open_roots := by
  simp +decide [presents_roots, presents, open_roots, lookup_of, open_lookups, open_files,
    open_sys, child_path, directory, dir_tree.names, EXPR_FOLLOW_NO_SYMLINKS,
    EXPR_FOLLOW_SYMLINKS, EXPR_FOLLOW_EXPLICIT_SYMLINKS]

theorem find_visit_order_witness :
    find record_visit open_sys open_lookups EXPR_FOLLOW_NO_SYMLINKS 7 ["d", "e"] ⟨[], [], []⟩
      = some (EXIT_SUCCESS, ⟨["d", "d/sub", "d/sub/g", "d/f", "e"], [], []⟩) :=
  find_visit_order record_visit open_sys open_lookups EXPR_FOLLOW_NO_SYMLINKS 7 open_roots
    ⟨[], [], []⟩ open_roots_presented (by decide)

/-! ## C23: the test `-empty` -/

/-- The bit `S_IFDIR` of a mode, from the file type of the mode. -/
theorem land_S_IFDIR (st_mode : Nat) :
    st_mode &&& S_IFDIR = (st_mode &&& S_IFMT) &&& S_IFDIR := by
  rw [Nat.land_assoc]
  rfl

theorem empty_scan_true_iff (names : List String) :
    empty_scan names = EXPR_TRUE ↔ ∀ d_name ∈ names, d_name = "." ∨ d_name = ".." := by
  induction names with
  | nil => simp [empty_scan]
  | cons d_name more ih =>
    simp only [empty_scan, List.mem_cons, forall_eq_or_imp]
    by_cases h : d_name = "." ∨ d_name = ".."
    · simp only [h, if_true, true_and]; exact ih
    · simp [h]

/-- C23. The test `-empty`: on a regular file it is true when the size is 0 and false
otherwise; on a directory that `opendir` opens it is true exactly when the stream
yields no name other than `.` and `..`; on a directory that `opendir` does not open it
is false. -/
theorem empty_test (os : sys) (path name : String) (st : stat) (arg : Option String) :
    (st.st_mode &&& S_IFMT = S_IFREG →
      (st.st_size = 0 → expr_test_empty_clb os path name st arg = EXPR_TRUE)
      ∧ (st.st_size ≠ 0 → expr_test_empty_clb os path name st arg = EXPR_FALSE))
    ∧ (st.st_mode &&& S_IFMT = S_IFDIR →
      (∀ names, os.opendir path = some names →
        (expr_test_empty_clb os path name st arg = EXPR_TRUE
          ↔ ∀ d_name ∈ names, d_name = "." ∨ d_name = ".."))
      ∧ (os.opendir path = none → expr_test_empty_clb os path name st arg = EXPR_FALSE)) := by
  constructor
  · intro hreg
    have h0 : st.st_mode &&& S_IFDIR = 0 := by rw [land_S_IFDIR, hreg]; rfl
    unfold expr_test_empty_clb
    simp only [h0, ne_eq, not_true_eq_false, if_false]
    constructor
    · intro hs; simp [hs]
    · intro hs; simp [hs]
  · intro hdir
    have h1 : st.st_mode &&& S_IFDIR ≠ 0 := by rw [land_S_IFDIR, hdir]; decide
    unfold expr_test_empty_clb
    rw [if_pos h1]
    constructor
    · intro names hopen
      rw [hopen]
      exact empty_scan_true_iff names
    · intro hopen
      rw [hopen]

theorem empty_test_witness :
    expr_test_empty_clb literal_sys "f" "f" (regular_file 0) none = EXPR_TRUE
    ∧ expr_test_empty_clb literal_sys "f" "f" (regular_file 5) none = EXPR_FALSE
    ∧ (expr_test_empty_clb literal_sys "d" "d" (directory 1) none = EXPR_TRUE
        ↔ ∀ d_name ∈ [".", ".."], d_name = "." ∨ d_name = "..")
    ∧ (expr_test_empty_clb sample_sys "d" "d" (directory 1) none = EXPR_TRUE
        ↔ ∀ d_name ∈ [".", "..", "sub", "f"], d_name = "." ∨ d_name = "..")
    ∧ expr_test_empty_clb literal_sys "x" "x" (directory 1) none = EXPR_FALSE :=
  ⟨((empty_test literal_sys "f" "f" (regular_file 0) none).1 (by decide)).1 rfl,
   ((empty_test literal_sys "f" "f" (regular_file 5) none).1 (by decide)).2 (by decide),
   ((empty_test literal_sys "d" "d" (directory 1) none).2 (by decide)).1 _ rfl,
   ((empty_test sample_sys "d" "d" (directory 1) none).2 (by decide)).1 _ rfl,
   ((empty_test literal_sys "x" "x" (directory 1) none).2 (by decide)).2 rfl⟩

/-! ## C24: the actions `-print` and `-print0` -/

/-- C24. The print actions: whatever the argument, `expr_action_print_clb` appends the
path and one newline to the standard output and `expr_action_print0_clb` appends the
path and one NUL character, and both return `EXPR_TRUE`; these are the functions the
callbacks of `-print` and `-print0` run, so that the trees parsed from `-print` and
from `-print0` evaluate to true with exactly that output. -/
theorem print_actions (os : sys) (p name : String) (st : stat) (arg : Option String)
    (w : world) :
    expr_action_print_clb p arg w = (EXPR_TRUE, ⟨w.stdout ++ p ++ "\n"⟩)
    ∧ expr_action_print0_clb p arg w
        = (EXPR_TRUE, ⟨w.stdout ++ p ++ String.singleton (Char.ofNat 0)⟩)
    ∧ (rfind_callbacks os).action .expr_action_print_clb p arg w
        = (EXPR_TRUE, ⟨w.stdout ++ p ++ "\n"⟩)
    ∧ (rfind_callbacks os).action .expr_action_print0_clb p arg w
        = (EXPR_TRUE, ⟨w.stdout ++ p ++ String.singleton (Char.ofNat 0)⟩)
    ∧ (∃ h root, parse_expressions ["-print"] 0 = .EXIT_SUCCESS h root
        ∧ expr_eval (rfind_callbacks os) h p name st 1 root w
          = some (EXPR_TRUE, ⟨w.stdout ++ p ++ "\n"⟩))
    ∧ (∃ h root, parse_expressions ["-print0"] 0 = .EXIT_SUCCESS h root
        ∧ expr_eval (rfind_callbacks os) h p name st 1 root w
          = some (EXPR_TRUE, ⟨w.stdout ++ p ++ String.singleton (Char.ofNat 0)⟩)) := by
  refine ⟨rfl, rfl, rfl, rfl, ?_, ?_⟩
  · refine ⟨[⟨.act .expr_action_print_clb none, none⟩], some 0, by decide, ?_⟩
    simp [expr_eval, rfind_callbacks, expr_action_print_clb]
  · refine ⟨[⟨.act .expr_action_print0_clb none, none⟩], some 0, by decide, ?_⟩
    simp [expr_eval, rfind_callbacks, expr_action_print0_clb]

/-! ## C25: the tests `-name` and `-iname` -/

theorem parse_name_outcome (P : String) (hP : starts_like_token P = false) :
    parse_expressions ["-name", P] 0
      = .EXIT_SUCCESS
          [⟨.test .expr_test_name_clb (some P), none⟩,
           ⟨.act .expr_action_print_clb none, none⟩,
           ⟨.group EXPR_OP_AND (some 0) (some 1), none⟩] (some 2) := by
  have hp : plain_arg (some P) = true := by simp [plain_arg, hP]
  simp +decide [parse_expressions, parse_tokens, parse_loop, parse_step, c_at, c_from,
    expr_tests, expr_new_test, checked_arg, hp, alloc, arg_slot, expr.has_arg]
  rfl

theorem parse_iname_outcome (P : String) (hP : starts_like_token P = false) :
    parse_expressions ["-iname", P] 0
      = .EXIT_SUCCESS
          [⟨.test .expr_test_iname_clb (some P), none⟩,
           ⟨.act .expr_action_print_clb none, none⟩,
           ⟨.group EXPR_OP_AND (some 0) (some 1), none⟩] (some 2) := by
  have hp : plain_arg (some P) = true := by simp [plain_arg, hP]
  simp +decide [parse_expressions, parse_tokens, parse_loop, parse_step, c_at, c_from,
    expr_tests, expr_new_test, checked_arg, hp, alloc, arg_slot, expr.has_arg]
  rfl

theorem expr_result_cases (r : expr_result) : r = EXPR_TRUE ∨ r = EXPR_FALSE := by
  cases r <;> simp

/-- The evaluation of the tree `AND(Test(c, P), print)` by the callbacks of the
repository. -/
theorem expr_eval_test_print (os : sys) (c : expr_test_clb) (P : String)
    (filepath name : String) (st : stat) (fuel : Nat) (w : world) :
    expr_eval (rfind_callbacks os)
        [⟨.test c (some P), none⟩, ⟨.act .expr_action_print_clb none, none⟩,
         ⟨.group EXPR_OP_AND (some 0) (some 1), none⟩] filepath name st (fuel + 2) (some 2) w
      = if ((rfind_callbacks os).test c filepath name st (some P) w).1 = EXPR_TRUE
        then some (EXPR_TRUE, ⟨w.stdout ++ filepath ++ "\n"⟩)
        else some (EXPR_FALSE, w) := by
  cases c
  · simp only [expr_eval, rfind_callbacks, expr_action_print_clb, List.getElem?_cons_succ,
      List.getElem?_cons_zero]
    rcases expr_result_cases (expr_test_empty_clb os filepath name st (some P)) with hx | hx <;>
      simp [hx]
  · simp only [expr_eval, rfind_callbacks, expr_action_print_clb, List.getElem?_cons_succ,
      List.getElem?_cons_zero]
    rcases expr_result_cases (expr_test_iname_clb os filepath name st (some P)) with hx | hx <;>
      simp [hx]
  · simp only [expr_eval, rfind_callbacks, expr_action_print_clb, List.getElem?_cons_succ,
      List.getElem?_cons_zero]
    rcases expr_result_cases (expr_test_name_clb os filepath name st (some P)) with hx | hx <;>
      simp [hx]

/-- C25. The name tests: for a pattern `P` whose first character is none of `-`, `!`,
`(`, `)`, the parse of `-name P` and that of `-iname P` succeed, and the tree evaluates
on a file to `EXPR_TRUE` exactly when `fnmatch(P, name, 0)`, respectively
`fnmatch(P, name, FNM_CASEFOLD)`, returns 0 on the name of the file, and to
`EXPR_FALSE` for every other return value, `FNM_NOMATCH` or an error; the value is the
same for every path with this name. -/
theorem name_tests (os : sys) (P : String) (hP : starts_like_token P = false)
    (filepath name : String) (st : stat) (fuel : Nat) (w : world) :
    (∃ h root, parse_expressions ["-name", P] 0 = .EXIT_SUCCESS h root
      ∧ ∃ r w1, expr_eval (rfind_callbacks os) h filepath name st (fuel + 2) root w
          = some (r, w1)
        ∧ (r = EXPR_TRUE ↔ os.fnmatch (some P) name 0 = 0)
        ∧ (r = EXPR_FALSE ↔ os.fnmatch (some P) name 0 ≠ 0)
        ∧ ∀ filepath1 : String, ∃ w2,
            expr_eval (rfind_callbacks os) h filepath1 name st (fuel + 2) root w
              = some (r, w2))
    ∧ (∃ h root, parse_expressions ["-iname", P] 0 = .EXIT_SUCCESS h root
      ∧ ∃ r w1, expr_eval (rfind_callbacks os) h filepath name st (fuel + 2) root w
          = some (r, w1)
        ∧ (r = EXPR_TRUE ↔ os.fnmatch (some P) name FNM_CASEFOLD = 0)
        ∧ (r = EXPR_FALSE ↔ os.fnmatch (some P) name FNM_CASEFOLD ≠ 0)
        ∧ ∀ filepath1 : String, ∃ w2,
            expr_eval (rfind_callbacks os) h filepath1 name st (fuel + 2) root w
              = some (r, w2)) := by
  constructor
  · refine ⟨_, _, parse_name_outcome P hP, ?_⟩
    simp only [expr_eval_test_print]
    by_cases hm : os.fnmatch (some P) name 0 = 0
    · refine ⟨EXPR_TRUE, ⟨w.stdout ++ filepath ++ "\n"⟩, ?_, by simp [hm], by simp [hm],
        fun f1 => ⟨⟨w.stdout ++ f1 ++ "\n"⟩, ?_⟩⟩ <;>
        simp [rfind_callbacks, expr_test_name_clb, expr_test_name_common, hm]
    · refine ⟨EXPR_FALSE, w, ?_, by simp [hm], by simp [hm], fun f1 => ⟨w, ?_⟩⟩ <;>
        simp [rfind_callbacks, expr_test_name_clb, expr_test_name_common, hm]
  · refine ⟨_, _, parse_iname_outcome P hP, ?_⟩
    simp only [expr_eval_test_print]
    by_cases hm : os.fnmatch (some P) name FNM_CASEFOLD = 0
    · refine ⟨EXPR_TRUE, ⟨w.stdout ++ filepath ++ "\n"⟩, ?_, by simp [hm], by simp [hm],
        fun f1 => ⟨⟨w.stdout ++ f1 ++ "\n"⟩, ?_⟩⟩ <;>
        simp [rfind_callbacks, expr_test_iname_clb, expr_test_name_common, hm]
    · refine ⟨EXPR_FALSE, w, ?_, by simp [hm], by simp [hm], fun f1 => ⟨w, ?_⟩⟩ <;>
        simp [rfind_callbacks, expr_test_iname_clb, expr_test_name_common, hm]

theorem name_tests_witness :
    (∃ h root, parse_expressions ["-name", "*.txt"] 0 = .EXIT_SUCCESS h root
      ∧ ∃ w1, expr_eval (rfind_callbacks glob_sys) h "d/a.txt" "a.txt" (regular_file 0) 2 root
          ⟨""⟩ = some (EXPR_TRUE, w1))
    ∧ (∃ h root, parse_expressions ["-name", "*.txt"] 0 = .EXIT_SUCCESS h root
      ∧ ∃ w1, expr_eval (rfind_callbacks glob_sys) h "d/a.TXT" "a.TXT" (regular_file 0) 2 root
          ⟨""⟩ = some (EXPR_FALSE, w1))
    ∧ (∃ h root, parse_expressions ["-iname", "*.txt"] 0 = .EXIT_SUCCESS h root
      ∧ ∃ w1, expr_eval (rfind_callbacks glob_sys) h "d/a.TXT" "a.TXT" (regular_file 0) 2 root
          ⟨""⟩ = some (EXPR_TRUE, w1)) := by
  refine ⟨?_, ?_, ?_⟩
  · obtain ⟨h, root, hp, r, w1, he, ht, _, _⟩ :=
      (name_tests glob_sys "*.txt" (by decide) "d/a.txt" "a.txt" (regular_file 0) 0 ⟨""⟩).1
    have hr : r = EXPR_TRUE := ht.2 (by decide)
    subst hr
    exact ⟨h, root, hp, w1, he⟩
  · obtain ⟨h, root, hp, r, w1, he, _, hf, _⟩ :=
      (name_tests glob_sys "*.txt" (by decide) "d/a.TXT" "a.TXT" (regular_file 0) 0 ⟨""⟩).1
    have hr : r = EXPR_FALSE := hf.2 (by decide)
    subst hr
    exact ⟨h, root, hp, w1, he⟩
  · obtain ⟨h, root, hp, r, w1, he, ht, _, _⟩ :=
      (name_tests glob_sys "*.txt" (by decide) "d/a.TXT" "a.TXT" (regular_file 0) 0 ⟨""⟩).2
    have hr : r = EXPR_TRUE := ht.2 (by decide)
    subst hr
    exact ⟨h, root, hp, w1, he⟩

/-! ## C26: a closing parenthesis without an opening one -/

/-- Without `(` on the stack, `)` pops the whole stack. -/
theorem popped_rbr_all (stk : List expr_operator) (h : EXPR_OP_LBR ∉ stk) :
    popped EXPR_OP_RBR stk = stk ∧ kept EXPR_OP_RBR stk = [] := by
  induction stk with
  | nil => exact ⟨rfl, rfl⟩
  | cons op stk ih =>
    have h1 : op ≠ EXPR_OP_LBR := fun e => h (by simp [e])
    have h2 : EXPR_OP_LBR ∉ stk := fun e => h (List.mem_cons_of_mem _ e)
    simp [popped, kept, h1, ih h2]

/-- Every state the token loop arrives at carries a postfix list allocated in order. -/
theorem reaches_list_state (toks toks1 : List String) (s s1 : parse_state)
    (h : reaches toks s toks1 s1) :
    (∃ us stk ha, s = list_state us stk ha) → ∃ us1 stk1 ha1, s1 = list_state us1 stk1 ha1 := by
  induction h with
  | here toks s => exact id
  | next tok rest s s1 c toks2 s2 hstep _ ih =>
    rintro ⟨us, stk, ha, rfl⟩
    exact ih (parse_step_list_state tok rest.head? us stk ha s1 c hstep)

theorem list_state_op_stack (us : List expr_union) (stk : List expr_operator) (ha : Bool) :
    (list_state us stk ha).op_stack = stk := rfl

/-- The token loop on `T1 -a T2 )`. -/
theorem parse_pair_rbr (tok : String) (htok : spells tok EXPR_OP_AND) (T1 T2 : terminal)
    (h1 : T1.valid) (h2 : T2.valid) :
    parse_loop (T1.tokens ++ tok :: T2.tokens ++ [")"]) parse_state.init
      = some (list_state ([T1.u, T2.u] ++ [EXPR_OP_AND].map open_group) []
          ([T1, T2].any terminal.is_action)) := by
  have e : T1.tokens ++ tok :: T2.tokens ++ [")"] = T1.tokens ++ tok :: (T2.tokens ++ [")"]) := by
    simp
  rw [e, parse_loop_terminal T1 h1 _
      (by intro; simpa using plain_arg_spells tok EXPR_OP_AND htok),
    init_list_state, insert_leaf_list_state, parse_loop_operator tok EXPR_OP_AND htok,
    op_stack_push_list_state, parse_loop_terminal T2 h2 _ (by intro; rfl),
    insert_leaf_list_state, parse_loop_operator ")" EXPR_OP_RBR rfl, op_stack_push_list_state]
  simp +decide [popped, kept, parse_loop, Bool.or_assoc]

/-- The token loop on `T1 -a T2 )` and on `T1 -a T2` leave the same postfix list. -/
theorem parse_tokens_pair_rbr (tok : String) (htok : spells tok EXPR_OP_AND)
    (T1 T2 : terminal) (h1 : T1.valid) (h2 : T2.valid) :
    parse_tokens (T1.tokens ++ tok :: T2.tokens ++ [")"]) 0
      = parse_tokens (T1.tokens ++ tok :: T2.tokens) 0 := by
  have hl := parse_chain_list tok EXPR_OP_AND htok (Or.inl rfl) T1 T2 [] h1 h2 (by simp)
  have hc : T1.tokens ++ chain_tokens tok [T2] = T1.tokens ++ tok :: T2.tokens := by
    simp [chain_tokens]
  rw [hc] at hl
  simp only [parse_tokens, List.drop_zero, hl, parse_pair_rbr tok htok T1 T2 h1 h2,
    op_stack_clean_list_state]
  simp

/-- The tree of `T1 -a T2`. -/
theorem pair_builds (tok : String) (htok : spells tok EXPR_OP_AND) (T1 T2 : terminal)
    (h1 : T1.valid) (h2 : T2.valid) :
    builds (T1.tokens ++ tok :: T2.tokens)
      (expected_root [T1, T2] (.group EXPR_OP_AND T1.leaf T2.leaf)) := by
  have hl := parse_chain_list tok EXPR_OP_AND htok (Or.inl rfl) T1 T2 [] h1 h2 (by simp)
  have hc : T1.tokens ++ chain_tokens tok [T2] = T1.tokens ++ tok :: T2.tokens := by
    simp [chain_tokens]
  rw [hc] at hl
  have hk := link_loop_chain EXPR_OP_AND (by decide) [T2] [] T1.u 4 none (by simp)
  unfold builds
  rw [parse_expressions_of_list _ 0 _ _ _ hl (by simp) _ _
    (by simpa [chain_us, open_group] using hk)]
  apply any_is_action_eq _ _ rfl
  rw [represents_seq_heap]
  have := tree_at_chain EXPR_OP_AND [T2] [] T1.u T1.leaf [] (tree_at_leaf _ _ T1 (by simp))
  simpa [left_nested] using this

/-- C26. A closing parenthesis without an opening one: when the token loop of
`parse_expressions` arrives at `)` while the operator stack holds no `(`, the step does
not fail: every operator of the stack, from the top down, is appended to the postfix list
as a group record, the stack is left empty and nothing else changes, and the loop goes
on with the next token.  In particular, for valid terminals `T1` and `T2` the parse of
`T1 -a T2 )` has the very outcome of the parse of `T1 -a T2`, the tree `AND(T1, T2)`
(beneath the default print when neither terminal is an action). -/
theorem stray_closing_parenthesis (argv : List String) (argpos : Nat) (rest : List String)
    (s : parse_state)
    (hreach : reaches (argv.drop argpos) parse_state.init (")" :: rest) s)
    (hno : EXPR_OP_LBR ∉ s.op_stack) :
    (∃ us ha, s = list_state us s.op_stack ha
      ∧ parse_step ")" rest.head? s
          = some (list_state (us ++ s.op_stack.map open_group) [] ha, false)
      ∧ reaches (argv.drop argpos) parse_state.init rest
          (list_state (us ++ s.op_stack.map open_group) [] ha))
    ∧ (∀ (tok : String) (T1 T2 : terminal), spells tok EXPR_OP_AND → T1.valid → T2.valid →
        parse_expressions (T1.tokens ++ tok :: T2.tokens ++ [")"]) 0
          = parse_expressions (T1.tokens ++ tok :: T2.tokens) 0
        ∧ builds (T1.tokens ++ tok :: T2.tokens ++ [")"])
            (expected_root [T1, T2] (.group EXPR_OP_AND T1.leaf T2.leaf))) := by
  constructor
  · obtain ⟨us, stk, ha, rfl⟩ :=
      reaches_list_state _ _ _ _ hreach ⟨[], [], false, init_list_state⟩
    rw [list_state_op_stack] at hno ⊢
    have hstep : parse_step ")" rest.head? (list_state us stk ha)
        = some (list_state (us ++ stk.map open_group) [] ha, false) := by
      rw [parse_step_operator ")" EXPR_OP_RBR rfl, op_stack_push_list_state]
      simp +decide [popped_rbr_all stk hno]
    refine ⟨us, ha, rfl, hstep, ?_⟩
    have := reaches_step _ _ ")" rest _ _ false hreach hstep
    simpa using this
  · intro tok T1 T2 htok h1 h2
    have he : parse_expressions (T1.tokens ++ tok :: T2.tokens ++ [")"]) 0
        = parse_expressions (T1.tokens ++ tok :: T2.tokens) 0 := by
      unfold parse_expressions
      rw [parse_tokens_pair_rbr tok htok T1 T2 h1 h2]
    refine ⟨he, ?_⟩
    unfold builds
    rw [he]
    exact pair_builds tok htok T1 T2 h1 h2

theorem stray_closing_parenthesis_witness :
    (∃ us ha,
      op_stack_push EXPR_OP_OR
          (insert_leaf (.test ⟨"empty", .expr_test_empty_clb, EXPR_ARG_NO⟩ none)
            parse_state.init)
        = list_state us
            (op_stack_push EXPR_OP_OR
              (insert_leaf (.test ⟨"empty", .expr_test_empty_clb, EXPR_ARG_NO⟩ none)
                parse_state.init)).op_stack ha
      ∧ parse_step ")" ["-print"].head?
          (op_stack_push EXPR_OP_OR
            (insert_leaf (.test ⟨"empty", .expr_test_empty_clb, EXPR_ARG_NO⟩ none)
              parse_state.init))
          = some (list_state (us ++
              (op_stack_push EXPR_OP_OR
                (insert_leaf (.test ⟨"empty", .expr_test_empty_clb, EXPR_ARG_NO⟩ none)
                  parse_state.init)).op_stack.map open_group) [] ha, false)
      ∧ reaches (["-empty", "-o", ")", "-print"].drop 0) parse_state.init ["-print"]
          (list_state (us ++
              (op_stack_push EXPR_OP_OR
                (insert_leaf (.test ⟨"empty", .expr_test_empty_clb, EXPR_ARG_NO⟩ none)
                  parse_state.init)).op_stack.map open_group) [] ha))
    ∧ parse_expressions ["-name", "a", "-a", "-print", ")"] 0
        = parse_expressions ["-name", "a", "-a", "-print"] 0 :=
  have key := stray_closing_parenthesis ["-empty", "-o", ")", "-print"] 0 ["-print"]
    (op_stack_push EXPR_OP_OR
      (insert_leaf (.test ⟨"empty", .expr_test_empty_clb, EXPR_ARG_NO⟩ none) parse_state.init))
    (reaches.next "-empty" ["-o", ")", "-print"] parse_state.init
      (insert_leaf (.test ⟨"empty", .expr_test_empty_clb, EXPR_ARG_NO⟩ none) parse_state.init)
      false _ _ (by decide)
      (reaches.next "-o" [")", "-print"]
        (insert_leaf (.test ⟨"empty", .expr_test_empty_clb, EXPR_ARG_NO⟩ none) parse_state.init)
        (op_stack_push EXPR_OP_OR
          (insert_leaf (.test ⟨"empty", .expr_test_empty_clb, EXPR_ARG_NO⟩ none)
            parse_state.init))
        false _ _ (by decide) (reaches.here _ _)))
    (by decide)
  ⟨key.1, (key.2 "-a" (.test ⟨"name", .expr_test_name_clb, EXPR_ARG_MAND⟩ (some "a"))
    (.action ⟨"print", .expr_action_print_clb, EXPR_ARG_NO⟩ none) (Or.inl rfl) (by decide)
    (by decide)).1⟩

/-- The stray `)` of the command line `-empty -o ) -print` moves the pending `-o` to the
postfix list and empties the stack. -/
theorem stray_rbr_sample :
    parse_step ")" (some "-print")
        (op_stack_push EXPR_OP_OR
          (insert_leaf (.test ⟨"empty", .expr_test_empty_clb, EXPR_ARG_NO⟩ none)
            parse_state.init))
      = some (list_state [.test .expr_test_empty_clb none, .group EXPR_OP_OR none none] []
          false, false) := by
  decide

/-! ## C27: long options -/

theorem parse_step_long (tok : String) (hdd : c_at tok 0 = '-' ∧ c_at tok 1 = '-')
    (nxt : Option String) (s : parse_state) : parse_step tok nxt s = none := by
  simp [parse_step, hdd.1, hdd.2]

/-- A failure of `parse_options` ends `main` before anything else is done. -/
theorem main_options_failure {σ : Type} (cb : callbacks σ) (os : sys) (lk : lookups)
    (fuel : Nat) (argv : List String) (w : σ) (h : (parse_options argv 1).1 = EXIT_FAILURE) :
    main cb os lk fuel argv w = some (EXIT_FAILURE, ⟨w, [], []⟩) := by
  unfold main
  simp [h, EXIT_FAILURE]

/-- A failure of `parse_expressions` ends `main` before the traversal. -/
theorem main_expressions_failure {σ : Type} (cb : callbacks σ) (os : sys) (lk : lookups)
    (fuel : Nat) (argv : List String) (w : σ)
    (h : parse_expressions argv (parse_paths argv (parse_options argv 1).2.1).2.1
      = .EXIT_FAILURE) :
    main cb os lk fuel argv w = some (EXIT_FAILURE, ⟨w, [], []⟩) := by
  have hstore : parse_expressions_store argv (parse_paths argv (parse_options argv 1).2.1).2.1
      none = some (EXIT_FAILURE, [], none) := by
    simp [parse_expressions_store, h]
  unfold main
  simp only [hstore]
  split_ifs <;> first | rfl | (exfalso; simp_all [EXIT_FAILURE])

/-- C27. Long options: a token `tok` with `tok[0] == '-'` and `tok[1] == '-'` makes both
parsers fail, whatever `global_options` returns for it (`EXIT_SUCCESS` for `--help` and
`--version`, `EXIT_FAILURE` for every other one).  When `parse_options` arrives at such a
token after a run of symlink options it returns `EXIT_FAILURE`; when the token loop of
`parse_expressions` arrives at it, `parse_expressions` returns `EXIT_FAILURE`, which
carries no tree; and in either case `main` returns `EXIT_FAILURE` with the outside world
as it found it: nothing is evaluated, looked up, opened or logged by a traversal. -/
theorem long_option_aborts (tok : String) (hdd : c_at tok 0 = '-' ∧ c_at tok 1 = '-') :
    long_option_call tok = some (global_options (c_from tok 2))
    ∧ (global_options "help").1 = EXIT_SUCCESS
    ∧ (global_options "version").1 = EXIT_SUCCESS
    ∧ (∀ arg, arg ≠ "help" → arg ≠ "version" → (global_options arg).1 = EXIT_FAILURE)
    ∧ (∀ pre run rest : List String, (∀ t ∈ run, is_symlink_option t) →
        (parse_options (pre ++ run ++ tok :: rest) pre.length).1 = EXIT_FAILURE
        ∧ (pre.length = 1 →
          ∀ (σ : Type) (cb : callbacks σ) (os : sys) (lk : lookups) (fuel : Nat) (w : σ),
            main cb os lk fuel (pre ++ run ++ tok :: rest) w
              = some (EXIT_FAILURE, ⟨w, [], []⟩)))
    ∧ (∀ (argv : List String) (argpos : Nat) (rest : List String) (s : parse_state),
        reaches (argv.drop argpos) parse_state.init (tok :: rest) s →
        parse_expressions argv argpos = .EXIT_FAILURE
        ∧ (∀ loc, parse_expressions_store argv argpos loc = some (EXIT_FAILURE, [], loc))
        ∧ (argpos = (parse_paths argv (parse_options argv 1).2.1).2.1 →
          ∀ (σ : Type) (cb : callbacks σ) (os : sys) (lk : lookups) (fuel : Nat) (w : σ),
            main cb os lk fuel argv w = some (EXIT_FAILURE, ⟨w, [], []⟩))) := by
  refine ⟨by simp [long_option_call, hdd.1, hdd.2], rfl, rfl, ?_, ?_, ?_⟩
  · intro arg h1 h2
    simp [global_options, h1, h2]
  · intro pre run rest hrun
    have hfail : (parse_options (pre ++ run ++ tok :: rest) pre.length).1 = EXIT_FAILURE := by
      unfold parse_options
      rw [List.append_assoc, List.drop_left, parse_options_loop_run run hrun, parse_options_loop]
      simp [hdd.1, hdd.2]
    refine ⟨hfail, ?_⟩
    intro hlen σ cb os lk fuel w
    rw [hlen] at hfail
    exact main_options_failure cb os lk fuel _ w hfail
  · intro argv argpos rest s hreach
    have hloop : parse_loop (argv.drop argpos) parse_state.init = none := by
      rw [reaches_parse_loop _ _ _ _ hreach, parse_loop_cons, parse_step_long tok hdd]
    have hfail : parse_expressions argv argpos = .EXIT_FAILURE := by
      simp [parse_expressions, parse_tokens, hloop]
    refine ⟨hfail, ?_, ?_⟩
    · intro loc
      simp [parse_expressions_store, hfail]
    · intro hpos σ cb os lk fuel w
      subst hpos
      exact main_expressions_failure cb os lk fuel argv w hfail

theorem long_option_aborts_witness :
    long_option_call "--help" = some (EXIT_SUCCESS, .usage)
    ∧ (parse_options (["rfind"] ++ ["-L"] ++ "--help" :: ["d"]) ["rfind"].length).1
        = EXIT_FAILURE
    ∧ (∀ (σ : Type) (cb : callbacks σ) (os : sys) (lk : lookups) (fuel : Nat) (w : σ),
        main cb os lk fuel (["rfind"] ++ ["-L"] ++ "--help" :: ["d"]) w
          = some (EXIT_FAILURE, ⟨w, [], []⟩))
    ∧ parse_expressions ["rfind", "d", "-empty", "--help"] 2 = .EXIT_FAILURE
    ∧ (∀ (σ : Type) (cb : callbacks σ) (os : sys) (lk : lookups) (fuel : Nat) (w : σ),
        main cb os lk fuel ["rfind", "d", "-empty", "--help"] w
          = some (EXIT_FAILURE, ⟨w, [], []⟩)) :=
  have key := long_option_aborts "--help" (by decide)
  have ko := key.2.2.2.2.1 ["rfind"] ["-L"] ["d"] (by decide)
  have ke := key.2.2.2.2.2 ["rfind", "d", "-empty", "--help"] 2 []
    (insert_leaf (.test ⟨"empty", .expr_test_empty_clb, EXPR_ARG_NO⟩ none) parse_state.init)
    (reaches.next "-empty" ["--help"] parse_state.init
      (insert_leaf (.test ⟨"empty", .expr_test_empty_clb, EXPR_ARG_NO⟩ none) parse_state.init)
      false _ _ (by decide) (reaches.here _ _))
  ⟨key.1, ko.1, ko.2 rfl, ke.1, ke.2.2 (by decide)⟩

/-- The same for `--version` and for an unknown long option, at either parser. -/
theorem long_option_samples :
    long_option_call "--version" = some (EXIT_SUCCESS, .version)
    ∧ long_option_call "--depth" = some (EXIT_FAILURE, .unknown_option "depth")
    ∧ (parse_options ["rfind", "--version"] 1).1 = EXIT_FAILURE
    ∧ (parse_options ["rfind", "-H", "--depth"] 1).1 = EXIT_FAILURE
    ∧ parse_expressions ["rfind", "d", "--version"] 2 = .EXIT_FAILURE
    ∧ parse_expressions ["rfind", "d", "-name", "a", "-o", "--depth"] 2 = .EXIT_FAILURE := by
  decide

/-! ## C28: loops through an ancestor -/

/-- An inode other than that of the top of the stack passes the loop check, whatever is
beneath the top. -/
theorem loop_check_ancestor (top : find_dir_stack) (below : List find_dir_stack)
    (st_ino : Nat) (h : st_ino ≠ top.inode) : loop_check (top :: below) st_ino = false := by
  rw [loop_check_cons]
  simpa using h

/-- C28. The loop check misses an ancestor: with the directories `a/b` (inode 2) and `a`
(inode 1) on the stack, an entry with inode 1 passes the check; and on the file system
of `cycle_files`, traversed with every link followed, the link `a/b/up` to the ancestor
`a` is evaluated and descended into, and so is `a/b/up/b`, until a lookup fails. -/
theorem ancestor_loop_missed :
    ([⟨2, "a/b"⟩, ⟨1, "a"⟩] : List find_dir_stack).any (fun d => decide (d.inode = 1)) = true
    ∧ loop_check [⟨2, "a/b"⟩, ⟨1, "a"⟩] 1 = false
    ∧ find record_visit cycle_sys cycle_lookups EXPR_FOLLOW_SYMLINKS 13 ["a"] ⟨[], [], []⟩
        = some (EXIT_SUCCESS,
            ⟨["a", "a/b", "a/b/up", "a/b/up/b"], [], [.no_information "a/b/up/b/up"]⟩) := by
  decide

/-! ## C29: the test for a directory -/

/-- The bit test `st_mode & S_IFDIR` by file type: it is non-zero for a directory, zero
for a regular file, a symbolic link, a FIFO and a character device, and non-zero for a
block device and for a socket. -/
theorem directory_bit_by_type (st_mode : Nat) :
    (st_mode &&& S_IFMT = S_IFDIR → st_mode &&& S_IFDIR ≠ 0)
    ∧ (st_mode &&& S_IFMT = S_IFREG ∨ st_mode &&& S_IFMT = S_IFLNK
        ∨ st_mode &&& S_IFMT = S_IFIFO ∨ st_mode &&& S_IFMT = S_IFCHR →
          st_mode &&& S_IFDIR = 0)
    ∧ (st_mode &&& S_IFMT = S_IFBLK ∨ st_mode &&& S_IFMT = S_IFSOCK →
          st_mode &&& S_IFDIR ≠ 0) := by
  refine ⟨?_, ?_, ?_⟩
  · intro h; rw [land_S_IFDIR, h]; decide
  · rintro (h | h | h | h) <;> rw [land_S_IFDIR, h] <;> decide
  · rintro (h | h) <;> rw [land_S_IFDIR, h] <;> decide

/-- C29. The test for a directory is not exact: for the mode 060660 of a block device and
the mode 0140755 of a socket, `st_mode & S_IFDIR` is non-zero although
`st_mode & S_IFMT` is not `S_IFDIR`.  On the file system of `socket_files` the
traversal therefore tries to open the socket `d/s` as a directory, fails, and returns
`EXIT_FAILURE` without having evaluated `d/f`; and `-empty` is false on the socket of
size 0. -/
theorem directory_test_inexact :
    (0o060660 &&& S_IFDIR ≠ 0 ∧ 0o060660 &&& S_IFMT = S_IFBLK ∧ S_IFBLK ≠ S_IFDIR)
    ∧ (0o140755 &&& S_IFDIR ≠ 0 ∧ 0o140755 &&& S_IFMT = S_IFSOCK ∧ S_IFSOCK ≠ S_IFDIR)
    ∧ find record_visit socket_sys socket_lookups EXPR_FOLLOW_NO_SYMLINKS 4 ["d"] ⟨[], [], []⟩
        = some (EXIT_FAILURE, ⟨["d", "d/s"], [], []⟩)
    ∧ expr_test_empty_clb socket_sys "d/s" "s" ⟨0o140755, 0, 2⟩ none = EXPR_FALSE := by
  decide

/-! ## C30: terminals that the linking pass drops -/

/-- C30. A terminal is dropped: on `-name a -o -name b -a -print` the parser succeeds
with the root at the record of `-o`; the record of `-print` is in the heap, but it is
not within reach of the root, and the leaves within reach are two, `-name a` and
`-name b`, for three terminals on the command line. -/
theorem terminal_dropped :
    parse_expressions ["-name", "a", "-o", "-name", "b", "-a", "-print"] 0
      = .EXIT_SUCCESS dropped_heap (some 4)
    ∧ dropped_heap[2]? = some ⟨.act .expr_action_print_clb none, some 3⟩
    ∧ reachable dropped_heap (some 4) = [4, 3, 0, 1]
    ∧ 2 ∉ reachable dropped_heap (some 4)
    ∧ reachable_leaves dropped_heap (some 4) = [0, 1] := by
  decide

/-- The same on two terminals without an operator between them: of `-name a -print`
only `-name a` is within reach of the root. -/
theorem adjacent_terminal_dropped :
    parse_expressions ["-name", "a", "-print"] 0 = .EXIT_SUCCESS adjacent_heap (some 0)
    ∧ reachable_leaves adjacent_heap (some 0) = [0] := by
  decide

/-! ## C31: the path of an entry -/

/-- The last character of a C string that is not empty is `s[strlen(s) - 1]`. -/
theorem getLast?_eq_c_at (p : String) (hp : p ≠ "") :
    p.data.getLast? = some (c_at p (p.length - 1)) := by
  have hne : p.data ≠ [] := by
    intro h
    apply hp
    cases p
    simp_all
  have hlen : p.data.length - 1 < p.data.length := by
    have := List.length_pos.mpr hne
    omega
  rw [List.getLast?_eq_getElem?]
  unfold c_at
  simp only [String.length]
  rw [List.getD_eq_getElem?_getD, List.getElem?_eq_getElem hlen]
  rfl

/-- The path `asprintf` makes, by the character `path[strlen(path) - 1]`. -/
theorem child_path_eq (p n : String) (hp : p ≠ "") :
    child_path p n = if c_at p (p.length - 1) = '/' then p ++ n else p ++ "/" ++ n := by
  unfold child_path
  rw [getLast?_eq_c_at p hp]
  by_cases h : c_at p (p.length - 1) = '/'
  · simp [h]
  · simp [h]

/-- One entry of the stream that is looked up and passes the loop check: what
`find_indir` does with its path. -/
theorem find_indir_entry {σ : Type} (ev : String → String → stat → σ → Option σ)
    (os : sys) (lk : lookups) (options fuel : Nat) (d_name : String) (more : List String)
    (path : String) (s : find_state σ) (st : stat)
    (hdot : d_name ≠ "." ∧ d_name ≠ "..")
    (hst : (find_stat lk (child_path path d_name) options false s).1 = some st)
    (hloop : loop_check s.dir_stack st.st_ino = false) :
    find_indir ev os lk options (fuel + 1) (d_name :: more) path s
      = match ev (child_path path d_name) d_name st s.world with
        | none => none
        | some w =>
          if st.st_mode &&& S_IFDIR ≠ 0 then
            match os.opendir (child_path path d_name) with
            | none => some (EXIT_FAILURE, { s with world := w })
            | some names =>
              match find_indir ev os lk options fuel names (child_path path d_name)
                  (dir_stack_push st.st_ino (child_path path d_name) { s with world := w }) with
              | none => none
              | some (rc, s3) =>
                if rc ≠ 0 then some (EXIT_FAILURE, dir_stack_pop s3)
                else find_indir ev os lk options fuel more path (dir_stack_pop s3)
          else find_indir ev os lk options fuel more path { s with world := w } := by
  rw [find_indir]
  simp only [hdot.1, hdot.2, if_false, find_stat_some lk _ options false s st hst, hloop,
    Bool.false_eq_true]

/-- C31. The path of an entry: for a directory path `p` that is not empty and an entry
name `n`, the path `asprintf` makes is `p ++ n` when `p[strlen(p) - 1]` is `/`, and
`p ++ "/" ++ n` otherwise; and this is the path `find_indir` works with on an entry
other than `.` and `..`: it is the path looked up, the path the expression is evaluated
on, the path given to `opendir`, the path pushed on the directory stack, and the
directory path of the descent. -/
theorem child_path_construction (p n : String) (hp : p ≠ "") :
    (c_at p (p.length - 1) = '/' → child_path p n = p ++ n)
    ∧ (c_at p (p.length - 1) ≠ '/' → child_path p n = p ++ "/" ++ n)
    ∧ ∀ fp : String,
        fp = (if c_at p (p.length - 1) = '/' then p ++ n else p ++ "/" ++ n) →
        ∀ (σ : Type) (ev : String → String → stat → σ → Option σ) (os : sys) (lk : lookups)
          (options fuel : Nat) (more : List String) (s : find_state σ) (st : stat),
          n ≠ "." ∧ n ≠ ".." →
          (find_stat lk fp options false s).1 = some st →
          loop_check s.dir_stack st.st_ino = false →
          find_indir ev os lk options (fuel + 1) (n :: more) p s
            = match ev fp n st s.world with
              | none => none
              | some w =>
                if st.st_mode &&& S_IFDIR ≠ 0 then
                  match os.opendir fp with
                  | none => some (EXIT_FAILURE, { s with world := w })
                  | some names =>
                    match find_indir ev os lk options fuel names fp
                        (dir_stack_push st.st_ino fp { s with world := w }) with
                    | none => none
                    | some (rc, s3) =>
                      if rc ≠ 0 then some (EXIT_FAILURE, dir_stack_pop s3)
                      else find_indir ev os lk options fuel more p (dir_stack_pop s3)
                else find_indir ev os lk options fuel more p { s with world := w } := by
  have hc := child_path_eq p n hp
  refine ⟨?_, ?_, ?_⟩
  · intro h
    rw [hc, if_pos h]
  · intro h
    rw [hc, if_neg h]
  · intro fp hfp σ ev os lk options fuel more s st hdot hst hloop
    rw [← hc] at hfp
    subst hfp
    exact find_indir_entry ev os lk options fuel n more p s st hdot hst hloop

theorem child_path_construction_witness :
    child_path "d" "f" = "d" ++ "/" ++ "f"
    ∧ child_path "d/" "f" = "d/" ++ "f"
    ∧ child_path "/" "etc" = "/" ++ "etc"
    ∧ find_indir record_visit open_sys open_lookups EXPR_FOLLOW_NO_SYMLINKS 2 ["f"] "d"
          ⟨["d"], [⟨1, "d"⟩], []⟩
        = some (EXIT_SUCCESS, ⟨["d", "d/f"], [⟨1, "d"⟩], []⟩)
    ∧ find_indir record_visit open_sys open_lookups EXPR_FOLLOW_NO_SYMLINKS 2 ["f"] "d/"
          ⟨["d/"], [⟨1, "d/"⟩], []⟩
        = some (EXIT_SUCCESS, ⟨["d/", "d/f"], [⟨1, "d/"⟩], []⟩) :=
  ⟨(child_path_construction "d" "f" (by decide)).2.1 (by decide),
   (child_path_construction "d/" "f" (by decide)).1 (by decide),
   (child_path_construction "/" "etc" (by decide)).1 (by decide),
   (child_path_construction "d" "f" (by decide)).2.2 "d/f" (by decide) (List String)
     record_visit open_sys open_lookups EXPR_FOLLOW_NO_SYMLINKS 1 [] ⟨["d"], [⟨1, "d"⟩], []⟩
     ⟨0o100644, 5, 3⟩ (by decide) (by decide) (by decide),
   (child_path_construction "d/" "f" (by decide)).2.2 "d/f" (by decide) (List String)
     record_visit open_sys open_lookups EXPR_FOLLOW_NO_SYMLINKS 1 [] ⟨["d/"], [⟨1, "d/"⟩], []⟩
     ⟨0o100644, 5, 3⟩ (by decide) (by decide) (by decide)⟩

end Rfind
